import Mathlib

/-!
# pommed: the event-device core (`pommed/evdev.c`)

A shallow embedding of `evdev.c` (the build without `__powerpc__`) and the
properties of its device registry, device classifier, event dispatcher, hot-plug
processing and multiplexing loop.

Conventions of the embedding:

* C `int` values (descriptors, return values, `ev.value`) are `Int`; the
  unsigned 16-bit fields of an identity and of an event are `Nat`.
* The file-scope globals `ev_fds`, `ifd` and the collaborator state the file
  writes (`kbd_bck_info`) are fields of `State`; every function takes the state
  and returns the new one.
* What the kernel answers (the return value of `epoll_ctl`, the bytes of a
  `read`, the result of an `ioctl`) is an extra argument of the function that
  asks for it.
* Every call to the kernel that changes something and every call to a
  collaborator is appended, in program order, to `State.trace`.
* `logmsg` and `logdebug` are diagnostics and are not modelled.
-/

namespace Pommed

/-! ## Constants of `linux/input.h` -/

def EV_KEY : Nat := 0x01
def EV_ABS : Nat := 0x03
def EV_SW : Nat := 0x05
def EV_SND : Nat := 0x12
def SND_TONE : Nat := 0x02
def SW_LID : Nat := 0x00
def BUS_USB : Nat := 0x03
def BUS_HOST : Nat := 0x19
/-- Defined by `evdev.c` itself when the kernel header lacks it. -/
def BUS_VIRTUAL : Nat := 0x06

/-! ## Calls and state -/

/-- The two values `STEP_UP` and `STEP_DOWN` passed to the stepping actuators. -/
inductive Step
  | STEP_UP
  | STEP_DOWN
  deriving DecidableEq, Repr

/-- The three masks `KBD_INHIBIT_IDLE`, `KBD_INHIBIT_LID`, `KBD_INHIBIT_USER`. -/
inductive InhibitReason
  | KBD_INHIBIT_IDLE
  | KBD_INHIBIT_LID
  | KBD_INHIBIT_USER
  deriving DecidableEq, Repr

/-- One entry of the trace: a kernel call or a collaborator call made by `evdev.c`. -/
inductive Call
  | epoll_ctl_add (fd : Int)
  | epoll_ctl_del (fd : Int)
  | close (fd : Int)
  | read (fd : Int)
  | open_rdwr (path : String)
  | lcd_backlight_step (dir : Step)
  | audio_toggle_mute
  | audio_step (dir : Step)
  | kbd_backlight_inhibit_set (mask : InhibitReason)
  | kbd_backlight_inhibit_clear (mask : InhibitReason)
  | kbd_backlight_inhibit_toggle (mask : InhibitReason)
  | kbd_backlight_toggle
  | kbd_backlight_step (dir : Step)
  | cd_eject
  | beep_beep
  | kbd_set_fnmode
  deriving DecidableEq, Repr

/-- The actuator calls: the named effects the dispatcher forwards (the spec's `Action`). -/
def Call.isAction : Call → Bool
  | .lcd_backlight_step _ => true
  | .audio_toggle_mute => true
  | .audio_step _ => true
  | .kbd_backlight_toggle => true
  | .kbd_backlight_step _ => true
  | .cd_eject => true
  | .beep_beep => true
  | _ => false

/-- Modelled from the spec: the inhibit word `kbd_bck_info.inhibit` of the absent
`kbd_backlight.c`, as the spec's InhibitState: a set of three named reasons, each
independently settable and clearable. -/
structure InhibitState where
  idle : Bool
  lid : Bool
  user : Bool
  deriving DecidableEq, Repr

/-- Modelled from the spec: whether a reason is set in the inhibit state. -/
def InhibitState.has (i : InhibitState) : InhibitReason → Bool
  | .KBD_INHIBIT_IDLE => i.idle
  | .KBD_INHIBIT_LID => i.lid
  | .KBD_INHIBIT_USER => i.user

/-- Modelled from the spec: `kbd_backlight_inhibit_set` of the absent `kbd_backlight.c`;
sets the one named reason. -/
def InhibitState.set (i : InhibitState) : InhibitReason → InhibitState
  | .KBD_INHIBIT_IDLE => { i with idle := true }
  | .KBD_INHIBIT_LID => { i with lid := true }
  | .KBD_INHIBIT_USER => { i with user := true }

/-- Modelled from the spec: `kbd_backlight_inhibit_clear` of the absent `kbd_backlight.c`;
clears the one named reason. -/
def InhibitState.clear (i : InhibitState) : InhibitReason → InhibitState
  | .KBD_INHIBIT_IDLE => { i with idle := false }
  | .KBD_INHIBIT_LID => { i with lid := false }
  | .KBD_INHIBIT_USER => { i with user := false }

/-- Modelled from the spec: `kbd_backlight_inhibit_toggle` of the absent `kbd_backlight.c`;
flips the one named reason. -/
def InhibitState.toggle (i : InhibitState) (r : InhibitReason) : InhibitState :=
  if i.has r then i.clear r else i.set r

/-- Modelled from the spec: the aggregate inhibited predicate, "any reason set". -/
def InhibitState.inhibited (i : InhibitState) : Bool :=
  i.idle || i.lid || i.user

/-- The state `evdev.c` reads and writes.

* `ev_fds`: the slot table `static int ev_fds[EVDEV_MAX]`; its length is `EVDEV_MAX`,
  a free slot holds `-1`.
* `epoll`: the interest list the kernel keeps for `epfd`.
* `ifd`: the inotify descriptor.
* `idle`: `kbd_bck_info.idle`.
* `inhibit`: `kbd_bck_info.inhibit`.
* `trace`: the calls made so far, oldest first. -/
structure State where
  ev_fds : List Int
  epoll : List Int
  ifd : Int
  idle : Int
  inhibit : InhibitState
  trace : List Call
  deriving DecidableEq, Repr

/-- The state right after the first loop of `evdev_init` (`ev_fds[i] = -1` for every
`i < EVDEV_MAX`), before any device is opened; `n` is `EVDEV_MAX`. -/
def init_state (n : Nat) : State :=
  { ev_fds := List.replicate n (-1), epoll := [], ifd := -1, idle := 0,
    inhibit := { idle := false, lid := false, user := false }, trace := [] }

/-! ## The kernel's side of `epoll_ctl` and `close` -/

/-- The interest list after `epoll_ctl(epfd, EPOLL_CTL_ADD, fd, _)` returned `ret`. -/
def kernel_epoll_add (ret : Int) (fd : Int) (ep : List Int) : List Int :=
  if ret < 0 then ep else if fd ∈ ep then ep else fd :: ep

/-- The interest list after `epoll_ctl(epfd, EPOLL_CTL_DEL, fd, NULL)` returned `ret`. -/
def kernel_epoll_del (ret : Int) (fd : Int) (ep : List Int) : List Int :=
  if ret < 0 then ep else ep.filter (fun x => x ≠ fd)

/-- The call `close(fd)`: recorded in the trace; the kernel drops a closed descriptor
from every interest list. -/
def sys_close (s : State) (fd : Int) : State :=
  { s with epoll := s.epoll.filter (fun x => x ≠ fd), trace := s.trace ++ [Call.close fd] }

/-! ## The registry: `evdev_add`, `evdev_remove` -/

/-- The slot loop shared by `evdev_add` and `evdev_remove`:
`for (i = 0; i < EVDEV_MAX; i++) if (ev_fds[i] == old) { ev_fds[i] = new; break; }`. -/
def first_slot_set (old new : Int) : List Int → List Int
  | [] => []
  | x :: xs => if x = old then new :: xs else x :: first_slot_set old new xs

/-- The function `evdev_add(fd)`; `ctl` is what `epoll_ctl` returns. -/
def evdev_add (s : State) (fd : Int) (ctl : Int) : Int × State :=
  let s1 : State := { s with ev_fds := first_slot_set (-1) fd s.ev_fds }
  let s2 : State := { s1 with epoll := kernel_epoll_add ctl fd s1.epoll,
                              trace := s1.trace ++ [Call.epoll_ctl_add fd] }
  if ctl < 0 then (-1, s2) else (0, s2)

/-- The function `evdev_remove(fd)`; `ctl` is what `epoll_ctl` returns. -/
def evdev_remove (s : State) (fd : Int) (ctl : Int) : State :=
  let s1 : State := { s with ev_fds := first_slot_set fd (-1) s.ev_fds }
  let s2 : State := { s1 with epoll := kernel_epoll_del ctl fd s1.epoll,
                              trace := s1.trace ++ [Call.epoll_ctl_del fd] }
  sys_close s2 fd

/-- One registry call, with the answer of `epoll_ctl` for it. -/
inductive RegCall
  | add (fd : Int) (ctl : Int)
  | remove (fd : Int) (ctl : Int)
  deriving DecidableEq, Repr

/-- Perform one registry call. -/
def reg_step (s : State) : RegCall → State
  | .add fd ctl => (evdev_add s fd ctl).2
  | .remove fd ctl => evdev_remove s fd ctl

/-- Perform a sequence of registry calls, in order. -/
def reg_run (s : State) (cs : List RegCall) : State :=
  cs.foldl reg_step s

/-- No descriptor is closed twice without an `evdev_add` of it in between: the trace never
shows `close fd ... close fd` without an `epoll_ctl(ADD, fd)` (which every `evdev_add(fd)`
issues) between the two. -/
def NoDoubleClose (t : List Call) : Prop :=
  ∀ (fd : Int) (pre mid post : List Call),
    t = pre ++ Call.close fd :: (mid ++ Call.close fd :: post) →
    Call.epoll_ctl_add fd ∈ mid

/-- Every `evdev_remove(fd)` of the sequence is issued for a valid descriptor that
occupies exactly one slot at that moment. -/
def removes_held_once : State → List RegCall → Bool
  | _, [] => true
  | s, .add fd ctl :: cs => removes_held_once (reg_step s (.add fd ctl)) cs
  | s, .remove fd ctl :: cs =>
      decide (fd ≠ -1) && decide (s.ev_fds.count fd = 1) &&
        removes_held_once (reg_step s (.remove fd ctl)) cs

/-- The sequence of `n` calls `evdev_add(first)`, `evdev_add(first + 1)`, ..., each with
`epoll_ctl` returning `0`. -/
def adds_from (first : Int) (n : Nat) : List RegCall :=
  (List.range n).map (fun i => RegCall.add (first + i) 0)

/-- Reading a trace newest call first: is the most recent `close(fd)` or
`epoll_ctl(ADD, fd)` a `close`? -/
def last_is_close (fd : Int) : List Call → Bool
  | [] => false
  | Call.close g :: t => if g = fd then true else last_is_close fd t
  | Call.epoll_ctl_add g :: t => if g = fd then false else last_is_close fd t
  | _ :: t => last_is_close fd t

/-! ## Configuration and header constants -/

/-- The array `unsigned short id[4]` filled by `ioctl(fd, EVIOCGID, id)`:
`id[ID_BUS]`, `id[ID_VENDOR]`, `id[ID_PRODUCT]`, `id[ID_VERSION]`. -/
structure Identity where
  bus : Nat
  vendor : Nat
  product : Nat
  version : Nat
  deriving DecidableEq, Repr

/-- What `evdev.c` takes from outside the file: the constants of the absent headers
(`evdev.h`, `pommed.h`), the sizes fixed by the platform, the configuration values it
reads and the platform hook `mops->evdev_identify`.

* `EVDEV_DIR`, `EVDEV_BASE`: the directory of the device nodes and the path of a node
  without its number.
* `has_kbd_backlight`: the value of `has_kbd_backlight()`.
* `kbd_cfg_auto_on`: whether `kbd_cfg.auto_on` is nonzero.
* `appleir_cfg_enabled`: whether `appleir_cfg.enabled` is nonzero.
* `evdev_identify`: the hook's return value and the collaborator calls it makes. -/
structure Config where
  BITS_PER_LONG : Nat
  sizeof_input_event : Nat
  EVDEV_DIR : String
  EVDEV_BASE : String
  USB_VENDOR_ID_APPLE : Nat
  USB_PRODUCT_ID_GEYSER3_ANSI : Nat
  USB_PRODUCT_ID_GEYSER3_ISO : Nat
  USB_PRODUCT_ID_GEYSER3_JIS : Nat
  USB_PRODUCT_ID_GEYSER4_ANSI : Nat
  USB_PRODUCT_ID_GEYSER4_ISO : Nat
  USB_PRODUCT_ID_GEYSER4_JIS : Nat
  USB_PRODUCT_ID_GEYSER4HF_ANSI : Nat
  USB_PRODUCT_ID_GEYSER4HF_ISO : Nat
  USB_PRODUCT_ID_GEYSER4HF_JIS : Nat
  USB_PRODUCT_ID_APPLEIR : Nat
  USB_PRODUCT_ID_APPLEIR_2 : Nat
  K_LCD_BCK_DOWN : Nat
  K_LCD_BCK_UP : Nat
  K_AUDIO_MUTE : Nat
  K_AUDIO_DOWN : Nat
  K_AUDIO_UP : Nat
  K_VIDEO_TOGGLE : Nat
  K_KBD_BCK_OFF : Nat
  K_KBD_BCK_DOWN : Nat
  K_KBD_BCK_UP : Nat
  K_CD_EJECT : Nat
  K_IR_FFWD : Nat
  K_IR_REWD : Nat
  K_IR_PLAY : Nat
  K_IR_MENU : Nat
  has_kbd_backlight : Bool
  kbd_cfg_auto_on : Bool
  appleir_cfg_enabled : Bool
  evdev_identify : Identity → Int × List Call

/-- The case labels of the `switch` of `evdev_process_events`, in source order. -/
def Config.key_codes (cfg : Config) : List Nat :=
  [cfg.K_LCD_BCK_DOWN, cfg.K_LCD_BCK_UP, cfg.K_AUDIO_MUTE, cfg.K_AUDIO_DOWN, cfg.K_AUDIO_UP,
   cfg.K_VIDEO_TOGGLE, cfg.K_KBD_BCK_OFF, cfg.K_KBD_BCK_DOWN, cfg.K_KBD_BCK_UP, cfg.K_CD_EJECT,
   cfg.K_IR_FFWD, cfg.K_IR_REWD, cfg.K_IR_PLAY, cfg.K_IR_MENU]

/-! ## Identity predicates (the build without `__powerpc__`) -/

/-- The function `evdev_is_geyser3(id)`: return value and calls made. -/
def evdev_is_geyser3 (cfg : Config) (id : Identity) : Int × List Call :=
  if id.bus ≠ BUS_USB then (0, [])
  else if id.vendor ≠ cfg.USB_VENDOR_ID_APPLE then (0, [])
  else if id.product = cfg.USB_PRODUCT_ID_GEYSER3_ANSI
      ∨ id.product = cfg.USB_PRODUCT_ID_GEYSER3_ISO
      ∨ id.product = cfg.USB_PRODUCT_ID_GEYSER3_JIS then (1, [Call.kbd_set_fnmode])
  else (0, [])

/-- The function `evdev_is_geyser4(id)`: return value and calls made. -/
def evdev_is_geyser4 (cfg : Config) (id : Identity) : Int × List Call :=
  if id.bus ≠ BUS_USB then (0, [])
  else if id.vendor ≠ cfg.USB_VENDOR_ID_APPLE then (0, [])
  else if id.product = cfg.USB_PRODUCT_ID_GEYSER4_ANSI
      ∨ id.product = cfg.USB_PRODUCT_ID_GEYSER4_ISO
      ∨ id.product = cfg.USB_PRODUCT_ID_GEYSER4_JIS then (1, [Call.kbd_set_fnmode])
  else (0, [])

/-- The function `evdev_is_geyser4hf(id)`: return value and calls made. -/
def evdev_is_geyser4hf (cfg : Config) (id : Identity) : Int × List Call :=
  if id.bus ≠ BUS_USB then (0, [])
  else if id.vendor ≠ cfg.USB_VENDOR_ID_APPLE then (0, [])
  else if id.product = cfg.USB_PRODUCT_ID_GEYSER4HF_ANSI
      ∨ id.product = cfg.USB_PRODUCT_ID_GEYSER4HF_ISO
      ∨ id.product = cfg.USB_PRODUCT_ID_GEYSER4HF_JIS then (1, [Call.kbd_set_fnmode])
  else (0, [])

/-- The function `evdev_is_appleir(id)` (Apple Remote IR receiver). -/
def evdev_is_appleir (cfg : Config) (id : Identity) : Int :=
  if id.bus ≠ BUS_USB then 0
  else if id.vendor ≠ cfg.USB_VENDOR_ID_APPLE then 0
  else if id.product = cfg.USB_PRODUCT_ID_APPLEIR
      ∨ id.product = cfg.USB_PRODUCT_ID_APPLEIR_2 then 1
  else 0

/-- The function `evdev_is_lidswitch(id)` (ACPI lid switch). -/
def evdev_is_lidswitch (id : Identity) : Int :=
  if id.bus ≠ BUS_HOST then 0
  else if id.vendor ≠ 0 then 0
  else if id.product = 0x0005 then 1
  else 0

/-- The function `evdev_is_mouseemu(id)` (Mouseemu virtual keyboard). -/
def evdev_is_mouseemu (id : Identity) : Int :=
  if id.bus ≠ BUS_VIRTUAL then 0
  else if id.vendor ≠ 0x001f then 0
  else if id.product = 0x001f then 1
  else 0

/-! ## The classifier: `evdev_try_add` -/

/-- The macro `test_bit(bit, array)`: `(array[LONG(bit)] >> OFF(bit)) & 1`, with
`LONG(x) = x / BITS_PER_LONG` and `OFF(x) = x % BITS_PER_LONG`; `array` is the row
`bit[0]` of unsigned longs. -/
def test_bit (cfg : Config) (bit : Nat) (array : List Nat) : Nat :=
  (array.getD (bit / cfg.BITS_PER_LONG) 0 >>> (bit % cfg.BITS_PER_LONG)) &&& 1

/-- The identity test at the head of `evdev_try_add`: true when the descriptor is kept
for the capability checks, false when it is discarded. -/
def identity_match (cfg : Config) (id : Identity) : Bool :=
  !(decide ((cfg.evdev_identify id).1 = 0)
    && !(cfg.appleir_cfg_enabled && decide (evdev_is_appleir cfg id ≠ 0))
    && !(cfg.has_kbd_backlight && decide (evdev_is_lidswitch id ≠ 0))
    && !(decide (evdev_is_mouseemu id ≠ 0)))

/-- The function `evdev_try_add(fd)`. `id` is what `ioctl(fd, EVIOCGID, id)` left in
`id`, `bit0` is the row `bit[0]` after `memset` and `ioctl(fd, EVIOCGBIT(0, EV_MAX), bit[0])`,
`ctl` is what `epoll_ctl` returns if `evdev_add` is reached. -/
def evdev_try_add (cfg : Config) (s : State) (fd : Int) (id : Identity) (bit0 : List Nat)
    (ctl : Int) : Int × State :=
  let s1 : State := { s with trace := s.trace ++ (cfg.evdev_identify id).2 }
  if identity_match cfg id = false then
    (-1, sys_close s1 fd)
  else if test_bit cfg EV_KEY bit0 = 0 then
    if test_bit cfg EV_SW bit0 = 0 then
      (-1, sys_close s1 fd)
    else
      evdev_add s1 fd ctl
  else if test_bit cfg EV_ABS bit0 ≠ 0 then
    (-1, sys_close s1 fd)
  else
    evdev_add s1 fd ctl

/-! ## The dispatcher: `evdev_process_events` -/

/-- The fields of `struct input_event` the dispatcher reads. -/
structure InputEvent where
  type : Nat
  code : Nat
  value : Int
  deriving DecidableEq, Repr

/-- A call to an actuator: recorded in the trace. -/
def call (s : State) (c : Call) : State :=
  { s with trace := s.trace ++ [c] }

/-- Modelled from the spec: the call `kbd_backlight_inhibit_set(mask)` into the absent
`kbd_backlight.c`; recorded in the trace, and the named reason is set. -/
def kbd_backlight_inhibit_set (s : State) (mask : InhibitReason) : State :=
  { s with inhibit := s.inhibit.set mask,
           trace := s.trace ++ [Call.kbd_backlight_inhibit_set mask] }

/-- Modelled from the spec: the call `kbd_backlight_inhibit_clear(mask)` into the absent
`kbd_backlight.c`; recorded in the trace, and the named reason is cleared. -/
def kbd_backlight_inhibit_clear (s : State) (mask : InhibitReason) : State :=
  { s with inhibit := s.inhibit.clear mask,
           trace := s.trace ++ [Call.kbd_backlight_inhibit_clear mask] }

/-- Modelled from the spec: the call `kbd_backlight_inhibit_toggle(mask)` into the absent
`kbd_backlight.c`; recorded in the trace, and the named reason is flipped. -/
def kbd_backlight_inhibit_toggle (s : State) (mask : InhibitReason) : State :=
  { s with inhibit := s.inhibit.toggle mask,
           trace := s.trace ++ [Call.kbd_backlight_inhibit_toggle mask] }

/-- The statement `switch (ev.code)` of `evdev_process_events`, case by case in source
order (C requires the case labels to be pairwise distinct). -/
def key_switch (cfg : Config) (s : State) (code : Nat) : State :=
  if code = cfg.K_LCD_BCK_DOWN then call s (Call.lcd_backlight_step Step.STEP_DOWN)
  else if code = cfg.K_LCD_BCK_UP then call s (Call.lcd_backlight_step Step.STEP_UP)
  else if code = cfg.K_AUDIO_MUTE then call s Call.audio_toggle_mute
  else if code = cfg.K_AUDIO_DOWN then call s (Call.audio_step Step.STEP_DOWN)
  else if code = cfg.K_AUDIO_UP then call s (Call.audio_step Step.STEP_UP)
  else if code = cfg.K_VIDEO_TOGGLE then s
  else if code = cfg.K_KBD_BCK_OFF then
    if cfg.has_kbd_backlight = false then s
    else if cfg.kbd_cfg_auto_on then kbd_backlight_inhibit_toggle s InhibitReason.KBD_INHIBIT_USER
    else call s Call.kbd_backlight_toggle
  else if code = cfg.K_KBD_BCK_DOWN then
    if cfg.has_kbd_backlight = false then s
    else call s (Call.kbd_backlight_step Step.STEP_DOWN)
  else if code = cfg.K_KBD_BCK_UP then
    if cfg.has_kbd_backlight = false then s
    else call s (Call.kbd_backlight_step Step.STEP_UP)
  else if code = cfg.K_CD_EJECT then call s Call.cd_eject
  else if code = cfg.K_IR_FFWD then s
  else if code = cfg.K_IR_REWD then s
  else if code = cfg.K_IR_PLAY then s
  else if code = cfg.K_IR_MENU then s
  else s

/-- The function `evdev_process_events(fd)`. `ret` is what
`read(fd, &ev, sizeof(struct input_event))` returned and `ev` is the content of the
buffer after the read. -/
def evdev_process_events (cfg : Config) (s : State) (fd : Int) (ret : Int)
    (ev : InputEvent) : State :=
  let s0 : State := call s (Call.read fd)
  if ret ≠ (cfg.sizeof_input_event : Int) then s0
  else if ev.type = EV_KEY then
    if ev.value = 0 then s0
    else
      let s1 : State := { s0 with idle := 0 }
      let s2 : State := kbd_backlight_inhibit_clear s1 InhibitReason.KBD_INHIBIT_IDLE
      key_switch cfg s2 ev.code
  else if ev.type = EV_SND then
    if ev.code = SND_TONE ∧ ev.value > 0 then call s0 Call.beep_beep else s0
  else if ev.type = EV_SW then
    if ev.code = SW_LID then
      if ev.value ≠ 0 then kbd_backlight_inhibit_set s0 InhibitReason.KBD_INHIBIT_LID
      else kbd_backlight_inhibit_clear s0 InhibitReason.KBD_INHIBIT_LID
    else s0
  else s0

/-- The actuator calls of a trace, in order. -/
def actions (t : List Call) : List Call :=
  t.filter Call.isAction

/-- The calls made on the way from state `s` to the later state `s2`. -/
def new_calls (s s2 : State) : List Call :=
  s2.trace.drop s.trace.length

/-- The code-to-action table in the spec's words, with the keyboard-backlight gate on all
three keyboard-backlight keys: display-brightness down/up, mute, volume down/up, eject give
one actuator call each; keyboard-brightness down/up give one step call if a keyboard
backlight is present; the keyboard-backlight toggle key gives one `kbd_backlight_toggle` if
a keyboard backlight is present and auto-on is not set (with auto-on set it toggles the
user-inhibit reason instead and calls no actuator); video-toggle and the four IR codes give
no action. -/
def spec_action_table (cfg : Config) : List (Nat × List Call) :=
  [ (cfg.K_LCD_BCK_DOWN, [Call.lcd_backlight_step Step.STEP_DOWN]),
    (cfg.K_LCD_BCK_UP, [Call.lcd_backlight_step Step.STEP_UP]),
    (cfg.K_AUDIO_MUTE, [Call.audio_toggle_mute]),
    (cfg.K_AUDIO_DOWN, [Call.audio_step Step.STEP_DOWN]),
    (cfg.K_AUDIO_UP, [Call.audio_step Step.STEP_UP]),
    (cfg.K_CD_EJECT, [Call.cd_eject]),
    (cfg.K_KBD_BCK_DOWN,
      if cfg.has_kbd_backlight then [Call.kbd_backlight_step Step.STEP_DOWN] else []),
    (cfg.K_KBD_BCK_UP,
      if cfg.has_kbd_backlight then [Call.kbd_backlight_step Step.STEP_UP] else []),
    (cfg.K_KBD_BCK_OFF,
      if cfg.has_kbd_backlight && !cfg.kbd_cfg_auto_on then [Call.kbd_backlight_toggle] else []),
    (cfg.K_VIDEO_TOGGLE, []),
    (cfg.K_IR_FFWD, []),
    (cfg.K_IR_REWD, []),
    (cfg.K_IR_PLAY, []),
    (cfg.K_IR_MENU, []) ]

/-- What the `switch` on the key code leaves alone between `s` and `s2`: the idle counter,
the idle and lid reasons, the slot table, the epoll set and `ifd`; the trace only grows. -/
def key_frame (s s2 : State) : Prop :=
  s2.idle = s.idle ∧ s2.inhibit.idle = s.inhibit.idle ∧ s2.inhibit.lid = s.inhibit.lid ∧
  s2.ev_fds = s.ev_fds ∧ s2.epoll = s.epoll ∧ s2.ifd = s.ifd ∧
  ∃ extra, s2.trace = s.trace ++ extra

/-- A chain `if code = k1 then v1 else if code = k2 then v2 else ... else dflt`, the shape
of `key_switch`, over a list of labelled results. -/
def chain_eval (dflt : State) : List (Nat × State) → Nat → State
  | [], _ => dflt
  | (k, v) :: rest, code => if code = k then v else chain_eval dflt rest code

/-- The labelled results of `key_switch`, in source order. -/
def key_switch_cases (cfg : Config) (s : State) : List (Nat × State) :=
  [ (cfg.K_LCD_BCK_DOWN, call s (Call.lcd_backlight_step Step.STEP_DOWN)),
    (cfg.K_LCD_BCK_UP, call s (Call.lcd_backlight_step Step.STEP_UP)),
    (cfg.K_AUDIO_MUTE, call s Call.audio_toggle_mute),
    (cfg.K_AUDIO_DOWN, call s (Call.audio_step Step.STEP_DOWN)),
    (cfg.K_AUDIO_UP, call s (Call.audio_step Step.STEP_UP)),
    (cfg.K_VIDEO_TOGGLE, s),
    (cfg.K_KBD_BCK_OFF,
      if cfg.has_kbd_backlight = false then s
      else if cfg.kbd_cfg_auto_on then
        kbd_backlight_inhibit_toggle s InhibitReason.KBD_INHIBIT_USER
      else call s Call.kbd_backlight_toggle),
    (cfg.K_KBD_BCK_DOWN,
      if cfg.has_kbd_backlight = false then s
      else call s (Call.kbd_backlight_step Step.STEP_DOWN)),
    (cfg.K_KBD_BCK_UP,
      if cfg.has_kbd_backlight = false then s
      else call s (Call.kbd_backlight_step Step.STEP_UP)),
    (cfg.K_CD_EJECT, call s Call.cd_eject),
    (cfg.K_IR_FFWD, s),
    (cfg.K_IR_REWD, s),
    (cfg.K_IR_PLAY, s),
    (cfg.K_IR_MENU, s) ]

/-! ## A concrete configuration

The values of pommed's `evdev.h` on a 64-bit build of a MacBook Pro with a keyboard
backlight (`mops->evdev_identify` is `evdev_is_geyser4`). Used to evaluate the
definitions on concrete inputs. -/

/-- A concrete configuration: the Geyser IV MacBook Pro, 64-bit. -/
def macbookpro : Config :=
  { BITS_PER_LONG := 64
    sizeof_input_event := 24
    EVDEV_DIR := "/dev/input"
    EVDEV_BASE := "/dev/input/event"
    USB_VENDOR_ID_APPLE := 0x05ac
    USB_PRODUCT_ID_GEYSER3_ANSI := 0x0217
    USB_PRODUCT_ID_GEYSER3_ISO := 0x0218
    USB_PRODUCT_ID_GEYSER3_JIS := 0x0219
    USB_PRODUCT_ID_GEYSER4_ANSI := 0x021a
    USB_PRODUCT_ID_GEYSER4_ISO := 0x021b
    USB_PRODUCT_ID_GEYSER4_JIS := 0x021c
    USB_PRODUCT_ID_GEYSER4HF_ANSI := 0x0229
    USB_PRODUCT_ID_GEYSER4HF_ISO := 0x022a
    USB_PRODUCT_ID_GEYSER4HF_JIS := 0x022b
    USB_PRODUCT_ID_APPLEIR := 0x8240
    USB_PRODUCT_ID_APPLEIR_2 := 0x8242
    K_LCD_BCK_DOWN := 0xe0
    K_LCD_BCK_UP := 0xe1
    K_AUDIO_MUTE := 0x71
    K_AUDIO_DOWN := 0x72
    K_AUDIO_UP := 0x73
    K_VIDEO_TOGGLE := 0xe3
    K_KBD_BCK_OFF := 0xe4
    K_KBD_BCK_DOWN := 0xe5
    K_KBD_BCK_UP := 0xe6
    K_CD_EJECT := 0xa1
    K_IR_FFWD := 0xa3
    K_IR_REWD := 0xa5
    K_IR_PLAY := 0xa4
    K_IR_MENU := 0x8b
    has_kbd_backlight := true
    kbd_cfg_auto_on := false
    appleir_cfg_enabled := false
    evdev_identify := fun id =>
      if id.bus ≠ BUS_USB then (0, [])
      else if id.vendor ≠ 0x05ac then (0, [])
      else if id.product = 0x021a ∨ id.product = 0x021b ∨ id.product = 0x021c then
        (1, [Call.kbd_set_fnmode])
      else (0, []) }

/-- The same machine without a keyboard backlight (a MacBook). -/
def macbook : Config :=
  { macbookpro with has_kbd_backlight := false }

/-! ## Hot-plug: `evdev_inotify_process` -/

/-- Constants of `sys/epoll.h` and `errno.h`. -/
def EPOLLIN : Nat := 0x001
def EPOLLERR : Nat := 0x008
def EPOLLHUP : Nat := 0x010
def EINTR : Int := 4

/-- The C library's `strncmp(a, b, n)` on two C strings given as the characters before
their terminator; only the sign of the result is specified, so it is -1, 0 or 1. -/
def strncmp : List Char → List Char → Nat → Int
  | _, _, 0 => 0
  | [], [], _ + 1 => 0
  | [], _ :: _, _ + 1 => -1
  | _ :: _, [], _ + 1 => 1
  | a :: as, b :: bs, n + 1 =>
      if a = b then strncmp as bs n else if a.toNat < b.toNat then -1 else 1

/-- What the kernel answers during one `evdev_inotify_process`:

* `ret`: the return value of `read(ifd, ie, sizeof(ie))`;
* `len`, `name`: the fields `ie[0].len` and `ie[0].name` (a C string) after the read;
* `fd`: the return value of `open(evdev, O_RDWR)`;
* `id`, `bit0`, `ctl`: the answers for the `evdev_try_add` that follows. -/
structure InotifyAnswers where
  ret : Int
  len : Nat
  name : String
  fd : Int
  id : Identity
  bit0 : List Nat
  ctl : Int

/-- The function `evdev_inotify_process()`. The test `ie[0].name == NULL` is on an array
member and never holds. `snprintf` returns the length in bytes of `EVDEV_DIR "/" name`. -/
def evdev_inotify_process (cfg : Config) (s : State) (a : InotifyAnswers) : State :=
  let s0 : State := call s (Call.read s.ifd)
  if a.ret < 0 then s0
  else if a.len = 0 then s0
  else if strncmp "event".toList a.name.toList 5 ≠ 0 then s0
  else
    let ret : Int := ((cfg.EVDEV_DIR ++ "/" ++ a.name).utf8ByteSize : Int)
    if ret ≤ 0 ∨ ret > 31 then s0
    else
      let s1 : State := call s0 (Call.open_rdwr (cfg.EVDEV_DIR ++ "/" ++ a.name))
      (evdev_try_add cfg s1 a.fd a.id a.bit0 a.ctl).2

/-- What the kernel answers for one iteration of the discovery loop of `evdev_init`: the
return value of `open` and the answers for the `evdev_try_add` that may follow. -/
structure ProbeAnswers where
  fd : Int
  id : Identity
  bit0 : List Nat
  ctl : Int

/-- One iteration of the discovery loop of `evdev_init` (the second `for` loop), for the
index `i`, on the state and the counter `ndevs`; `none` is the `return -1` taken when
`snprintf` reports a path (its length in bytes) that does not fit. -/
def evdev_init_probe (cfg : Config) (acc : State × Int) (i : Nat) (a : ProbeAnswers) :
    Option (State × Int) :=
  let ret : Int := ((cfg.EVDEV_BASE ++ Nat.repr i).utf8ByteSize : Int)
  if ret ≤ 0 ∨ ret > 31 then none
  else
    let s1 : State := call acc.1 (Call.open_rdwr (cfg.EVDEV_BASE ++ Nat.repr i))
    if a.fd < 0 then some (s1, acc.2)
    else
      let r := evdev_try_add cfg s1 a.fd a.id a.bit0 a.ctl
      if r.1 = 0 then some (r.2, acc.2 + 1) else some (r.2, acc.2)

/-! ## The multiplexer: `evdev_event_loop` -/

/-- One entry `events[i]` filled by `epoll_wait`, with what the kernel answers while the
entry is handled:

* `events`, `fd`: the fields `events[i].events` and `events[i].data.fd`;
* `ctl`: the return value of `epoll_ctl` if `evdev_remove` is called for the entry;
* `ret`, `ev`: the result of the `read` if `evdev_process_events` is called for it. -/
structure Ready where
  events : Nat
  fd : Int
  ctl : Int
  ret : Int
  ev : InputEvent
  deriving DecidableEq, Repr

/-- The test `events[i].events & (EPOLLERR | EPOLLHUP)`. -/
def Ready.err_hup (e : Ready) : Bool :=
  decide (e.events &&& (EPOLLERR ||| EPOLLHUP) ≠ 0)

/-- The test `events[i].events & EPOLLIN`. -/
def Ready.readable (e : Ready) : Bool :=
  decide (e.events &&& EPOLLIN ≠ 0)

/-- The body of the `for` loop of `evdev_event_loop` for one entry, on the state and the
local flag `inotify`. The comparison with `beep_info.fd` only selects a log message. -/
def event_loop_body (cfg : Config) (acc : State × Bool) (e : Ready) : State × Bool :=
  if e.err_hup then
    let s1 : State := if e.fd = acc.1.ifd then { acc.1 with ifd := -1 } else acc.1
    (evdev_remove s1 e.fd e.ctl, acc.2)
  else if e.readable then
    if e.fd = acc.1.ifd then (acc.1, true)
    else (evdev_process_events cfg acc.1 e.fd e.ret e.ev, acc.2)
  else acc

/-- The `for (i = 0; i < nfds; i++)` loop of `evdev_event_loop` over the entries. -/
def event_loop_scan (cfg : Config) (acc : State × Bool) (es : List Ready) : State × Bool :=
  es.foldl (event_loop_body cfg) acc

/-- The function `evdev_event_loop()`. `nfds` and `errno` are the result of `epoll_wait`,
`events` the array it filled (the kernel fills `nfds` entries), `ino` the answers for
`evdev_inotify_process` if it is called. -/
def evdev_event_loop (cfg : Config) (s : State) (nfds errno : Int) (events : List Ready)
    (ino : InotifyAnswers) : Int × State :=
  if nfds < 0 then
    if errno = EINTR then (1, s) else (-1, s)
  else
    let r := event_loop_scan cfg (s, false) (events.take nfds.toNat)
    if r.2 then (nfds, evdev_inotify_process cfg r.1 ino) else (nfds, r.1)

/-- Whether `evdev_event_loop` calls `evdev_inotify_process` in this call. -/
def inotify_invoked (cfg : Config) (s : State) (nfds : Int) (events : List Ready) : Bool :=
  decide (0 ≤ nfds) && (event_loop_scan cfg (s, false) (events.take nfds.toNat)).2

/-- The answers of the kernel for one call of `evdev_event_loop`. -/
structure Cycle where
  nfds : Int
  errno : Int
  events : List Ready
  ino : InotifyAnswers

/-- The state after one call of `evdev_event_loop`. -/
def run_cycle (cfg : Config) (s : State) (c : Cycle) : State :=
  (evdev_event_loop cfg s c.nfds c.errno c.events c.ino).2

/-- The state after a sequence of calls of `evdev_event_loop`, in order. -/
def run_cycles (cfg : Config) (s : State) (cs : List Cycle) : State :=
  cs.foldl (run_cycle cfg) s

/-- Every entry the kernel reports in the cycle carries a valid descriptor. -/
def Cycle.valid (c : Cycle) : Bool :=
  c.events.all (fun e => decide (0 ≤ e.fd))

/-- The descriptors closed in a trace, in order. -/
def closes : List Call → List Int
  | [] => []
  | Call.close fd :: t => fd :: closes t
  | _ :: t => closes t

/-- The kernel calls of the trace (the other calls go to collaborators). -/
def Call.isKernel : Call → Bool
  | .epoll_ctl_add _ => true
  | .epoll_ctl_del _ => true
  | .close _ => true
  | .read _ => true
  | .open_rdwr _ => true
  | _ => false

/-- The signature of a keyboard family in the claim's words: the bus is USB, the vendor is
Apple and the product is one of the family's three ids (ANSI, ISO, JIS). -/
def geyser_signature (cfg : Config) (ansi iso jis : Nat) (id : Identity) : Bool :=
  decide (id.bus = BUS_USB) && decide (id.vendor = cfg.USB_VENDOR_ID_APPLE) &&
    decide (id.product = ansi ∨ id.product = iso ∨ id.product = jis)

/-- What C20 says of the result `p` of a family predicate whose signature test is `sig`:
it returns 1 exactly on the signature and 0 otherwise, and calls `kbd_set_fnmode` exactly
once when it returns 1 and makes no call when it returns 0. -/
def fnmode_law (p : Int × List Call) (sig : Bool) : Prop :=
  (p.1 = 1 ↔ sig = true) ∧ (p.1 = 0 ↔ sig = false) ∧
    (p.1 = 1 → p.2 = [Call.kbd_set_fnmode]) ∧ (p.1 = 0 → p.2 = [])

/-- What the dispatcher leaves alone between `s` and `s2`: the slot table, the epoll set and
`ifd`; the trace grows by collaborator calls only. -/
def dispatch_frame (s s2 : State) : Prop :=
  s2.ev_fds = s.ev_fds ∧ s2.epoll = s.epoll ∧ s2.ifd = s.ifd ∧
  ∃ extra, s2.trace = s.trace ++ extra ∧ ∀ c ∈ extra, Call.isKernel c = false

/-- The entry signals read-readiness, without error or hang-up, on the descriptor that is
the watcher's (`ifd`) in state `s`. -/
def Ready.for_watcher (e : Ready) (s : State) : Bool :=
  !e.err_hup && e.readable && decide (e.fd = s.ifd)

/-- The calls made while the loop of `evdev_event_loop` handles the entry `e` in state `s`. -/
def entry_calls (cfg : Config) (s : State) (e : Ready) : List Call :=
  new_calls s (event_loop_body cfg (s, false) e).1

/-- The calls made by the loop of `evdev_event_loop` over the entries from state `s`: those
of the first entry, then those of the second made in the state the first left, and so on. -/
def loop_calls (cfg : Config) : State → List Ready → List Call
  | _, [] => []
  | s, e :: es => entry_calls cfg s e ++ loop_calls cfg (event_loop_body cfg (s, false) e).1 es

/-- The states `a` and `b` grew from `s` and `t` by the same calls. -/
def same_calls (s t a b : State) : Prop :=
  ∃ x, a.trace = s.trace ++ x ∧ b.trace = t.trace ++ x

/-! ## What one cycle is expected to call -/

/-- The calls `evdev_process_events` makes for one read; they do not depend on the state
it is called in. -/
def dispatcher_calls (cfg : Config) (fd ret : Int) (ev : InputEvent) : List Call :=
  new_calls (init_state 0) (evdev_process_events cfg (init_state 0) fd ret ev)

/-- The calls `evdev_inotify_process` makes when the watcher's descriptor is `w`; they do
not depend on the rest of the state. -/
def hotplug_calls (cfg : Config) (w : Int) (a : InotifyAnswers) : List Call :=
  new_calls { init_state 0 with ifd := w }
    (evdev_inotify_process cfg { init_state 0 with ifd := w } a)

/-- The entry signals read-readiness, without error or hang-up, on the descriptor `w`. -/
def Ready.watcher_ready (e : Ready) (w : Int) : Bool :=
  !e.err_hup && e.readable && decide (e.fd = w)

/-- The calls expected while one ready entry is examined, the watcher's descriptor being
`w`: an entry with error or hang-up is deregistered and closed and nothing else; an entry
with read-readiness on a descriptor other than the watcher's is dispatched; any other
entry, one with read-readiness on the watcher included, causes no call. -/
def expected_entry_calls (cfg : Config) (w : Int) (e : Ready) : List Call :=
  if e.err_hup then [Call.epoll_ctl_del e.fd, Call.close e.fd]
  else if e.readable && decide (e.fd ≠ w) then dispatcher_calls cfg e.fd e.ret e.ev
  else []

/-- The watcher's descriptor after an entry is examined: lost (-1) if the entry reports
error or hang-up on it. -/
def watcher_after (w : Int) (e : Ready) : Int :=
  if e.err_hup && decide (e.fd = w) then -1 else w

/-- The watcher's descriptor after the entries are examined, in order. -/
def watcher_after_all (w : Int) (es : List Ready) : Int :=
  es.foldl watcher_after w

/-- The calls expected while the ready entries are examined, entry by entry in the order
reported. -/
def expected_calls (cfg : Config) : Int → List Ready → List Call
  | _, [] => []
  | w, e :: es => expected_entry_calls cfg w e ++ expected_calls cfg (watcher_after w e) es

/-- The call is none of those `evdev_inotify_process` starts with or leads to when the
watcher is lost: the `read` of descriptor -1, an `open`, an `epoll_ctl(ADD)`. -/
def Call.no_hotplug : Call → Bool
  | .read fd => decide (fd ≠ -1)
  | .open_rdwr _ => false
  | .epoll_ctl_add _ => false
  | _ => true

/-! ## Reachable states of the registry -/

/-- The descriptor is held in no slot (as a descriptor just returned by `open` is), or is
the free marker -1. -/
def State.fresh (s : State) (fd : Int) : Bool :=
  decide (fd = -1) || !decide (fd ∈ s.ev_fds)

/-- No two occupied slots hold the same descriptor: every descriptor other than the free
marker -1 is in at most one slot. -/
def slots_unique (t : List Int) : Prop :=
  ∀ fd : Int, fd ≠ -1 → t.count fd ≤ 1

/-- Every descriptor held in a slot is registered in the epoll set. -/
def registered (s : State) : Prop :=
  ∀ fd ∈ s.ev_fds, fd ≠ -1 → fd ∈ s.epoll

/-- Every `evdev_add(fd)` of the sequence is issued for a descriptor held in no slot at
that moment. -/
def adds_fresh : State → List RegCall → Bool
  | _, [] => true
  | s, .add fd ctl :: cs => s.fresh fd && adds_fresh (reg_step s (.add fd ctl)) cs
  | s, .remove fd ctl :: cs => adds_fresh (reg_step s (.remove fd ctl)) cs

/-- One call into the registry or the multiplexer, with the kernel's answers for it. -/
inductive Op
  | add (fd ctl : Int)
  | try_add (fd : Int) (id : Identity) (bit0 : List Nat) (ctl : Int)
  | remove (fd ctl : Int)
  | event_loop (c : Cycle)

/-- Perform one call. -/
def op_step (cfg : Config) (s : State) : Op → State
  | .add fd ctl => (evdev_add s fd ctl).2
  | .try_add fd id bit0 ctl => (evdev_try_add cfg s fd id bit0 ctl).2
  | .remove fd ctl => evdev_remove s fd ctl
  | .event_loop c => run_cycle cfg s c

/-- Perform a sequence of calls, in order. -/
def op_run (cfg : Config) (s : State) (ops : List Op) : State :=
  ops.foldl (op_step cfg) s

/-- Every `epoll_ctl(ADD)` of the sequence succeeds and every descriptor handed to
`evdev_add` or `evdev_try_add` (the one opened by the hot-plug processing of a cycle
included) is held in no slot at that moment. -/
def op_guard (cfg : Config) : State → List Op → Bool
  | _, [] => true
  | s, .add fd ctl :: ops =>
      decide (0 ≤ ctl) && s.fresh fd && op_guard cfg (op_step cfg s (.add fd ctl)) ops
  | s, .try_add fd id bit0 ctl :: ops =>
      decide (0 ≤ ctl) && s.fresh fd
        && op_guard cfg (op_step cfg s (.try_add fd id bit0 ctl)) ops
  | s, .remove fd ctl :: ops => op_guard cfg (op_step cfg s (.remove fd ctl)) ops
  | s, .event_loop c :: ops =>
      decide (0 ≤ c.ino.ctl)
        && (event_loop_scan cfg (s, false) (c.events.take c.nfds.toNat)).1.fresh c.ino.fd
        && op_guard cfg (op_step cfg s (.event_loop c)) ops

/-! # Theorems -/

/-! ## Lemmas on the slot loop -/

theorem first_slot_set_of_not_mem (old new : Int) (l : List Int) (h : old ∉ l) :
    first_slot_set old new l = l := by
  induction l with
  | nil => rfl
  | cons x xs ih =>
    have hx : x ≠ old := fun e => h (by simp [e])
    have hxs : old ∉ xs := fun e => h (by simp [e])
    simp [first_slot_set, hx, ih hxs]

theorem first_slot_set_self (a : Int) (l : List Int) : first_slot_set a a l = l := by
  induction l with
  | nil => rfl
  | cons x xs ih =>
    by_cases hx : x = a
    · simp [first_slot_set, hx]
    · simp [first_slot_set, hx, ih]

theorem length_first_slot_set (old new : Int) (l : List Int) :
    (first_slot_set old new l).length = l.length := by
  induction l with
  | nil => rfl
  | cons x xs ih =>
    by_cases hx : x = old
    · simp [first_slot_set, hx]
    · simp [first_slot_set, hx, ih]

theorem mem_of_mem_first_slot_set (old new x : Int) (l : List Int)
    (h : x ∈ first_slot_set old new l) : x ∈ l ∨ x = new := by
  induction l with
  | nil => simp [first_slot_set] at h
  | cons y ys ih =>
    by_cases hy : y = old
    · simp [first_slot_set, hy] at h
      rcases h with h | h
      · exact Or.inr h
      · exact Or.inl (by simp [h])
    · simp [first_slot_set, hy] at h
      rcases h with h | h
      · exact Or.inl (by simp [h])
      · rcases ih h with h1 | h1
        · exact Or.inl (by simp [h1])
        · exact Or.inr h1

theorem count_first_slot_set (old new : Int) (l : List Int) (hne : old ≠ new)
    (h : old ∈ l) : (first_slot_set old new l).count old + 1 = l.count old := by
  induction l with
  | nil => simp at h
  | cons y ys ih =>
    by_cases hy : y = old
    · subst hy
      have : ¬ (new = y) := fun e => hne e.symm
      simp [first_slot_set, List.count_cons, this]
    · have hm : old ∈ ys := by
        rcases List.mem_cons.mp h with h1 | h1
        · exact absurd h1.symm hy
        · exact h1
      simp [first_slot_set, hy, List.count_cons, ih hm]

theorem first_slot_set_ne_of_mem (old new : Int) (l : List Int) (hne : old ≠ new)
    (h : old ∈ l) : first_slot_set old new l ≠ l := by
  intro e
  have := count_first_slot_set old new l hne h
  rw [e] at this
  omega

theorem not_mem_first_slot_set_of_count_le_one (old new : Int) (l : List Int)
    (hne : old ≠ new) (h : l.count old ≤ 1) : old ∉ first_slot_set old new l := by
  by_cases hm : old ∈ l
  · have := count_first_slot_set old new l hne hm
    have h0 : (first_slot_set old new l).count old = 0 := by omega
    exact List.count_eq_zero.mp h0
  · rw [first_slot_set_of_not_mem old new l hm]; exact hm

theorem count_new_first_slot_set (old new : Int) (l : List Int) (hne : old ≠ new)
    (h : old ∈ l) : (first_slot_set old new l).count new = l.count new + 1 := by
  induction l with
  | nil => simp at h
  | cons y ys ih =>
    by_cases hy : y = old
    · subst hy
      simp [first_slot_set, List.count_cons, hne]
    · have hm : old ∈ ys := by
        rcases List.mem_cons.mp h with h1 | h1
        · exact absurd h1.symm hy
        · exact h1
      simp only [first_slot_set, hy, if_false, List.count_cons, ih hm]
      omega

/-! ## Registry capacity (C1) -/

/-- With no free slot, `evdev_add` leaves the slot table as it is and returns what the
`epoll_ctl` branch decides: `0` when `epoll_ctl` succeeded, `-1` when it failed. -/
theorem evdev_add_no_free_slot (s : State) (fd ctl : Int) (h : (-1 : Int) ∉ s.ev_fds) :
    (evdev_add s fd ctl).2.ev_fds = s.ev_fds ∧
    (evdev_add s fd ctl).1 = (if ctl < 0 then -1 else 0) ∧
    (0 ≤ ctl → fd ∈ (evdev_add s fd ctl).2.epoll) := by
  refine ⟨?_, ?_, ?_⟩
  · unfold evdev_add
    split <;> simp [first_slot_set_of_not_mem _ _ _ h]
  · unfold evdev_add
    split <;> simp_all
  · intro hc
    have hc' : ¬ ctl < 0 := by omega
    unfold evdev_add
    simp only [hc', if_false, kernel_epoll_add]
    split <;> simp_all

/-- C1 (as the code behaves): with `EVDEV_MAX = 32`, after 32 successful `evdev_add` calls
on the distinct descriptors 3..34 the table holds exactly these; the 33rd `evdev_add`, of the
fresh descriptor 35 with `epoll_ctl` succeeding, returns `0` (not a negative result), leaves
the table holding exactly the 32 earlier descriptors, and the descriptor 35 is registered in
the epoll set and an `epoll_ctl(ADD, 35)` was issued for it. -/
theorem evdev_add_full_table_reports_success :
    (reg_run (init_state 32) (adds_from 3 32)).ev_fds = (List.range 32).map (fun i => (3 + i : Int)) ∧
    (evdev_add (reg_run (init_state 32) (adds_from 3 32)) 35 0).1 = 0 ∧
    (evdev_add (reg_run (init_state 32) (adds_from 3 32)) 35 0).2.ev_fds
      = (List.range 32).map (fun i => (3 + i : Int)) ∧
    (35 : Int) ∉ (evdev_add (reg_run (init_state 32) (adds_from 3 32)) 35 0).2.ev_fds ∧
    (35 : Int) ∈ (evdev_add (reg_run (init_state 32) (adds_from 3 32)) 35 0).2.epoll ∧
    (evdev_add (reg_run (init_state 32) (adds_from 3 32)) 35 0).2.trace
      = (reg_run (init_state 32) (adds_from 3 32)).trace ++ [Call.epoll_ctl_add 35] := by
  set_option maxRecDepth 100000 in decide

/-! ## Idempotence of `evdev_remove` (C2) -/

theorem evdev_remove_ev_fds (s : State) (fd ctl : Int) :
    (evdev_remove s fd ctl).ev_fds = first_slot_set fd (-1) s.ev_fds := rfl

theorem evdev_remove_trace (s : State) (fd ctl : Int) :
    (evdev_remove s fd ctl).trace = s.trace ++ [Call.epoll_ctl_del fd, Call.close fd] := by
  simp [evdev_remove, sys_close]

theorem evdev_add_ev_fds (s : State) (fd ctl : Int) :
    (evdev_add s fd ctl).2.ev_fds = first_slot_set (-1) fd s.ev_fds := by
  unfold evdev_add; split <;> rfl

theorem evdev_add_trace (s : State) (fd ctl : Int) :
    (evdev_add s fd ctl).2.trace = s.trace ++ [Call.epoll_ctl_add fd] := by
  unfold evdev_add; split <;> rfl

/-- C2 (as stated) fails: after `evdev_add(5)` twice (the second `epoll_ctl` failing, as
the kernel does for a descriptor already registered) two slots hold 5; the first
`evdev_remove(5)` frees one of them and the second frees the other, so the table after two
removals differs from the table after one. -/
theorem evdev_remove_twice_differs_from_once :
    (evdev_remove (evdev_remove
        (reg_run (init_state 4) [RegCall.add 5 0, RegCall.add 5 (-1)]) 5 0) 5 (-1)).ev_fds
      ≠ (evdev_remove
        (reg_run (init_state 4) [RegCall.add 5 0, RegCall.add 5 (-1)]) 5 0).ev_fds := by
  decide

/-- C2 (amended): for every slot table and every descriptor `fd`, the slot table after
`evdev_remove(fd)` twice equals the slot table after `evdev_remove(fd)` once exactly when
`fd` occupies at most one slot (or `fd` is the free marker `-1`); and removing a
descriptor that is in no slot leaves the slot table unchanged. -/
theorem evdev_remove_idempotent_iff (s : State) (fd ctl1 ctl2 : Int) :
    ((evdev_remove (evdev_remove s fd ctl1) fd ctl2).ev_fds = (evdev_remove s fd ctl1).ev_fds
      ↔ (fd = -1 ∨ s.ev_fds.count fd ≤ 1)) ∧
    (fd ∉ s.ev_fds → (evdev_remove s fd ctl1).ev_fds = s.ev_fds) := by
  refine ⟨⟨?_, ?_⟩, ?_⟩
  · intro h
    by_contra hc
    push_neg at hc
    obtain ⟨hne, hcount⟩ := hc
    have hm : fd ∈ s.ev_fds := List.count_pos_iff.mp (by omega)
    have h1 := count_first_slot_set fd (-1) s.ev_fds hne hm
    have hm2 : fd ∈ first_slot_set fd (-1) s.ev_fds := List.count_pos_iff.mp (by omega)
    rw [evdev_remove_ev_fds, evdev_remove_ev_fds] at h
    exact first_slot_set_ne_of_mem fd (-1) _ hne hm2 h
  · intro h
    rw [evdev_remove_ev_fds, evdev_remove_ev_fds]
    rcases h with h | h
    · subst h; rw [first_slot_set_self, first_slot_set_self]
    · by_cases hne : fd = -1
      · subst hne; rw [first_slot_set_self, first_slot_set_self]
      · exact first_slot_set_of_not_mem _ _ _
          (not_mem_first_slot_set_of_count_le_one fd (-1) s.ev_fds hne h)
  · intro h
    rw [evdev_remove_ev_fds]
    exact first_slot_set_of_not_mem _ _ _ h

/-- Witness for C2: descriptor 5 held in one slot of a four-slot table; removing it twice
gives the table that removing it once gives, and removing the unregistered descriptor 7
changes nothing. -/
theorem evdev_remove_idempotent_iff_witness :
    (evdev_remove (evdev_remove (reg_run (init_state 4) [RegCall.add 5 0]) 5 0) 5 (-1)).ev_fds
      = (evdev_remove (reg_run (init_state 4) [RegCall.add 5 0]) 5 0).ev_fds ∧
    (evdev_remove (reg_run (init_state 4) [RegCall.add 5 0]) 7 (-1)).ev_fds
      = (reg_run (init_state 4) [RegCall.add 5 0]).ev_fds :=
  ⟨(evdev_remove_idempotent_iff (reg_run (init_state 4) [RegCall.add 5 0]) 5 0 (-1)).1.2
      (Or.inr (by decide)),
   (evdev_remove_idempotent_iff (reg_run (init_state 4) [RegCall.add 5 0]) 7 (-1) 0).2
      (by decide)⟩

/-! ## Closing descriptors (C3) -/

theorem add_mem_of_last_is_close_false (fd : Int) (m p : List Call)
    (h : last_is_close fd (m ++ Call.close fd :: p) = false) : Call.epoll_ctl_add fd ∈ m := by
  induction m with
  | nil => simp [last_is_close] at h
  | cons c m ih =>
    cases c with
    | close g =>
      by_cases hg : g = fd
      · simp [last_is_close, hg] at h
      · simp only [List.cons_append, last_is_close, hg, if_false] at h
        exact List.mem_cons_of_mem _ (ih h)
    | epoll_ctl_add g =>
      by_cases hg : g = fd
      · simp [hg]
      · simp only [List.cons_append, last_is_close, hg, if_false] at h
        exact List.mem_cons_of_mem _ (ih h)
    | _ =>
      simp only [List.cons_append, last_is_close] at h
      exact List.mem_cons_of_mem _ (ih h)

theorem noDoubleClose_nil : NoDoubleClose [] := by
  intro fd pre mid post e
  simp at e

theorem noDoubleClose_append_other (t : List Call) (c : Call) (hc : ∀ fd, c ≠ Call.close fd)
    (h : NoDoubleClose t) : NoDoubleClose (t ++ [c]) := by
  intro fd pre mid post e
  rcases List.eq_nil_or_concat post with hp | ⟨post1, y, hp⟩
  · subst hp
    have e2 : t ++ [c] = (pre ++ Call.close fd :: mid) ++ [Call.close fd] := by
      rw [e]; simp
    have := (List.append_inj' e2 rfl).2
    simp at this
    exact absurd this (hc fd)
  · subst hp
    have e2 : t ++ [c] = (pre ++ Call.close fd :: (mid ++ Call.close fd :: post1)) ++ [y] := by
      rw [e]; simp
    have := (List.append_inj' e2 rfl).1
    exact h fd pre mid post1 this

theorem noDoubleClose_append_close (t : List Call) (fd : Int) (h : NoDoubleClose t)
    (hl : last_is_close fd t.reverse = false) : NoDoubleClose (t ++ [Call.close fd]) := by
  intro g pre mid post e
  rcases List.eq_nil_or_concat post with hp | ⟨post1, y, hp⟩
  · subst hp
    have e2 : t ++ [Call.close fd] = (pre ++ Call.close g :: mid) ++ [Call.close g] := by
      rw [e]; simp
    obtain ⟨e3, e4⟩ := List.append_inj' e2 rfl
    simp at e4
    subst e4
    rw [e3] at hl
    simp only [List.reverse_append, List.reverse_cons, List.append_assoc,
      List.singleton_append] at hl
    have := add_mem_of_last_is_close_false fd mid.reverse pre.reverse hl
    simpa using this
  · subst hp
    have e2 : t ++ [Call.close fd]
        = (pre ++ Call.close g :: (mid ++ Call.close g :: post1)) ++ [y] := by
      rw [e]; simp
    have := (List.append_inj' e2 rfl).1
    exact h g pre mid post1 this

/-- The invariant behind C3: no double close so far, and a descriptor whose most recent
add/close event is a close is in no slot. -/
theorem reg_run_invariant (cs : List RegCall) :
    ∀ s : State, NoDoubleClose s.trace →
      (∀ fd : Int, fd ≠ -1 → last_is_close fd s.trace.reverse = true → fd ∉ s.ev_fds) →
      removes_held_once s cs = true →
      NoDoubleClose (reg_run s cs).trace := by
  induction cs with
  | nil => intro s h _ _; exact h
  | cons c cs ih =>
    intro s hn hinv hg
    cases c with
    | add fd ctl =>
      simp only [removes_held_once] at hg
      refine ih (reg_step s (.add fd ctl)) ?_ ?_ hg
      · simp only [reg_step, evdev_add_trace]
        exact noDoubleClose_append_other _ _ (by intro g; simp) hn
      · intro g hg1 hl
        simp only [reg_step, evdev_add_trace, List.reverse_append, List.reverse_cons,
          List.reverse_nil, List.nil_append, List.singleton_append, last_is_close] at hl
        by_cases hfg : fd = g
        · simp [hfg] at hl
        · simp only [hfg, if_false] at hl
          have hnm := hinv g hg1 hl
          simp only [reg_step, evdev_add_ev_fds]
          intro hm
          rcases mem_of_mem_first_slot_set _ _ _ _ hm with h1 | h1
          · exact hnm h1
          · exact hfg h1.symm
    | remove fd ctl =>
      simp only [removes_held_once, Bool.and_eq_true, decide_eq_true_eq] at hg
      obtain ⟨⟨hne, hcount⟩, hrest⟩ := hg
      have hmem : fd ∈ s.ev_fds := List.count_pos_iff.mp (by omega)
      have hlast : last_is_close fd s.trace.reverse = false := by
        by_contra hc
        simp only [Bool.not_eq_false] at hc
        exact hinv fd hne hc hmem
      refine ih (reg_step s (.remove fd ctl)) ?_ ?_ hrest
      · simp only [reg_step, evdev_remove_trace]
        have e : s.trace ++ [Call.epoll_ctl_del fd, Call.close fd]
            = (s.trace ++ [Call.epoll_ctl_del fd]) ++ [Call.close fd] := by simp
        rw [e]
        refine noDoubleClose_append_close _ _
          (noDoubleClose_append_other _ _ (by intro g; simp) hn) ?_
        simpa [last_is_close] using hlast
      · intro g hg1 hl
        simp only [reg_step, evdev_remove_ev_fds]
        by_cases hfg : fd = g
        · subst hfg
          exact not_mem_first_slot_set_of_count_le_one fd (-1) s.ev_fds hne (by omega)
        · simp only [reg_step, evdev_remove_trace, List.reverse_append, List.reverse_cons,
            List.reverse_nil, List.nil_append, List.singleton_append, List.cons_append,
            last_is_close, hfg, if_false] at hl
          have hnm := hinv g hg1 hl
          intro hm
          rcases mem_of_mem_first_slot_set _ _ _ _ hm with h1 | h1
          · exact hnm h1
          · exact hg1 h1

/-- C3 (as stated) fails: on the empty table, `evdev_remove(5)` issues `close(5)` although
no slot held 5 and the table is unchanged, and a second `evdev_remove(5)` closes 5 again
with no `evdev_add(5)` in between. -/
theorem evdev_remove_closes_unregistered_twice :
    (evdev_remove (init_state 4) 5 (-1)).ev_fds = (init_state 4).ev_fds ∧
    (evdev_remove (init_state 4) 5 (-1)).trace = [Call.epoll_ctl_del 5, Call.close 5] ∧
    ¬ NoDoubleClose
      (reg_run (init_state 4) [RegCall.remove 5 (-1), RegCall.remove 5 (-1)]).trace := by
  refine ⟨by decide, by decide, ?_⟩
  intro h
  have := h 5 [Call.epoll_ctl_del 5] [Call.epoll_ctl_del 5] [] (by decide)
  revert this
  decide

/-- C3 (amended): `evdev_remove(fd)` issues exactly one `close(fd)` on every call, whether
or not a slot held `fd`; when `fd` is a valid descriptor held in a slot, that call clears one
slot holding `fd`; and over every sequence of `evdev_add` and `evdev_remove` calls from
the empty table in which each `evdev_remove(fd)` is issued while `fd` occupies exactly one
slot, no descriptor is closed twice without an intervening add of it. -/
theorem evdev_remove_close_discipline (n : Nat) (cs : List RegCall)
    (hg : removes_held_once (init_state n) cs = true) :
    NoDoubleClose (reg_run (init_state n) cs).trace ∧
    (∀ (s : State) (fd ctl : Int),
      (evdev_remove s fd ctl).trace = s.trace ++ [Call.epoll_ctl_del fd, Call.close fd] ∧
      (fd ≠ -1 → fd ∈ s.ev_fds →
        (evdev_remove s fd ctl).ev_fds.count fd + 1 = s.ev_fds.count fd ∧
        (evdev_remove s fd ctl).ev_fds.count (-1) = s.ev_fds.count (-1) + 1)) := by
  refine ⟨reg_run_invariant cs (init_state n) noDoubleClose_nil ?_ hg, ?_⟩
  · intro fd _ hl
    simp [init_state, last_is_close] at hl
  · intro s fd ctl
    refine ⟨evdev_remove_trace s fd ctl, ?_⟩
    intro hne hm
    rw [evdev_remove_ev_fds]
    exact ⟨count_first_slot_set fd (-1) s.ev_fds hne hm,
      count_new_first_slot_set fd (-1) s.ev_fds hne hm⟩

/-- Witness for C3: add 5, remove 5, add 5 again, remove 5 again on a four-slot table; each
removal finds 5 in exactly one slot. -/
theorem evdev_remove_close_discipline_witness :
    NoDoubleClose (reg_run (init_state 4)
      [RegCall.add 5 0, RegCall.remove 5 0, RegCall.add 5 0, RegCall.remove 5 0]).trace :=
  (evdev_remove_close_discipline 4
    [RegCall.add 5 0, RegCall.remove 5 0, RegCall.add 5 0, RegCall.remove 5 0]
    (by decide)).1

/-! ## The classifier (C4, C5, C6) -/

theorem identity_match_eq_false_iff (cfg : Config) (id : Identity) :
    identity_match cfg id = false ↔
      ((cfg.evdev_identify id).1 = 0
        ∧ (cfg.appleir_cfg_enabled = false ∨ evdev_is_appleir cfg id = 0)
        ∧ (cfg.has_kbd_backlight = false ∨ evdev_is_lidswitch id = 0)
        ∧ evdev_is_mouseemu id = 0) := by
  unfold identity_match
  cases cfg.appleir_cfg_enabled <;> cases cfg.has_kbd_backlight <;> simp <;> tauto

/-- C4: for every identity and every capability mask, if `mops->evdev_identify` returns 0,
and the IR feature is disabled or the identity is not the Apple IR signature, and there is
no keyboard backlight or the identity is not the lid-switch signature, and the identity is
not the mouseemu signature, then `evdev_try_add` returns -1, closes the descriptor (the one
call it adds after those of the identify hook is `close(fd)`) and leaves the slot table
unchanged; nothing is registered with epoll for it. -/
theorem evdev_try_add_no_match (cfg : Config) (s : State) (fd : Int) (id : Identity)
    (bit0 : List Nat) (ctl : Int)
    (h1 : (cfg.evdev_identify id).1 = 0)
    (h2 : cfg.appleir_cfg_enabled = false ∨ evdev_is_appleir cfg id = 0)
    (h3 : cfg.has_kbd_backlight = false ∨ evdev_is_lidswitch id = 0)
    (h4 : evdev_is_mouseemu id = 0) :
    (evdev_try_add cfg s fd id bit0 ctl).1 = -1 ∧
    (evdev_try_add cfg s fd id bit0 ctl).2.trace
      = s.trace ++ (cfg.evdev_identify id).2 ++ [Call.close fd] ∧
    (evdev_try_add cfg s fd id bit0 ctl).2.ev_fds = s.ev_fds ∧
    fd ∉ (evdev_try_add cfg s fd id bit0 ctl).2.epoll := by
  have hm : identity_match cfg id = false :=
    (identity_match_eq_false_iff cfg id).mpr ⟨h1, h2, h3, h4⟩
  simp [evdev_try_add, hm, sys_close]

/-- Witness for C4: on a MacBook Pro with the IR feature disabled the Apple IR receiver
(05ac:8240) is rejected, and on a MacBook without keyboard backlight the ACPI lid switch
(bus 0x19, vendor 0, product 5) is rejected, whatever the capability mask. -/
theorem evdev_try_add_no_match_witness :
    ((evdev_try_add macbookpro (init_state 32) 7 ⟨0x03, 0x05ac, 0x8240, 0x0110⟩ [0x03] 0).1 = -1 ∧
     (evdev_try_add macbookpro (init_state 32) 7 ⟨0x03, 0x05ac, 0x8240, 0x0110⟩ [0x03] 0).2.trace
        = (init_state 32).trace
            ++ (macbookpro.evdev_identify ⟨0x03, 0x05ac, 0x8240, 0x0110⟩).2 ++ [Call.close 7] ∧
     (evdev_try_add macbookpro (init_state 32) 7 ⟨0x03, 0x05ac, 0x8240, 0x0110⟩ [0x03] 0).2.ev_fds
        = (init_state 32).ev_fds ∧
     (7 : Int) ∉
      (evdev_try_add macbookpro (init_state 32) 7 ⟨0x03, 0x05ac, 0x8240, 0x0110⟩ [0x03] 0).2.epoll) ∧
    ((evdev_try_add macbook (init_state 32) 7 ⟨0x19, 0, 0x0005, 0⟩ [0x20] 0).1 = -1 ∧
     (evdev_try_add macbook (init_state 32) 7 ⟨0x19, 0, 0x0005, 0⟩ [0x20] 0).2.trace
        = (init_state 32).trace
            ++ (macbook.evdev_identify ⟨0x19, 0, 0x0005, 0⟩).2 ++ [Call.close 7] ∧
     (evdev_try_add macbook (init_state 32) 7 ⟨0x19, 0, 0x0005, 0⟩ [0x20] 0).2.ev_fds
        = (init_state 32).ev_fds ∧
     (7 : Int) ∉
      (evdev_try_add macbook (init_state 32) 7 ⟨0x19, 0, 0x0005, 0⟩ [0x20] 0).2.epoll) :=
  ⟨evdev_try_add_no_match macbookpro (init_state 32) 7 ⟨0x03, 0x05ac, 0x8240, 0x0110⟩ [0x03] 0
      (by decide) (Or.inl rfl) (Or.inr (by decide)) (by decide),
   evdev_try_add_no_match macbook (init_state 32) 7 ⟨0x19, 0, 0x0005, 0⟩ [0x20] 0
      (by decide) (Or.inl rfl) (Or.inl rfl) (by decide)⟩

/-- C5: for every identity that passes the identity match of `evdev_try_add` and every
capability mask, the descriptor is handed to `evdev_add` (and the result of `evdev_try_add`
is the result of `evdev_add`) if and only if the mask reports key events or switch events
and, when key events are reported, no absolute-axis events; otherwise `evdev_try_add`
returns -1 and closes the descriptor, leaving the slot table unchanged. -/
theorem evdev_try_add_capability (cfg : Config) (s : State) (fd : Int) (id : Identity)
    (bit0 : List Nat) (ctl : Int) (hid : identity_match cfg id = true) :
    (((test_bit cfg EV_KEY bit0 ≠ 0 ∨ test_bit cfg EV_SW bit0 ≠ 0)
        ∧ (test_bit cfg EV_KEY bit0 ≠ 0 → test_bit cfg EV_ABS bit0 = 0)) →
      evdev_try_add cfg s fd id bit0 ctl
        = evdev_add { s with trace := s.trace ++ (cfg.evdev_identify id).2 } fd ctl) ∧
    (¬ ((test_bit cfg EV_KEY bit0 ≠ 0 ∨ test_bit cfg EV_SW bit0 ≠ 0)
        ∧ (test_bit cfg EV_KEY bit0 ≠ 0 → test_bit cfg EV_ABS bit0 = 0)) →
      evdev_try_add cfg s fd id bit0 ctl
        = (-1, sys_close { s with trace := s.trace ++ (cfg.evdev_identify id).2 } fd)) ∧
    ((evdev_try_add cfg s fd id bit0 ctl).2.trace
        = s.trace ++ (cfg.evdev_identify id).2 ++ [Call.epoll_ctl_add fd] ↔
      ((test_bit cfg EV_KEY bit0 ≠ 0 ∨ test_bit cfg EV_SW bit0 ≠ 0)
        ∧ (test_bit cfg EV_KEY bit0 ≠ 0 → test_bit cfg EV_ABS bit0 = 0))) ∧
    ((test_bit cfg EV_KEY bit0 = 0 ∧ test_bit cfg EV_SW bit0 = 0) →
      (evdev_try_add cfg s fd id bit0 ctl).1 = -1 ∧
      (evdev_try_add cfg s fd id bit0 ctl).2.ev_fds = s.ev_fds ∧
      (evdev_try_add cfg s fd id bit0 ctl).2.trace
        = s.trace ++ (cfg.evdev_identify id).2 ++ [Call.close fd]) := by
  by_cases hk : test_bit cfg EV_KEY bit0 = 0
  · by_cases hs : test_bit cfg EV_SW bit0 = 0
    · simp [evdev_try_add, hid, hk, hs, sys_close]
    · simp [evdev_try_add, hid, hk, hs, evdev_add_trace]
  · by_cases ha : test_bit cfg EV_ABS bit0 = 0
    · simp [evdev_try_add, hid, hk, ha, evdev_add_trace]
    · simp [evdev_try_add, hid, hk, ha, sys_close]

/-- Witness for C5: a Geyser IV keyboard (05ac:021a) on a MacBook Pro, reporting
`EV_SYN | EV_KEY` (mask 0x03) on descriptor 7, is handed to `evdev_add`. -/
theorem evdev_try_add_capability_witness :
    evdev_try_add macbookpro (init_state 32) 7 ⟨0x03, 0x05ac, 0x021a, 0⟩ [0x03] 0
      = evdev_add { init_state 32 with
          trace := (init_state 32).trace
            ++ (macbookpro.evdev_identify ⟨0x03, 0x05ac, 0x021a, 0⟩).2 } 7 0 :=
  (evdev_try_add_capability macbookpro (init_state 32) 7 ⟨0x03, 0x05ac, 0x021a, 0⟩ [0x03] 0
    (by decide)).1 (by decide)

/-- C6 (as stated) fails: the ACPI lid switch on a MacBook Pro with keyboard backlight
passes the identity match; with the capability mask 0x28 (`EV_ABS` and `EV_SW` set,
`EV_KEY` clear) `evdev_try_add` does not return -1: it returns the 0 of `evdev_add` and
descriptor 7 sits in the slot table and in the epoll set. -/
theorem evdev_try_add_accepts_abs_switch :
    identity_match macbookpro ⟨0x19, 0, 0x0005, 0⟩ = true ∧
    test_bit macbookpro EV_ABS [0x28] = 1 ∧
    (evdev_try_add macbookpro (init_state 32) 7 ⟨0x19, 0, 0x0005, 0⟩ [0x28] 0).1 = 0 ∧
    (7 : Int) ∈ (evdev_try_add macbookpro (init_state 32) 7 ⟨0x19, 0, 0x0005, 0⟩ [0x28] 0).2.ev_fds ∧
    (7 : Int) ∈ (evdev_try_add macbookpro (init_state 32) 7 ⟨0x19, 0, 0x0005, 0⟩ [0x28] 0).2.epoll := by
  decide

/-- C6 (amended): for every identity that passes the identity match and every capability
mask that reports key events and absolute-axis events (`EV_KEY` and `EV_ABS` both set),
whatever the other capability bits are, `evdev_try_add` returns -1, closes the descriptor
and does not add it to the registry: the slot table is unchanged, no `epoll_ctl` is issued
and the descriptor is not in the epoll set. -/
theorem evdev_try_add_rejects_key_abs (cfg : Config) (s : State) (fd : Int) (id : Identity)
    (bit0 : List Nat) (ctl : Int) (hid : identity_match cfg id = true)
    (hkey : test_bit cfg EV_KEY bit0 ≠ 0) (habs : test_bit cfg EV_ABS bit0 ≠ 0) :
    (evdev_try_add cfg s fd id bit0 ctl).1 = -1 ∧
    (evdev_try_add cfg s fd id bit0 ctl).2.ev_fds = s.ev_fds ∧
    (evdev_try_add cfg s fd id bit0 ctl).2.trace
      = s.trace ++ (cfg.evdev_identify id).2 ++ [Call.close fd] ∧
    fd ∉ (evdev_try_add cfg s fd id bit0 ctl).2.epoll := by
  simp [evdev_try_add, hid, hkey, habs, sys_close]

/-- Witness for C6: a Geyser IV identity (05ac:021a) whose mask 0x0b reports `EV_KEY` and
`EV_ABS` (a trackpad) is rejected on a MacBook Pro. -/
theorem evdev_try_add_rejects_key_abs_witness :
    (evdev_try_add macbookpro (init_state 32) 7 ⟨0x03, 0x05ac, 0x021a, 0⟩ [0x0b] 0).1 = -1 ∧
    (evdev_try_add macbookpro (init_state 32) 7 ⟨0x03, 0x05ac, 0x021a, 0⟩ [0x0b] 0).2.ev_fds
      = (init_state 32).ev_fds ∧
    (evdev_try_add macbookpro (init_state 32) 7 ⟨0x03, 0x05ac, 0x021a, 0⟩ [0x0b] 0).2.trace
      = (init_state 32).trace
          ++ (macbookpro.evdev_identify ⟨0x03, 0x05ac, 0x021a, 0⟩).2 ++ [Call.close 7] ∧
    (7 : Int) ∉
      (evdev_try_add macbookpro (init_state 32) 7 ⟨0x03, 0x05ac, 0x021a, 0⟩ [0x0b] 0).2.epoll :=
  evdev_try_add_rejects_key_abs macbookpro (init_state 32) 7 ⟨0x03, 0x05ac, 0x021a, 0⟩ [0x0b] 0
    (by decide) (by decide) (by decide)

/-! ## The dispatcher (C7 to C10) -/

theorem new_calls_of_trace (s s2 : State) (x : List Call) (h : s2.trace = s.trace ++ x) :
    new_calls s s2 = x := by
  simp [new_calls, h]

/-- C7: for every descriptor and every read result whose byte count differs from
`sizeof(struct input_event)` (shorter, longer, zero, or a negative error return), whatever
bytes were read, `evdev_process_events` does nothing beyond the `read` itself: no action is
invoked and the inhibit state, the idle counter and the slot table are unchanged. -/
theorem evdev_process_events_wrong_size (cfg : Config) (s : State) (fd ret : Int)
    (ev : InputEvent) (hret : ret ≠ (cfg.sizeof_input_event : Int)) :
    evdev_process_events cfg s fd ret ev = { s with trace := s.trace ++ [Call.read fd] } ∧
    new_calls s (evdev_process_events cfg s fd ret ev) = [Call.read fd] ∧
    actions (new_calls s (evdev_process_events cfg s fd ret ev)) = [] ∧
    (evdev_process_events cfg s fd ret ev).inhibit = s.inhibit ∧
    (evdev_process_events cfg s fd ret ev).idle = s.idle := by
  have h : evdev_process_events cfg s fd ret ev = { s with trace := s.trace ++ [Call.read fd] } := by
    simp [evdev_process_events, hret, call]
  refine ⟨h, ?_, ?_, ?_, ?_⟩
  · exact new_calls_of_trace _ _ _ (by rw [h])
  · rw [new_calls_of_trace s _ [Call.read fd] (by rw [h])]; rfl
  · rw [h]
  · rw [h]

/-- Witness for C7: a short read of 8 bytes (of 24) of a volume-up key press, with the idle
reason set and the idle counter at 5: nothing changes. -/
theorem evdev_process_events_wrong_size_witness :
    evdev_process_events macbookpro
        { init_state 32 with idle := 5, inhibit := { idle := true, lid := false, user := false } }
        7 8 ⟨EV_KEY, 0x73, 1⟩
      = { init_state 32 with idle := 5, inhibit := { idle := true, lid := false, user := false },
                             trace := [Call.read 7] } :=
  (evdev_process_events_wrong_size macbookpro
    { init_state 32 with idle := 5, inhibit := { idle := true, lid := false, user := false } }
    7 8 ⟨EV_KEY, 0x73, 1⟩ (by decide)).1

theorem toggle_user_idle (i : InhibitState) :
    (i.toggle InhibitReason.KBD_INHIBIT_USER).idle = i.idle ∧
    (i.toggle InhibitReason.KBD_INHIBIT_USER).lid = i.lid := by
  unfold InhibitState.toggle
  split <;> simp [InhibitState.set, InhibitState.clear]

theorem key_frame_refl (s : State) : key_frame s s :=
  ⟨rfl, rfl, rfl, rfl, rfl, rfl, [], by simp⟩

theorem key_frame_call (s : State) (c : Call) : key_frame s (call s c) :=
  ⟨rfl, rfl, rfl, rfl, rfl, rfl, [c], rfl⟩

theorem key_frame_toggle_user (s : State) :
    key_frame s (kbd_backlight_inhibit_toggle s InhibitReason.KBD_INHIBIT_USER) :=
  ⟨rfl, (toggle_user_idle s.inhibit).1, (toggle_user_idle s.inhibit).2, rfl, rfl, rfl,
    [Call.kbd_backlight_inhibit_toggle InhibitReason.KBD_INHIBIT_USER], rfl⟩

theorem key_frame_ite (s a b : State) (c : Prop) [Decidable c] (ha : key_frame s a)
    (hb : key_frame s b) : key_frame s (if c then a else b) := by
  split
  · exact ha
  · exact hb

theorem key_switch_frame (cfg : Config) (s : State) (code : Nat) :
    key_frame s (key_switch cfg s code) := by
  unfold key_switch
  repeat' apply key_frame_ite
  all_goals
    first
    | exact key_frame_refl s
    | exact key_frame_call s _
    | exact key_frame_toggle_user s

/-- C8: for every full-size key-category event, with any key code and any value: if the
value is nonzero `evdev_process_events` resets the idle counter to 0 and clears the
idle-inhibit reason (its first two calls are the `read` and
`kbd_backlight_inhibit_clear(KBD_INHIBIT_IDLE)`); if the value is 0 nothing is done beyond
the `read`: no action fires and no state is changed; and the idle-inhibit reason is cleared
by the call if and only if the value is nonzero. -/
theorem evdev_process_events_key_idle (cfg : Config) (s : State) (fd ret : Int)
    (ev : InputEvent) (hret : ret = (cfg.sizeof_input_event : Int)) (hty : ev.type = EV_KEY) :
    (ev.value ≠ 0 →
      (evdev_process_events cfg s fd ret ev).idle = 0 ∧
      (evdev_process_events cfg s fd ret ev).inhibit.idle = false ∧
      (evdev_process_events cfg s fd ret ev).inhibit.lid = s.inhibit.lid ∧
      (evdev_process_events cfg s fd ret ev).ev_fds = s.ev_fds ∧
      ∃ rest, new_calls s (evdev_process_events cfg s fd ret ev)
        = [Call.read fd, Call.kbd_backlight_inhibit_clear InhibitReason.KBD_INHIBIT_IDLE]
            ++ rest) ∧
    (ev.value = 0 →
      evdev_process_events cfg s fd ret ev = { s with trace := s.trace ++ [Call.read fd] } ∧
      new_calls s (evdev_process_events cfg s fd ret ev) = [Call.read fd] ∧
      actions (new_calls s (evdev_process_events cfg s fd ret ev)) = []) ∧
    (Call.kbd_backlight_inhibit_clear InhibitReason.KBD_INHIBIT_IDLE
        ∈ new_calls s (evdev_process_events cfg s fd ret ev) ↔ ev.value ≠ 0) := by
  have hnz : ev.value ≠ 0 →
      (evdev_process_events cfg s fd ret ev).idle = 0 ∧
      (evdev_process_events cfg s fd ret ev).inhibit.idle = false ∧
      (evdev_process_events cfg s fd ret ev).inhibit.lid = s.inhibit.lid ∧
      (evdev_process_events cfg s fd ret ev).ev_fds = s.ev_fds ∧
      ∃ rest, new_calls s (evdev_process_events cfg s fd ret ev)
        = [Call.read fd, Call.kbd_backlight_inhibit_clear InhibitReason.KBD_INHIBIT_IDLE]
            ++ rest := by
    intro hv
    obtain ⟨h1, h2, h3, h4, _, _, extra, h7⟩ := key_switch_frame cfg
      (kbd_backlight_inhibit_clear { call s (Call.read fd) with idle := 0 }
        InhibitReason.KBD_INHIBIT_IDLE) ev.code
    have hP : evdev_process_events cfg s fd ret ev = key_switch cfg
        (kbd_backlight_inhibit_clear { call s (Call.read fd) with idle := 0 }
          InhibitReason.KBD_INHIBIT_IDLE) ev.code := by
      simp [evdev_process_events, hret, hty, hv]
    rw [hP]
    refine ⟨by rw [h1]; rfl, by rw [h2]; rfl, by rw [h3]; rfl, by rw [h4]; rfl, extra, ?_⟩
    apply new_calls_of_trace
    rw [h7]
    simp [kbd_backlight_inhibit_clear, call]
  have hz : ev.value = 0 →
      evdev_process_events cfg s fd ret ev = { s with trace := s.trace ++ [Call.read fd] } := by
    intro hv
    simp [evdev_process_events, hret, hty, hv, call]
  refine ⟨hnz, ?_, ?_⟩
  · intro hv
    have h := hz hv
    refine ⟨h, ?_, ?_⟩
    · exact new_calls_of_trace _ _ _ (by rw [h])
    · rw [new_calls_of_trace s _ [Call.read fd] (by rw [h])]; rfl
  · constructor
    · intro hmem hv
      rw [new_calls_of_trace s _ [Call.read fd] (by rw [hz hv])] at hmem
      simp at hmem
    · intro hv
      obtain ⟨_, _, _, _, rest, hr⟩ := hnz hv
      rw [hr]
      simp

/-- Witness for C8: a volume-up press (code 0x73, value 1) with the idle reason set and
the idle counter at 5 resets both; the key code 0x1e (the letter A, not in the table) does
the same. -/
theorem evdev_process_events_key_idle_witness :
    ((evdev_process_events macbookpro
        { init_state 32 with idle := 5, inhibit := { idle := true, lid := false, user := false } }
        7 24 ⟨EV_KEY, 0x1e, 1⟩).idle = 0 ∧
     (evdev_process_events macbookpro
        { init_state 32 with idle := 5, inhibit := { idle := true, lid := false, user := false } }
        7 24 ⟨EV_KEY, 0x1e, 1⟩).inhibit.idle = false) ∧
    evdev_process_events macbookpro
        { init_state 32 with idle := 5, inhibit := { idle := true, lid := false, user := false } }
        7 24 ⟨EV_KEY, 0x73, 0⟩
      = { init_state 32 with idle := 5, inhibit := { idle := true, lid := false, user := false },
                             trace := [Call.read 7] } :=
  ⟨⟨((evdev_process_events_key_idle macbookpro
        { init_state 32 with idle := 5, inhibit := { idle := true, lid := false, user := false } }
        7 24 ⟨EV_KEY, 0x1e, 1⟩ rfl rfl).1 (by decide)).1,
    ((evdev_process_events_key_idle macbookpro
        { init_state 32 with idle := 5, inhibit := { idle := true, lid := false, user := false } }
        7 24 ⟨EV_KEY, 0x1e, 1⟩ rfl rfl).1 (by decide)).2.1⟩,
   ((evdev_process_events_key_idle macbookpro
        { init_state 32 with idle := 5, inhibit := { idle := true, lid := false, user := false } }
        7 24 ⟨EV_KEY, 0x73, 0⟩ rfl rfl).2.1 rfl).1⟩

theorem key_switch_eq_chain (cfg : Config) (s : State) (code : Nat) :
    key_switch cfg s code = chain_eval s (key_switch_cases cfg s) code := by
  rfl

theorem chain_eval_of_not_mem (dflt : State) (l : List (Nat × State)) (code : Nat)
    (h : code ∉ l.map Prod.fst) : chain_eval dflt l code = dflt := by
  induction l with
  | nil => rfl
  | cons p l ih =>
    obtain ⟨k, v⟩ := p
    simp only [List.map_cons, List.mem_cons, not_or] at h
    simp only [chain_eval, h.1, if_false]
    exact ih h.2

theorem chain_eval_of_mem (dflt : State) (l : List (Nat × State))
    (hd : (l.map Prod.fst).Nodup) (p : Nat × State) (hp : p ∈ l) :
    chain_eval dflt l p.1 = p.2 := by
  induction l with
  | nil => simp at hp
  | cons q l ih =>
    obtain ⟨k, v⟩ := q
    simp only [List.map_cons, List.nodup_cons] at hd
    rcases List.mem_cons.mp hp with h | h
    · subst h
      simp [chain_eval]
    · have hne : p.1 ≠ k := by
        intro e
        apply hd.1
        rw [← e]
        exact List.mem_map_of_mem Prod.fst h
      simp only [chain_eval, hne, if_false]
      exact ih hd.2 h

theorem key_switch_cases_keys (cfg : Config) (s : State) :
    (key_switch_cases cfg s).map Prod.fst = cfg.key_codes := rfl

theorem key_switch_of_mem (cfg : Config) (s : State) (hd : cfg.key_codes.Nodup)
    (p : Nat × State) (hp : p ∈ key_switch_cases cfg s) :
    key_switch cfg s p.1 = p.2 := by
  rw [key_switch_eq_chain]
  exact chain_eval_of_mem s _ (by rw [key_switch_cases_keys]; exact hd) p hp

theorem key_switch_of_not_mem (cfg : Config) (s : State) (code : Nat)
    (h : code ∉ cfg.key_codes) : key_switch cfg s code = s := by
  rw [key_switch_eq_chain]
  exact chain_eval_of_not_mem s _ code (by rw [key_switch_cases_keys]; exact h)

theorem key_switch_inhibit_of_ne (cfg : Config) (s : State) (code : Nat)
    (h : ¬ (code = cfg.K_KBD_BCK_OFF ∧ cfg.has_kbd_backlight = true
      ∧ cfg.kbd_cfg_auto_on = true)) :
    (key_switch cfg s code).inhibit = s.inhibit := by
  have ite_inh : ∀ (c : Prop) [Decidable c] (a b : State),
      a.inhibit = s.inhibit → b.inhibit = s.inhibit →
      (if c then a else b).inhibit = s.inhibit := by
    intro c _ a b ha hb
    split
    · exact ha
    · exact hb
  by_cases hc : code = cfg.K_KBD_BCK_OFF
  · have e1 : ¬ (cfg.has_kbd_backlight = true ∧ cfg.kbd_cfg_auto_on = true) :=
      fun e => h ⟨hc, e⟩
    have e2 : (if cfg.has_kbd_backlight = false then s
        else if cfg.kbd_cfg_auto_on = true then
          kbd_backlight_inhibit_toggle s InhibitReason.KBD_INHIBIT_USER
        else call s Call.kbd_backlight_toggle).inhibit = s.inhibit := by
      cases h1 : cfg.has_kbd_backlight
      · simp
      · cases h2 : cfg.kbd_cfg_auto_on
        · simp [call]
        · exact absurd ⟨h1, h2⟩ e1
    unfold key_switch
    refine ite_inh _ _ _ rfl (ite_inh _ _ _ rfl (ite_inh _ _ _ rfl (ite_inh _ _ _ rfl
      (ite_inh _ _ _ rfl (ite_inh _ _ _ rfl ?_)))))
    rw [if_pos hc]
    exact e2
  · unfold key_switch
    refine ite_inh _ _ _ rfl (ite_inh _ _ _ rfl (ite_inh _ _ _ rfl (ite_inh _ _ _ rfl
      (ite_inh _ _ _ rfl (ite_inh _ _ _ rfl ?_)))))
    rw [if_neg hc]
    repeat' apply ite_inh
    all_goals rfl

/-- C9 (as stated) fails: on a machine without keyboard backlight a press of the
keyboard-backlight toggle key invokes no `kbd_backlight_toggle` when auto-on is not set,
and does not toggle the user-inhibit reason when auto-on is set: the key does nothing
beyond the idle reset. -/
theorem evdev_process_events_toggle_key_without_backlight :
    macbook.has_kbd_backlight = false ∧
    macbook.kbd_cfg_auto_on = false ∧
    actions (new_calls (init_state 32)
      (evdev_process_events macbook (init_state 32) 7 24 ⟨EV_KEY, macbook.K_KBD_BCK_OFF, 1⟩))
      = [] ∧
    (evdev_process_events { macbook with kbd_cfg_auto_on := true } (init_state 32) 7 24
      ⟨EV_KEY, macbook.K_KBD_BCK_OFF, 1⟩).inhibit.user = (init_state 32).inhibit.user ∧
    new_calls (init_state 32)
      (evdev_process_events { macbook with kbd_cfg_auto_on := true } (init_state 32) 7 24
        ⟨EV_KEY, macbook.K_KBD_BCK_OFF, 1⟩)
      = [Call.read 7, Call.kbd_backlight_inhibit_clear InhibitReason.KBD_INHIBIT_IDLE] := by
  decide

/-- C9 (amended): for every full-size key-category event with nonzero value (the case
labels being pairwise distinct, as C requires), the actuator calls invoked by
`evdev_process_events` are those of the reference table: LCD-down/up give exactly one
`lcd_backlight_step(down/up)`; mute exactly one `audio_toggle_mute`; audio-down/up exactly
one `audio_step(down/up)`; eject exactly one `cd_eject`; keyboard-brightness down/up exactly
one `kbd_backlight_step(down/up)` if a keyboard backlight is present, else nothing; the
keyboard-backlight toggle key, if a keyboard backlight is present, toggles the user-inhibit
reason when auto-on is set and otherwise gives exactly one `kbd_backlight_toggle`, and does
nothing if no keyboard backlight is present; video-toggle and the four IR codes give no
action; every other code gives no action. The inhibit state after the call is the state
with the idle reason cleared, and with the user reason toggled exactly in the toggle-key
case with backlight and auto-on. -/
theorem evdev_process_events_key_actions (cfg : Config) (s : State) (fd ret : Int)
    (ev : InputEvent) (hd : cfg.key_codes.Nodup)
    (hret : ret = (cfg.sizeof_input_event : Int)) (hty : ev.type = EV_KEY)
    (hval : ev.value ≠ 0) :
    (∀ k acts, (k, acts) ∈ spec_action_table cfg → ev.code = k →
      actions (new_calls s (evdev_process_events cfg s fd ret ev)) = acts) ∧
    (ev.code ∉ cfg.key_codes →
      actions (new_calls s (evdev_process_events cfg s fd ret ev)) = []) ∧
    (evdev_process_events cfg s fd ret ev).inhibit
      = (if ev.code = cfg.K_KBD_BCK_OFF ∧ cfg.has_kbd_backlight = true
            ∧ cfg.kbd_cfg_auto_on = true then
          (s.inhibit.clear InhibitReason.KBD_INHIBIT_IDLE).toggle InhibitReason.KBD_INHIBIT_USER
        else s.inhibit.clear InhibitReason.KBD_INHIBIT_IDLE) := by
  have hP : evdev_process_events cfg s fd ret ev = key_switch cfg
      (kbd_backlight_inhibit_clear { call s (Call.read fd) with idle := 0 }
        InhibitReason.KBD_INHIBIT_IDLE) ev.code := by
    simp [evdev_process_events, hret, hty, hval]
  have key := fun p hp => key_switch_of_mem cfg
      (kbd_backlight_inhibit_clear { call s (Call.read fd) with idle := 0 }
        InhibitReason.KBD_INHIBIT_IDLE) hd p hp
  simp only [key_switch_cases, List.forall_mem_cons, List.mem_cons, forall_eq_or_imp,
    List.mem_singleton, forall_eq, List.not_mem_nil, false_implies, implies_true,
    and_true] at key
  obtain ⟨k1, k2, k3, k4, k5, k6, k7, k8, k9, k10, k11, k12, k13, k14⟩ := key
  have htable : ∀ p ∈ spec_action_table cfg, ev.code = p.1 →
      actions (new_calls s (evdev_process_events cfg s fd ret ev)) = p.2 := by
    rw [hP]
    simp only [spec_action_table, List.forall_mem_cons, List.not_mem_nil, false_implies,
      implies_true, and_true]
    repeat' apply And.intro
    all_goals
      intro hk
      rw [hk]
      simp only [k1, k2, k3, k4, k5, k6, k7, k8, k9, k10, k11, k12, k13, k14]
      cases cfg.has_kbd_backlight <;> cases cfg.kbd_cfg_auto_on <;>
        simp [new_calls, call, kbd_backlight_inhibit_clear, kbd_backlight_inhibit_toggle,
          actions, Call.isAction]
  refine ⟨fun k acts hmem hk => htable (k, acts) hmem hk, ?_, ?_⟩
  · intro hnm
    rw [hP, key_switch_of_not_mem cfg _ ev.code hnm]
    simp [new_calls, call, kbd_backlight_inhibit_clear, actions, Call.isAction]
  · by_cases hc : ev.code = cfg.K_KBD_BCK_OFF ∧ cfg.has_kbd_backlight = true
        ∧ cfg.kbd_cfg_auto_on = true
    · rw [if_pos hc, hP, hc.1, k7]
      simp [hc.2.1, hc.2.2, kbd_backlight_inhibit_toggle, kbd_backlight_inhibit_clear, call]
    · rw [if_neg hc, hP, key_switch_inhibit_of_ne cfg _ ev.code hc]
      simp [kbd_backlight_inhibit_clear, call]

/-- Witness for C9: the spec's scenario, a volume-up press (code 0x73, value 1) while the
idle reason is set, fires `audio_step(STEP_UP)` exactly once. -/
theorem evdev_process_events_key_actions_witness :
    actions (new_calls
        { init_state 32 with idle := 5, inhibit := { idle := true, lid := false, user := false } }
        (evdev_process_events macbookpro
          { init_state 32 with idle := 5, inhibit := { idle := true, lid := false, user := false } }
          7 24 ⟨EV_KEY, 0x73, 1⟩))
      = [Call.audio_step Step.STEP_UP] :=
  (evdev_process_events_key_actions macbookpro
      { init_state 32 with idle := 5, inhibit := { idle := true, lid := false, user := false } }
      7 24 ⟨EV_KEY, 0x73, 1⟩ (by decide) rfl rfl (by decide)).1
    0x73 [Call.audio_step Step.STEP_UP] (by decide) rfl

/-- C10: for every full-size switch-category event: if the code is `SW_LID`, a nonzero
value sets the lid-inhibit reason and a zero value clears it, in both cases leaving the
idle and user reasons, the idle counter and the slot table unchanged and invoking no
action; every other switch code changes nothing. Consequently the aggregate inhibited
predicate is true after a lid event with nonzero value, and after the value-0 event it is
true exactly when the idle or the user reason is set, so false when no other reason is set
(also when the value-0 event follows the closing event). -/
theorem evdev_process_events_lid_switch (cfg : Config) (s : State) (fd ret : Int)
    (ev : InputEvent) (hret : ret = (cfg.sizeof_input_event : Int)) (hty : ev.type = EV_SW) :
    (ev.code = SW_LID → ev.value ≠ 0 →
      evdev_process_events cfg s fd ret ev
        = { s with inhibit := { s.inhibit with lid := true },
                   trace := s.trace ++ [Call.read fd,
                     Call.kbd_backlight_inhibit_set InhibitReason.KBD_INHIBIT_LID] } ∧
      actions (new_calls s (evdev_process_events cfg s fd ret ev)) = [] ∧
      (evdev_process_events cfg s fd ret ev).inhibit.inhibited = true) ∧
    (ev.code = SW_LID → ev.value = 0 →
      evdev_process_events cfg s fd ret ev
        = { s with inhibit := { s.inhibit with lid := false },
                   trace := s.trace ++ [Call.read fd,
                     Call.kbd_backlight_inhibit_clear InhibitReason.KBD_INHIBIT_LID] } ∧
      actions (new_calls s (evdev_process_events cfg s fd ret ev)) = [] ∧
      (evdev_process_events cfg s fd ret ev).inhibit.inhibited
        = (s.inhibit.idle || s.inhibit.user)) ∧
    (ev.code ≠ SW_LID →
      evdev_process_events cfg s fd ret ev = { s with trace := s.trace ++ [Call.read fd] }) ∧
    (∀ (fd0 : Int) (ev0 : InputEvent), ev.code = SW_LID → ev.value ≠ 0 →
      ev0.type = EV_SW → ev0.code = SW_LID → ev0.value = 0 →
      s.inhibit.idle = false → s.inhibit.user = false →
      (evdev_process_events cfg (evdev_process_events cfg s fd ret ev) fd0 ret ev0).inhibit.inhibited
        = false) := by
  have hk : ¬ (EV_SW = EV_KEY) := by decide
  have hs : ¬ (EV_SW = EV_SND) := by decide
  have hset : ev.code = SW_LID → ev.value ≠ 0 →
      evdev_process_events cfg s fd ret ev
        = { s with inhibit := { s.inhibit with lid := true },
                   trace := s.trace ++ [Call.read fd,
                     Call.kbd_backlight_inhibit_set InhibitReason.KBD_INHIBIT_LID] } := by
    intro hc hv
    simp [evdev_process_events, hret, hty, hk, hs, hc, hv, kbd_backlight_inhibit_set, call,
      InhibitState.set]
  have hclear : ∀ (t : State) (fd0 : Int) (ev0 : InputEvent), ev0.type = EV_SW →
      ev0.code = SW_LID → ev0.value = 0 →
      evdev_process_events cfg t fd0 ret ev0
        = { t with inhibit := { t.inhibit with lid := false },
                   trace := t.trace ++ [Call.read fd0,
                     Call.kbd_backlight_inhibit_clear InhibitReason.KBD_INHIBIT_LID] } := by
    intro t fd0 ev0 ht hc hv
    simp [evdev_process_events, hret, ht, hk, hs, hc, hv, kbd_backlight_inhibit_clear, call,
      InhibitState.clear]
  refine ⟨?_, ?_, ?_, ?_⟩
  · intro hc hv
    have h := hset hc hv
    refine ⟨h, ?_, ?_⟩
    · rw [new_calls_of_trace s _ _ (by rw [h])]; rfl
    · rw [h]; simp [InhibitState.inhibited]
  · intro hc hv
    have h := hclear s fd ev hty hc hv
    refine ⟨h, ?_, ?_⟩
    · rw [new_calls_of_trace s _ _ (by rw [h])]; rfl
    · rw [h]; simp [InhibitState.inhibited]
  · intro hc
    simp [evdev_process_events, hret, hty, hk, hs, hc, call]
  · intro fd0 ev0 hc hv ht0 hc0 hv0 hi hu
    rw [hclear _ fd0 ev0 ht0 hc0 hv0, hset hc hv]
    simp [InhibitState.inhibited, hi, hu]

/-- Witness for C10: on a fresh state a lid-closed event (`EV_SW`, `SW_LID`, value 1) makes
the aggregate inhibited predicate true, and the matching value-0 event makes it false. -/
theorem evdev_process_events_lid_switch_witness :
    (evdev_process_events macbookpro (init_state 32) 7 24 ⟨EV_SW, SW_LID, 1⟩).inhibit.inhibited
      = true ∧
    (evdev_process_events macbookpro
      (evdev_process_events macbookpro (init_state 32) 7 24 ⟨EV_SW, SW_LID, 1⟩)
      7 24 ⟨EV_SW, SW_LID, 0⟩).inhibit.inhibited = false :=
  ⟨((evdev_process_events_lid_switch macbookpro (init_state 32) 7 24 ⟨EV_SW, SW_LID, 1⟩
      rfl rfl).1 rfl (by decide)).2.2,
   (evdev_process_events_lid_switch macbookpro (init_state 32) 7 24 ⟨EV_SW, SW_LID, 1⟩
      rfl rfl).2.2.2 7 ⟨EV_SW, SW_LID, 0⟩ rfl (by decide) rfl rfl rfl rfl rfl⟩

/-! ## Tone events (C11) -/

/-- C11: for every full-size sound-category event, `evdev_process_events` invokes
`beep_beep` exactly once if the code is `SND_TONE` and the signed value is strictly
positive, and invokes no action in every other case (other sub-code, value zero or
negative), so `beep_beep` is among the calls if and only if the code is `SND_TONE` and the
value is positive; in all cases the inhibit state, the idle counter and the slot table are
unchanged. -/
theorem evdev_process_events_tone (cfg : Config) (s : State) (fd ret : Int)
    (ev : InputEvent) (hret : ret = (cfg.sizeof_input_event : Int)) (hty : ev.type = EV_SND) :
    ((ev.code = SND_TONE ∧ 0 < ev.value) →
      evdev_process_events cfg s fd ret ev
        = { s with trace := s.trace ++ [Call.read fd, Call.beep_beep] } ∧
      actions (new_calls s (evdev_process_events cfg s fd ret ev)) = [Call.beep_beep]) ∧
    (¬ (ev.code = SND_TONE ∧ 0 < ev.value) →
      evdev_process_events cfg s fd ret ev = { s with trace := s.trace ++ [Call.read fd] } ∧
      actions (new_calls s (evdev_process_events cfg s fd ret ev)) = []) ∧
    (Call.beep_beep ∈ new_calls s (evdev_process_events cfg s fd ret ev)
      ↔ (ev.code = SND_TONE ∧ 0 < ev.value)) ∧
    (evdev_process_events cfg s fd ret ev).inhibit = s.inhibit ∧
    (evdev_process_events cfg s fd ret ev).idle = s.idle ∧
    (evdev_process_events cfg s fd ret ev).ev_fds = s.ev_fds := by
  have hk : ¬ (EV_SND = EV_KEY) := by decide
  by_cases hc : ev.code = SND_TONE ∧ 0 < ev.value
  · have h : evdev_process_events cfg s fd ret ev
        = { s with trace := s.trace ++ [Call.read fd, Call.beep_beep] } := by
      simp [evdev_process_events, hret, hty, hk, hc.1, hc.2, call]
    have hn := new_calls_of_trace s (evdev_process_events cfg s fd ret ev)
      [Call.read fd, Call.beep_beep] (by rw [h])
    refine ⟨fun _ => ⟨h, by rw [hn]; rfl⟩, fun hn2 => absurd hc hn2, ?_, ?_, ?_, ?_⟩
    · rw [hn]; simp [hc]
    · rw [h]
    · rw [h]
    · rw [h]
  · have h : evdev_process_events cfg s fd ret ev
        = { s with trace := s.trace ++ [Call.read fd] } := by
      have hc2 : ¬ (ev.code = SND_TONE ∧ ev.value > 0) := hc
      simp only [evdev_process_events, hret, hty, hk, hc2, call]
      simp
    have hn := new_calls_of_trace s (evdev_process_events cfg s fd ret ev)
      [Call.read fd] (by rw [h])
    refine ⟨fun hc2 => absurd hc2 hc, fun _ => ⟨h, by rw [hn]; rfl⟩, ?_, ?_, ?_, ?_⟩
    · rw [hn]; simp [hc]
    · rw [h]
    · rw [h]
    · rw [h]

/-- Witness for C11: the beeper device reports `SND_TONE` with value 440 on descriptor 9:
one `beep_beep`; with value 0 (tone off) nothing. -/
theorem evdev_process_events_tone_witness :
    actions (new_calls (init_state 32)
      (evdev_process_events macbookpro (init_state 32) 9 24 ⟨EV_SND, SND_TONE, 440⟩))
      = [Call.beep_beep] ∧
    actions (new_calls (init_state 32)
      (evdev_process_events macbookpro (init_state 32) 9 24 ⟨EV_SND, SND_TONE, 0⟩)) = [] :=
  ⟨((evdev_process_events_tone macbookpro (init_state 32) 9 24 ⟨EV_SND, SND_TONE, 440⟩
      rfl rfl).1 (by decide)).2,
   ((evdev_process_events_tone macbookpro (init_state 32) 9 24 ⟨EV_SND, SND_TONE, 0⟩
      rfl rfl).2.1 (by decide)).2⟩

/-! ## Function-key mode (C20) -/

theorem fnmode_law_of_ite (sig : Bool) :
    fnmode_law (if sig = true then ((1 : Int), [Call.kbd_set_fnmode]) else (0, [])) sig := by
  unfold fnmode_law
  cases sig <;> simp

theorem evdev_is_geyser3_eq (cfg : Config) (id : Identity) :
    evdev_is_geyser3 cfg id
      = if geyser_signature cfg cfg.USB_PRODUCT_ID_GEYSER3_ANSI cfg.USB_PRODUCT_ID_GEYSER3_ISO
            cfg.USB_PRODUCT_ID_GEYSER3_JIS id = true
        then ((1 : Int), [Call.kbd_set_fnmode]) else (0, []) := by
  unfold evdev_is_geyser3 geyser_signature
  by_cases h1 : id.bus = BUS_USB <;> by_cases h2 : id.vendor = cfg.USB_VENDOR_ID_APPLE <;>
    simp [h1, h2]

theorem evdev_is_geyser4_eq (cfg : Config) (id : Identity) :
    evdev_is_geyser4 cfg id
      = if geyser_signature cfg cfg.USB_PRODUCT_ID_GEYSER4_ANSI cfg.USB_PRODUCT_ID_GEYSER4_ISO
            cfg.USB_PRODUCT_ID_GEYSER4_JIS id = true
        then ((1 : Int), [Call.kbd_set_fnmode]) else (0, []) := by
  unfold evdev_is_geyser4 geyser_signature
  by_cases h1 : id.bus = BUS_USB <;> by_cases h2 : id.vendor = cfg.USB_VENDOR_ID_APPLE <;>
    simp [h1, h2]

theorem evdev_is_geyser4hf_eq (cfg : Config) (id : Identity) :
    evdev_is_geyser4hf cfg id
      = if geyser_signature cfg cfg.USB_PRODUCT_ID_GEYSER4HF_ANSI
            cfg.USB_PRODUCT_ID_GEYSER4HF_ISO cfg.USB_PRODUCT_ID_GEYSER4HF_JIS id = true
        then ((1 : Int), [Call.kbd_set_fnmode]) else (0, []) := by
  unfold evdev_is_geyser4hf geyser_signature
  by_cases h1 : id.bus = BUS_USB <;> by_cases h2 : id.vendor = cfg.USB_VENDOR_ID_APPLE <;>
    simp [h1, h2]

/-- C20: for each of `evdev_is_geyser3`, `evdev_is_geyser4`, `evdev_is_geyser4hf` and for
every identity, the predicate returns 1 if and only if the bus is USB, the vendor is Apple
and the product is one of that family's ANSI/ISO/JIS ids, and returns 0 otherwise;
`kbd_set_fnmode` is invoked exactly once when the predicate returns 1 and not at all when
it returns 0; the version is not consulted. -/
theorem evdev_is_geyser_fnmode (cfg : Config) (id : Identity) :
    fnmode_law (evdev_is_geyser3 cfg id)
      (geyser_signature cfg cfg.USB_PRODUCT_ID_GEYSER3_ANSI cfg.USB_PRODUCT_ID_GEYSER3_ISO
        cfg.USB_PRODUCT_ID_GEYSER3_JIS id) ∧
    fnmode_law (evdev_is_geyser4 cfg id)
      (geyser_signature cfg cfg.USB_PRODUCT_ID_GEYSER4_ANSI cfg.USB_PRODUCT_ID_GEYSER4_ISO
        cfg.USB_PRODUCT_ID_GEYSER4_JIS id) ∧
    fnmode_law (evdev_is_geyser4hf cfg id)
      (geyser_signature cfg cfg.USB_PRODUCT_ID_GEYSER4HF_ANSI cfg.USB_PRODUCT_ID_GEYSER4HF_ISO
        cfg.USB_PRODUCT_ID_GEYSER4HF_JIS id) ∧
    (∀ v : Nat,
      evdev_is_geyser3 cfg { id with version := v } = evdev_is_geyser3 cfg id ∧
      evdev_is_geyser4 cfg { id with version := v } = evdev_is_geyser4 cfg id ∧
      evdev_is_geyser4hf cfg { id with version := v } = evdev_is_geyser4hf cfg id) := by
  refine ⟨?_, ?_, ?_, fun v => ⟨rfl, rfl, rfl⟩⟩
  · rw [evdev_is_geyser3_eq]
    exact fnmode_law_of_ite _
  · rw [evdev_is_geyser4_eq]
    exact fnmode_law_of_ite _
  · rw [evdev_is_geyser4hf_eq]
    exact fnmode_law_of_ite _

/-- Witness for C20: the Geyser IV ISO keyboard (05ac:021b), whatever its version, makes
`evdev_is_geyser4` return 1 with one `kbd_set_fnmode`; `evdev_is_geyser3` returns 0 on it
with no call. -/
theorem evdev_is_geyser_fnmode_witness :
    evdev_is_geyser4 macbookpro ⟨0x03, 0x05ac, 0x021b, 0x0100⟩ = (1, [Call.kbd_set_fnmode]) ∧
    evdev_is_geyser3 macbookpro ⟨0x03, 0x05ac, 0x021b, 0x0100⟩ = (0, []) :=
  ⟨Prod.ext
      (((evdev_is_geyser_fnmode macbookpro ⟨0x03, 0x05ac, 0x021b, 0x0100⟩).2.1).1.mpr
        (by decide))
      (((evdev_is_geyser_fnmode macbookpro ⟨0x03, 0x05ac, 0x021b, 0x0100⟩).2.1).2.2.1
        (by decide)),
   Prod.ext
      (((evdev_is_geyser_fnmode macbookpro ⟨0x03, 0x05ac, 0x021b, 0x0100⟩).1).2.1.mpr
        (by decide))
      (((evdev_is_geyser_fnmode macbookpro ⟨0x03, 0x05ac, 0x021b, 0x0100⟩).1).2.2.2
        (by decide))⟩

/-! ## Wait failures (C12) -/

theorem new_calls_self (s : State) : new_calls s s = [] := by
  simp [new_calls]

/-- C12: `evdev_event_loop` returns the fatal result -1 if and only if the wait failed
(`nfds < 0`) with an error other than `EINTR`; when the wait is interrupted the call returns
1 (non-negative) and changes no state; in both failure cases the state is unchanged, no call
is made (no device event is dispatched) and `evdev_inotify_process` is not called. -/
theorem evdev_event_loop_wait_failure (cfg : Config) (s : State) (nfds errno : Int)
    (events : List Ready) (ino : InotifyAnswers) :
    ((evdev_event_loop cfg s nfds errno events ino).1 = -1 ↔ (nfds < 0 ∧ errno ≠ EINTR)) ∧
    (nfds < 0 → errno = EINTR →
      evdev_event_loop cfg s nfds errno events ino = (1, s) ∧
      0 ≤ (evdev_event_loop cfg s nfds errno events ino).1) ∧
    (nfds < 0 →
      (evdev_event_loop cfg s nfds errno events ino).2 = s ∧
      new_calls s (evdev_event_loop cfg s nfds errno events ino).2 = [] ∧
      inotify_invoked cfg s nfds events = false) := by
  by_cases hn : nfds < 0
  · have hn2 : ¬ (0 ≤ nfds) := by omega
    by_cases he : errno = EINTR
    · simp [evdev_event_loop, hn, he, new_calls_self, inotify_invoked, hn2]
    · simp [evdev_event_loop, hn, he, new_calls_self, inotify_invoked, hn2]
  · have h1 : ∀ r : Int × State, (if (event_loop_scan cfg (s, false)
          (events.take nfds.toNat)).2 = true then (nfds, evdev_inotify_process cfg
          (event_loop_scan cfg (s, false) (events.take nfds.toNat)).1 ino)
        else (nfds, (event_loop_scan cfg (s, false) (events.take nfds.toNat)).1)).1 = nfds := by
      intro _
      split <;> rfl
    refine ⟨?_, fun h => absurd h hn, fun h => absurd h hn⟩
    simp only [evdev_event_loop, hn, if_false, h1 (0, s)]
    constructor
    · intro h; omega
    · intro h; exact h.1.elim

/-- Witness for C12: an interrupted wait (`EINTR`) returns 1 and leaves the state alone; a
wait failing with `EBADF` (9) returns -1. -/
theorem evdev_event_loop_wait_failure_witness :
    evdev_event_loop macbookpro (init_state 32) (-1) EINTR []
        ⟨0, 0, "", -1, ⟨0, 0, 0, 0⟩, [], -1⟩ = (1, init_state 32) ∧
    (evdev_event_loop macbookpro (init_state 32) (-1) 9 []
        ⟨0, 0, "", -1, ⟨0, 0, 0, 0⟩, [], -1⟩).1 = -1 :=
  ⟨((evdev_event_loop_wait_failure macbookpro (init_state 32) (-1) EINTR []
      ⟨0, 0, "", -1, ⟨0, 0, 0, 0⟩, [], -1⟩).2.1 (by decide) rfl).1,
   (evdev_event_loop_wait_failure macbookpro (init_state 32) (-1) 9 []
      ⟨0, 0, "", -1, ⟨0, 0, 0, 0⟩, [], -1⟩).1.mpr (by decide)⟩

/-! ## Hot-plug name filter and open failure (C16, C18) -/

theorem strncmp_eq_zero_iff (n : Nat) :
    ∀ a b : List Char, strncmp a b n = 0 ↔ a.take n = b.take n := by
  induction n with
  | zero => intro a b; simp [strncmp]
  | succ n ih =>
    intro a b
    cases a with
    | nil => cases b <;> simp [strncmp]
    | cons x xs =>
      cases b with
      | nil => simp [strncmp]
      | cons y ys =>
        by_cases hxy : x = y
        · simp [strncmp, hxy, ih]
        · simp only [strncmp, hxy, if_false, List.take_succ_cons, List.cons.injEq, false_and,
            iff_false]
          split <;> simp

/-- C16: for every notification record read by `evdev_inotify_process`, if the name length
is zero, or the first five characters of the name are not "event", the record is discarded:
the only call made is the `read` of the record, so no path is opened and `evdev_try_add`
is not called, and the slot table and the epoll set are unchanged. -/
theorem evdev_inotify_process_discards (cfg : Config) (s : State) (a : InotifyAnswers)
    (h : a.len = 0 ∨ a.name.toList.take 5 ≠ "event".toList) :
    evdev_inotify_process cfg s a = { s with trace := s.trace ++ [Call.read s.ifd] } ∧
    new_calls s (evdev_inotify_process cfg s a) = [Call.read s.ifd] ∧
    (∀ p, Call.open_rdwr p ∉ new_calls s (evdev_inotify_process cfg s a)) ∧
    (∀ fd, Call.close fd ∉ new_calls s (evdev_inotify_process cfg s a)) ∧
    (∀ fd, Call.epoll_ctl_add fd ∉ new_calls s (evdev_inotify_process cfg s a)) ∧
    (evdev_inotify_process cfg s a).ev_fds = s.ev_fds ∧
    (evdev_inotify_process cfg s a).epoll = s.epoll := by
  have hP : evdev_inotify_process cfg s a = { s with trace := s.trace ++ [Call.read s.ifd] } := by
    unfold evdev_inotify_process
    by_cases hr : a.ret < 0
    · simp [hr, call]
    · by_cases hl : a.len = 0
      · simp [hr, hl, call]
      · have hne : a.name.toList.take 5 ≠ "event".toList := by
          rcases h with h | h
          · exact absurd h hl
          · exact h
        have hs : strncmp "event".toList a.name.toList 5 ≠ 0 := by
          rw [Ne, strncmp_eq_zero_iff]
          intro e
          apply hne
          rw [← e]
          rfl
        simp only [hr, hl, hs, if_false, ne_eq, not_false_eq_true, if_true, call]
  have hn := new_calls_of_trace s (evdev_inotify_process cfg s a) [Call.read s.ifd]
    (by rw [hP])
  refine ⟨hP, hn, ?_, ?_, ?_, ?_, ?_⟩
  · intro p; rw [hn]; simp
  · intro fd; rw [hn]; simp
  · intro fd; rw [hn]; simp
  · rw [hP]
  · rw [hP]

/-- Witness for C16: a node named "mouse0" appears in the directory; the record is read
and dropped. -/
theorem evdev_inotify_process_discards_witness :
    new_calls { init_state 32 with ifd := 4 }
      (evdev_inotify_process macbookpro { init_state 32 with ifd := 4 }
        ⟨32, 16, "mouse0", 7, ⟨0x03, 0x05ac, 0x021a, 0⟩, [0x03], 0⟩) = [Call.read 4] :=
  (evdev_inotify_process_discards macbookpro { init_state 32 with ifd := 4 }
    ⟨32, 16, "mouse0", 7, ⟨0x03, 0x05ac, 0x021a, 0⟩, [0x03], 0⟩ (Or.inr (by decide))).2.1

/-- C18 (as the code behaves): the node "event5" is announced and `open` fails (returns -1).
`evdev_inotify_process` does not return after the failed `open`: it goes on to
`evdev_try_add(-1)`, which consults the identify hook and closes descriptor -1; when the
uninitialised `id` happens to hold a Geyser IV identity the hook also calls
`kbd_set_fnmode`. At startup discovery (`evdev_init`) the same failed `open` skips to the
next device: the only call is the `open`. -/
theorem evdev_inotify_process_failed_open_reaches_try_add :
    new_calls { init_state 32 with ifd := 4 }
      (evdev_inotify_process macbookpro { init_state 32 with ifd := 4 }
        ⟨32, 16, "event5", -1, ⟨0, 0, 0, 0⟩, [0], -1⟩)
      = [Call.read 4, Call.open_rdwr "/dev/input/event5", Call.close (-1)] ∧
    new_calls { init_state 32 with ifd := 4 }
      (evdev_inotify_process macbookpro { init_state 32 with ifd := 4 }
        ⟨32, 16, "event5", -1, ⟨0x03, 0x05ac, 0x021a, 0⟩, [0], -1⟩)
      = [Call.read 4, Call.open_rdwr "/dev/input/event5", Call.kbd_set_fnmode,
         Call.close (-1)] ∧
    (evdev_init_probe macbookpro ({ init_state 32 with ifd := 4 }, 0) 5
        ⟨-1, ⟨0, 0, 0, 0⟩, [0], -1⟩).map (fun r => new_calls { init_state 32 with ifd := 4 } r.1)
      = some [Call.open_rdwr "/dev/input/event5"] := by
  decide

/-! ## The loop of `evdev_event_loop` (C13, C14, C17) -/

theorem dispatch_frame_refl (s : State) : dispatch_frame s s :=
  ⟨rfl, rfl, rfl, [], by simp, by simp⟩

theorem dispatch_frame_call (s : State) (c : Call) (hc : Call.isKernel c = false) :
    dispatch_frame s (call s c) :=
  ⟨rfl, rfl, rfl, [c], rfl, by simpa using hc⟩

theorem dispatch_frame_ite (s a b : State) (c : Prop) [Decidable c] (ha : dispatch_frame s a)
    (hb : dispatch_frame s b) : dispatch_frame s (if c then a else b) := by
  split
  · exact ha
  · exact hb

theorem key_switch_dispatch_frame (cfg : Config) (s : State) (code : Nat) :
    dispatch_frame s (key_switch cfg s code) := by
  unfold key_switch
  repeat' apply dispatch_frame_ite
  all_goals
    first
    | exact dispatch_frame_refl s
    | exact dispatch_frame_call s _ rfl

/-- The dispatcher makes one `read` and then only collaborator calls; it leaves the slot
table, the epoll set and `ifd` alone. -/
theorem evdev_process_events_frame (cfg : Config) (s : State) (fd ret : Int)
    (ev : InputEvent) :
    (evdev_process_events cfg s fd ret ev).ev_fds = s.ev_fds ∧
    (evdev_process_events cfg s fd ret ev).epoll = s.epoll ∧
    (evdev_process_events cfg s fd ret ev).ifd = s.ifd ∧
    ∃ extra, (evdev_process_events cfg s fd ret ev).trace = s.trace ++ Call.read fd :: extra ∧
      ∀ c ∈ extra, Call.isKernel c = false := by
  have base : ∀ t : State, t = call s (Call.read fd) →
      t.ev_fds = s.ev_fds ∧ t.epoll = s.epoll ∧ t.ifd = s.ifd ∧
      ∃ extra, t.trace = s.trace ++ Call.read fd :: extra ∧
        ∀ c ∈ extra, Call.isKernel c = false := by
    intro t ht
    subst ht
    exact ⟨rfl, rfl, rfl, [], rfl, by simp⟩
  have one : ∀ c : Call, Call.isKernel c = false →
      (call (call s (Call.read fd)) c).ev_fds = s.ev_fds ∧
      (call (call s (Call.read fd)) c).epoll = s.epoll ∧
      (call (call s (Call.read fd)) c).ifd = s.ifd ∧
      ∃ extra, (call (call s (Call.read fd)) c).trace = s.trace ++ Call.read fd :: extra ∧
        ∀ c ∈ extra, Call.isKernel c = false := by
    intro c hc
    exact ⟨rfl, rfl, rfl, [c], by simp [call], by simpa using hc⟩
  unfold evdev_process_events
  by_cases hr : ret ≠ (cfg.sizeof_input_event : Int)
  · rw [if_pos hr]; exact base _ rfl
  rw [if_neg hr]
  by_cases hk : ev.type = EV_KEY
  · rw [if_pos hk]
    by_cases hv : ev.value = 0
    · rw [if_pos hv]; exact base _ rfl
    · rw [if_neg hv]
      obtain ⟨h1, h2, h3, extra, h4, h5⟩ := key_switch_dispatch_frame cfg
        (kbd_backlight_inhibit_clear { call s (Call.read fd) with idle := 0 }
          InhibitReason.KBD_INHIBIT_IDLE) ev.code
      refine ⟨by rw [h1]; rfl, by rw [h2]; rfl, by rw [h3]; rfl,
        Call.kbd_backlight_inhibit_clear InhibitReason.KBD_INHIBIT_IDLE :: extra, ?_, ?_⟩
      · rw [h4]; simp [kbd_backlight_inhibit_clear, call]
      · intro c hc
        rcases List.mem_cons.mp hc with h | h
        · subst h; rfl
        · exact h5 c h
  rw [if_neg hk]
  by_cases hs : ev.type = EV_SND
  · rw [if_pos hs]
    split
    · exact one _ rfl
    · exact base _ rfl
  rw [if_neg hs]
  by_cases hw : ev.type = EV_SW
  · rw [if_pos hw]
    by_cases hc : ev.code = SW_LID
    · rw [if_pos hc]
      split
      · exact ⟨rfl, rfl, rfl, [Call.kbd_backlight_inhibit_set InhibitReason.KBD_INHIBIT_LID],
          by simp [kbd_backlight_inhibit_set, call], by simp [Call.isKernel]⟩
      · exact ⟨rfl, rfl, rfl, [Call.kbd_backlight_inhibit_clear InhibitReason.KBD_INHIBIT_LID],
          by simp [kbd_backlight_inhibit_clear, call], by simp [Call.isKernel]⟩
    · rw [if_neg hc]; exact base _ rfl
  · rw [if_neg hw]; exact base _ rfl

theorem closes_append (a b : List Call) : closes (a ++ b) = closes a ++ closes b := by
  induction a with
  | nil => rfl
  | cons c a ih => cases c <;> simp [closes, ih]

theorem closes_of_not_kernel (l : List Call) (h : ∀ c ∈ l, Call.isKernel c = false) :
    closes l = [] := by
  induction l with
  | nil => rfl
  | cons c l ih =>
    have hc := h c (by simp)
    have hl := ih (fun d hd => h d (by simp [hd]))
    cases c <;> simp_all [closes, Call.isKernel]

theorem evdev_remove_ifd (s : State) (fd ctl : Int) : (evdev_remove s fd ctl).ifd = s.ifd := rfl

theorem evdev_remove_not_mem_epoll (s : State) (fd ctl : Int) :
    fd ∉ (evdev_remove s fd ctl).epoll := by
  simp [evdev_remove, sys_close]

theorem event_loop_body_fst (cfg : Config) (s : State) (f g : Bool) (e : Ready) :
    (event_loop_body cfg (s, f) e).1 = (event_loop_body cfg (s, g) e).1 := by
  unfold event_loop_body
  split
  · rfl
  · split
    · split <;> rfl
    · rfl

theorem event_loop_body_snd (cfg : Config) (s : State) (f : Bool) (e : Ready) :
    (event_loop_body cfg (s, f) e).2 = (f || e.for_watcher s) := by
  unfold event_loop_body Ready.for_watcher
  cases h1 : e.err_hup <;> cases h2 : e.readable <;> by_cases h3 : e.fd = s.ifd <;> simp [h3]

theorem event_loop_scan_fst (cfg : Config) (es : List Ready) :
    ∀ (s : State) (f g : Bool),
      (event_loop_scan cfg (s, f) es).1 = (event_loop_scan cfg (s, g) es).1 := by
  induction es with
  | nil => intro s f g; rfl
  | cons e es ih =>
    intro s f g
    simp only [event_loop_scan, List.foldl_cons]
    have h := event_loop_body_fst cfg s f g e
    have e1 : event_loop_body cfg (s, f) e
        = ((event_loop_body cfg (s, f) e).1, (event_loop_body cfg (s, f) e).2) := rfl
    have e2 : event_loop_body cfg (s, g) e
        = ((event_loop_body cfg (s, f) e).1, (event_loop_body cfg (s, g) e).2) := by
      rw [h]
    rw [e1, e2]
    exact ih _ _ _

theorem event_loop_scan_cons (cfg : Config) (s : State) (f : Bool) (e : Ready)
    (es : List Ready) :
    event_loop_scan cfg (s, f) (e :: es)
      = event_loop_scan cfg ((event_loop_body cfg (s, false) e).1, f || e.for_watcher s) es := by
  simp only [event_loop_scan, List.foldl_cons]
  congr 1
  exact Prod.ext (event_loop_body_fst cfg s f false e) (event_loop_body_snd cfg s f e)

theorem event_loop_scan_append (cfg : Config) (acc : State × Bool) (l1 l2 : List Ready) :
    event_loop_scan cfg acc (l1 ++ l2) = event_loop_scan cfg (event_loop_scan cfg acc l1) l2 := by
  simp [event_loop_scan, List.foldl_append]

/-- The calls of one entry, case by case. -/
theorem entry_calls_cases (cfg : Config) (s : State) (e : Ready) :
    (e.err_hup = true →
      (event_loop_body cfg (s, false) e).1
        = evdev_remove (if e.fd = s.ifd then { s with ifd := -1 } else s) e.fd e.ctl ∧
      entry_calls cfg s e = [Call.epoll_ctl_del e.fd, Call.close e.fd]) ∧
    (e.err_hup = false → e.readable = true → e.fd ≠ s.ifd →
      (event_loop_body cfg (s, false) e).1 = evdev_process_events cfg s e.fd e.ret e.ev ∧
      entry_calls cfg s e = new_calls s (evdev_process_events cfg s e.fd e.ret e.ev)) ∧
    (e.err_hup = false → (e.readable = false ∨ e.fd = s.ifd) →
      (event_loop_body cfg (s, false) e).1 = s ∧ entry_calls cfg s e = []) := by
  refine ⟨?_, ?_, ?_⟩
  · intro h
    have hb : (event_loop_body cfg (s, false) e).1
        = evdev_remove (if e.fd = s.ifd then { s with ifd := -1 } else s) e.fd e.ctl := by
      simp [event_loop_body, h]
    refine ⟨hb, ?_⟩
    apply new_calls_of_trace
    rw [hb, evdev_remove_trace]
    split <;> rfl
  · intro h1 h2 h3
    have hb : (event_loop_body cfg (s, false) e).1
        = evdev_process_events cfg s e.fd e.ret e.ev := by
      simp [event_loop_body, h1, h2, h3]
    exact ⟨hb, by unfold entry_calls; rw [hb]⟩
  · intro h1 h2
    have hb : (event_loop_body cfg (s, false) e).1 = s := by
      rcases h2 with h2 | h2
      · simp [event_loop_body, h1, h2]
      · cases hr : e.readable <;> simp [event_loop_body, h1, h2, hr]
    exact ⟨hb, by unfold entry_calls; rw [hb]; exact new_calls_self s⟩

theorem event_loop_body_trace (cfg : Config) (s : State) (e : Ready) :
    (event_loop_body cfg (s, false) e).1.trace = s.trace ++ entry_calls cfg s e := by
  obtain ⟨h1, h2, h3⟩ := entry_calls_cases cfg s e
  cases he : e.err_hup
  · by_cases hw : e.readable = true ∧ e.fd ≠ s.ifd
    · obtain ⟨hb, hc⟩ := h2 he hw.1 hw.2
      obtain ⟨_, _, _, extra, ht, _⟩ := evdev_process_events_frame cfg s e.fd e.ret e.ev
      rw [hc, hb, new_calls_of_trace s _ _ ht, ht]
    · have : e.readable = false ∨ e.fd = s.ifd := by
        by_cases hr : e.readable = true
        · right
          by_contra hne
          exact hw ⟨hr, hne⟩
        · left
          simpa using hr
      obtain ⟨hb, hc⟩ := h3 he this
      rw [hb, hc]; simp
  · obtain ⟨hb, hc⟩ := h1 he
    rw [hc, hb, evdev_remove_trace]
    split <;> rfl

theorem event_loop_scan_trace (cfg : Config) (es : List Ready) :
    ∀ (s : State) (f : Bool),
      (event_loop_scan cfg (s, f) es).1.trace = s.trace ++ loop_calls cfg s es := by
  induction es with
  | nil => intro s f; simp [event_loop_scan, loop_calls]
  | cons e es ih =>
    intro s f
    rw [event_loop_scan_cons, ih, event_loop_body_trace, loop_calls, List.append_assoc]

theorem event_loop_scan_snd (cfg : Config) (es : List Ready) :
    ∀ (s : State) (f : Bool),
      ((event_loop_scan cfg (s, f) es).2 = true ↔
        (f = true ∨ ∃ pre e post, es = pre ++ e :: post ∧
          e.for_watcher (event_loop_scan cfg (s, false) pre).1 = true)) := by
  induction es with
  | nil =>
    intro s f
    simp [event_loop_scan]
  | cons e0 es ih =>
    intro s f
    rw [event_loop_scan_cons, ih]
    constructor
    · rintro (h | ⟨pre, e, post, hes, hw⟩)
      · rcases Bool.or_eq_true _ _ ▸ h with h | h
        · exact Or.inl h
        · exact Or.inr ⟨[], e0, es, rfl, h⟩
      · refine Or.inr ⟨e0 :: pre, e, post, by rw [hes]; rfl, ?_⟩
        rw [event_loop_scan_cons, event_loop_scan_fst cfg pre _ _ false]
        exact hw
    · rintro (h | ⟨pre, e, post, hes, hw⟩)
      · exact Or.inl (by simp [h])
      · cases pre with
        | nil =>
          simp only [List.nil_append, List.cons.injEq] at hes
          obtain ⟨h1, _⟩ := hes
          subst h1
          left
          have : e0.for_watcher s = true := hw
          simp [this]
        | cons p pre =>
          simp only [List.cons_append, List.cons.injEq] at hes
          obtain ⟨h1, h2⟩ := hes
          subst h1
          right
          refine ⟨pre, e, post, h2, ?_⟩
          rw [event_loop_scan_cons, event_loop_scan_fst cfg pre _ _ false] at hw
          exact hw

theorem event_loop_body_ifd (cfg : Config) (s : State) (e : Ready) :
    (event_loop_body cfg (s, false) e).1.ifd
      = if e.err_hup = true ∧ e.fd = s.ifd then -1 else s.ifd := by
  obtain ⟨h1, h2, h3⟩ := entry_calls_cases cfg s e
  cases he : e.err_hup
  · simp only [Bool.false_eq_true, false_and, if_false]
    by_cases hw : e.readable = true ∧ e.fd ≠ s.ifd
    · rw [(h2 he hw.1 hw.2).1]
      exact (evdev_process_events_frame cfg s e.fd e.ret e.ev).2.2.1
    · have : e.readable = false ∨ e.fd = s.ifd := by
        by_cases hr : e.readable = true
        · right
          by_contra hne
          exact hw ⟨hr, hne⟩
        · left
          simpa using hr
      rw [(h3 he this).1]
  · rw [(h1 he).1, evdev_remove_ifd]
    by_cases hf : e.fd = s.ifd <;> simp [hf]

theorem evdev_try_add_ifd (cfg : Config) (s : State) (fd : Int) (id : Identity)
    (bit0 : List Nat) (ctl : Int) : (evdev_try_add cfg s fd id bit0 ctl).2.ifd = s.ifd := by
  have hadd : ∀ t : State, (evdev_add t fd ctl).2.ifd = t.ifd := by
    intro t; unfold evdev_add; split <;> rfl
  unfold evdev_try_add
  repeat' split
  all_goals first | rfl | exact hadd _

theorem evdev_inotify_process_ifd (cfg : Config) (s : State) (a : InotifyAnswers) :
    (evdev_inotify_process cfg s a).ifd = s.ifd := by
  unfold evdev_inotify_process
  dsimp only
  repeat' split
  all_goals first | rfl | exact evdev_try_add_ifd _ _ _ _ _ _

theorem event_loop_scan_ifd_lost_stays (cfg : Config) (es : List Ready) :
    ∀ (s : State) (f : Bool), s.ifd = -1 → (event_loop_scan cfg (s, f) es).1.ifd = -1 := by
  induction es with
  | nil => intro s f h; exact h
  | cons e es ih =>
    intro s f h
    rw [event_loop_scan_cons]
    apply ih
    rw [event_loop_body_ifd]
    split
    · rfl
    · exact h

theorem event_loop_scan_ifd_lost (cfg : Config) (es : List Ready) :
    ∀ (s : State) (f : Bool), (∃ e ∈ es, e.err_hup = true ∧ e.fd = s.ifd) →
      (event_loop_scan cfg (s, f) es).1.ifd = -1 := by
  induction es with
  | nil => intro s f h; simp at h
  | cons e0 es ih =>
    intro s f h
    rw [event_loop_scan_cons]
    obtain ⟨e, hmem, herr, hfd⟩ := h
    have hb := event_loop_body_ifd cfg s e0
    by_cases hc : e0.err_hup = true ∧ e0.fd = s.ifd
    · rw [if_pos hc] at hb
      exact event_loop_scan_ifd_lost_stays cfg es _ _ hb
    · rw [if_neg hc] at hb
      rcases List.mem_cons.mp hmem with h1 | h1
      · subst h1
        exact absurd ⟨herr, hfd⟩ hc
      · exact ih _ _ ⟨e, h1, herr, by rw [hb]; exact hfd⟩

theorem event_loop_scan_ifd_kept (cfg : Config) (es : List Ready) :
    ∀ (s : State) (f : Bool), (∀ e ∈ es, ¬ (e.err_hup = true ∧ e.fd = s.ifd)) →
      (event_loop_scan cfg (s, f) es).1.ifd = s.ifd := by
  induction es with
  | nil => intro s f _; rfl
  | cons e0 es ih =>
    intro s f h
    rw [event_loop_scan_cons]
    have hb := event_loop_body_ifd cfg s e0
    rw [if_neg (h e0 (by simp))] at hb
    rw [ih _ _ (fun e he => by rw [hb]; exact h e (by simp [he])), hb]

theorem event_loop_scan_flag_of_lost (cfg : Config) (es : List Ready) (s : State)
    (h : s.ifd = -1) (hv : ∀ e ∈ es, 0 ≤ e.fd) :
    (event_loop_scan cfg (s, false) es).2 = false := by
  by_contra hc
  simp only [Bool.not_eq_false] at hc
  rcases (event_loop_scan_snd cfg es s false).mp hc with h1 | ⟨pre, e, post, hes, hw⟩
  · cases h1
  · have hifd := event_loop_scan_ifd_lost_stays cfg pre s false h
    have hfd : e.fd = -1 := by
      simp only [Ready.for_watcher, Bool.and_eq_true, decide_eq_true_eq] at hw
      rw [hw.2, hifd]
    have := hv e (by rw [hes]; simp)
    omega

theorem evdev_event_loop_of_nonneg (cfg : Config) (s : State) (nfds errno : Int)
    (events : List Ready) (ino : InotifyAnswers) (hn : 0 ≤ nfds) :
    evdev_event_loop cfg s nfds errno events ino
      = (nfds,
          if (event_loop_scan cfg (s, false) (events.take nfds.toNat)).2 = true then
            evdev_inotify_process cfg
              (event_loop_scan cfg (s, false) (events.take nfds.toNat)).1 ino
          else (event_loop_scan cfg (s, false) (events.take nfds.toNat)).1) := by
  have hn2 : ¬ nfds < 0 := by omega
  unfold evdev_event_loop
  rw [if_neg hn2]
  dsimp only
  split <;> rfl

theorem run_cycle_ifd_of_scan (cfg : Config) (s : State) (c : Cycle) (hn : 0 ≤ c.nfds)
    (hs : (event_loop_scan cfg (s, false) (c.events.take c.nfds.toNat)).1.ifd = -1) :
    (run_cycle cfg s c).ifd = -1 := by
  unfold run_cycle
  rw [evdev_event_loop_of_nonneg cfg s c.nfds c.errno c.events c.ino hn]
  dsimp only
  split
  · rw [evdev_inotify_process_ifd]; exact hs
  · exact hs

theorem run_cycle_ifd_lost_stays (cfg : Config) (s : State) (c : Cycle) (h : s.ifd = -1) :
    (run_cycle cfg s c).ifd = -1 := by
  by_cases hn : c.nfds < 0
  · unfold run_cycle evdev_event_loop
    rw [if_pos hn]
    split <;> exact h
  · exact run_cycle_ifd_of_scan cfg s c (by omega)
      (event_loop_scan_ifd_lost_stays cfg (c.events.take c.nfds.toNat) s false h)


theorem evdev_try_add_trace (cfg : Config) (s : State) (fd : Int) (id : Identity)
    (bit0 : List Nat) (ctl : Int) :
    ∃ y, (evdev_try_add cfg s fd id bit0 ctl).2.trace = s.trace ++ y := by
  have hadd : ∀ t : State, t.trace = s.trace ++ (cfg.evdev_identify id).2 →
      ∃ y, (evdev_add t fd ctl).2.trace = s.trace ++ y := by
    intro t ht
    exact ⟨(cfg.evdev_identify id).2 ++ [Call.epoll_ctl_add fd], by
      rw [evdev_add_trace, ht, List.append_assoc]⟩
  have hclose : ∀ t : State, t.trace = s.trace ++ (cfg.evdev_identify id).2 →
      ∃ y, (sys_close t fd).trace = s.trace ++ y := by
    intro t ht
    exact ⟨(cfg.evdev_identify id).2 ++ [Call.close fd], by
      simp [sys_close, ht]⟩
  unfold evdev_try_add
  dsimp only
  repeat' split
  all_goals first | exact hadd _ rfl | exact hclose _ rfl

theorem evdev_inotify_process_trace (cfg : Config) (s : State) (a : InotifyAnswers) :
    ∃ rest, (evdev_inotify_process cfg s a).trace = s.trace ++ Call.read s.ifd :: rest := by
  have base : ∃ rest, (call s (Call.read s.ifd)).trace = s.trace ++ Call.read s.ifd :: rest :=
    ⟨[], rfl⟩
  unfold evdev_inotify_process
  dsimp only
  repeat' split
  all_goals first | exact base | skip
  obtain ⟨y, hy⟩ := evdev_try_add_trace cfg
    (call (call s (Call.read s.ifd)) (Call.open_rdwr (cfg.EVDEV_DIR ++ "/" ++ a.name)))
    a.fd a.id a.bit0 a.ctl
  exact ⟨Call.open_rdwr (cfg.EVDEV_DIR ++ "/" ++ a.name) :: y, by
    rw [hy]; simp [call]⟩


/-! ## The calls of one cycle -/

theorem same_calls_refl (s t : State) : same_calls s t s t :=
  ⟨[], by simp, by simp⟩

theorem same_calls_call (s t : State) (c : Call) : same_calls s t (call s c) (call t c) :=
  ⟨[c], rfl, rfl⟩

theorem same_calls_ite (s t a1 a2 b1 b2 : State) (c : Prop) [Decidable c]
    (h1 : same_calls s t a1 b1) (h2 : same_calls s t a2 b2) :
    same_calls s t (if c then a1 else a2) (if c then b1 else b2) := by
  split
  · exact h1
  · exact h2

theorem same_calls_trans (s t a b a2 b2 : State) (h1 : same_calls s t a b)
    (h2 : same_calls a b a2 b2) : same_calls s t a2 b2 := by
  obtain ⟨x, hx1, hx2⟩ := h1
  obtain ⟨y, hy1, hy2⟩ := h2
  exact ⟨x ++ y, by rw [hy1, hx1, List.append_assoc], by rw [hy2, hx2, List.append_assoc]⟩

theorem new_calls_eq_of_same_calls (s t a b : State) (h : same_calls s t a b) :
    new_calls s a = new_calls t b := by
  obtain ⟨x, h1, h2⟩ := h
  rw [new_calls_of_trace s a x h1, new_calls_of_trace t b x h2]

theorem key_switch_same_calls (cfg : Config) (s t : State) (code : Nat) :
    same_calls s t (key_switch cfg s code) (key_switch cfg t code) := by
  unfold key_switch
  repeat' apply same_calls_ite
  all_goals
    first
    | exact same_calls_refl s t
    | exact same_calls_call s t _

theorem evdev_process_events_same_calls (cfg : Config) (s t : State) (fd ret : Int)
    (ev : InputEvent) :
    same_calls s t (evdev_process_events cfg s fd ret ev)
      (evdev_process_events cfg t fd ret ev) := by
  have base : same_calls s t (call s (Call.read fd)) (call t (Call.read fd)) :=
    same_calls_call s t _
  have two : ∀ c : Call, same_calls s t (call (call s (Call.read fd)) c)
      (call (call t (Call.read fd)) c) :=
    fun c => same_calls_trans _ _ _ _ _ _ base (same_calls_call _ _ c)
  unfold evdev_process_events
  dsimp only
  apply same_calls_ite _ _ _ _ _ _ _ base
  apply same_calls_ite
  · apply same_calls_ite _ _ _ _ _ _ _ base
    refine same_calls_trans _ _ _ _ _ _ base ?_
    refine same_calls_trans _ _
      (kbd_backlight_inhibit_clear { call s (Call.read fd) with idle := 0 }
        InhibitReason.KBD_INHIBIT_IDLE)
      (kbd_backlight_inhibit_clear { call t (Call.read fd) with idle := 0 }
        InhibitReason.KBD_INHIBIT_IDLE) _ _ ?_ (key_switch_same_calls cfg _ _ ev.code)
    exact ⟨[Call.kbd_backlight_inhibit_clear InhibitReason.KBD_INHIBIT_IDLE], rfl, rfl⟩
  · apply same_calls_ite
    · exact same_calls_ite _ _ _ _ _ _ _ (two _) base
    · apply same_calls_ite _ _ _ _ _ _ _ _ base
      apply same_calls_ite _ _ _ _ _ _ _ _ base
      apply same_calls_ite
      · exact same_calls_trans _ _ _ _ _ _ base
          ⟨[Call.kbd_backlight_inhibit_set InhibitReason.KBD_INHIBIT_LID], rfl, rfl⟩
      · exact same_calls_trans _ _ _ _ _ _ base
          ⟨[Call.kbd_backlight_inhibit_clear InhibitReason.KBD_INHIBIT_LID], rfl, rfl⟩

/-- The calls of the dispatcher do not depend on the state. -/
theorem new_calls_evdev_process_events (cfg : Config) (s : State) (fd ret : Int)
    (ev : InputEvent) :
    new_calls s (evdev_process_events cfg s fd ret ev) = dispatcher_calls cfg fd ret ev :=
  new_calls_eq_of_same_calls _ _ _ _ (evdev_process_events_same_calls cfg s _ fd ret ev)

/-- The dispatcher's calls are one `read` of the descriptor, then collaborator calls. -/
theorem dispatcher_calls_shape (cfg : Config) (fd ret : Int) (ev : InputEvent) :
    ∃ extra, dispatcher_calls cfg fd ret ev = Call.read fd :: extra ∧
      ∀ c ∈ extra, Call.isKernel c = false := by
  obtain ⟨_, _, _, extra, ht, hk⟩ := evdev_process_events_frame cfg (init_state 0) fd ret ev
  exact ⟨extra, new_calls_of_trace _ _ _ ht, hk⟩

theorem evdev_try_add_same_calls (cfg : Config) (s t : State) (fd : Int) (id : Identity)
    (bit0 : List Nat) (ctl : Int) :
    same_calls s t (evdev_try_add cfg s fd id bit0 ctl).2
      (evdev_try_add cfg t fd id bit0 ctl).2 := by
  have hclose : same_calls s t
      (sys_close { s with trace := s.trace ++ (cfg.evdev_identify id).2 } fd)
      (sys_close { t with trace := t.trace ++ (cfg.evdev_identify id).2 } fd) :=
    ⟨(cfg.evdev_identify id).2 ++ [Call.close fd], by simp [sys_close], by simp [sys_close]⟩
  have hadd : same_calls s t
      (evdev_add { s with trace := s.trace ++ (cfg.evdev_identify id).2 } fd ctl).2
      (evdev_add { t with trace := t.trace ++ (cfg.evdev_identify id).2 } fd ctl).2 :=
    ⟨(cfg.evdev_identify id).2 ++ [Call.epoll_ctl_add fd],
      by rw [evdev_add_trace, List.append_assoc], by rw [evdev_add_trace, List.append_assoc]⟩
  unfold evdev_try_add
  dsimp only
  by_cases h1 : identity_match cfg id = false
  · rw [if_pos h1, if_pos h1]; exact hclose
  rw [if_neg h1, if_neg h1]
  by_cases h2 : test_bit cfg EV_KEY bit0 = 0
  · rw [if_pos h2, if_pos h2]
    by_cases h3 : test_bit cfg EV_SW bit0 = 0
    · rw [if_pos h3, if_pos h3]; exact hclose
    · rw [if_neg h3, if_neg h3]; exact hadd
  rw [if_neg h2, if_neg h2]
  by_cases h4 : test_bit cfg EV_ABS bit0 ≠ 0
  · rw [if_pos h4, if_pos h4]; exact hclose
  · rw [if_neg h4, if_neg h4]; exact hadd

theorem evdev_inotify_process_same_calls (cfg : Config) (s t : State) (a : InotifyAnswers)
    (h : s.ifd = t.ifd) :
    same_calls s t (evdev_inotify_process cfg s a) (evdev_inotify_process cfg t a) := by
  have base : same_calls s t (call s (Call.read s.ifd)) (call t (Call.read t.ifd)) := by
    rw [← h]; exact same_calls_call s t _
  unfold evdev_inotify_process
  dsimp only
  apply same_calls_ite _ _ _ _ _ _ _ base
  apply same_calls_ite _ _ _ _ _ _ _ base
  apply same_calls_ite _ _ _ _ _ _ _ base
  apply same_calls_ite _ _ _ _ _ _ _ base
  refine same_calls_trans _ _ _ _ _ _ base ?_
  refine same_calls_trans _ _
    (call (call s (Call.read s.ifd)) (Call.open_rdwr (cfg.EVDEV_DIR ++ "/" ++ a.name)))
    (call (call t (Call.read t.ifd)) (Call.open_rdwr (cfg.EVDEV_DIR ++ "/" ++ a.name)))
    _ _ (same_calls_call _ _ _) ?_
  exact evdev_try_add_same_calls cfg _ _ a.fd a.id a.bit0 a.ctl

/-- The calls of the hot-plug processing depend on the state through `ifd` only. -/
theorem new_calls_evdev_inotify_process (cfg : Config) (s : State) (a : InotifyAnswers) :
    new_calls s (evdev_inotify_process cfg s a) = hotplug_calls cfg s.ifd a :=
  new_calls_eq_of_same_calls _ _ _ _
    (evdev_inotify_process_same_calls cfg s { init_state 0 with ifd := s.ifd } a rfl)

theorem hotplug_calls_shape (cfg : Config) (w : Int) (a : InotifyAnswers) :
    ∃ rest, hotplug_calls cfg w a = Call.read w :: rest := by
  obtain ⟨rest, h⟩ := evdev_inotify_process_trace cfg { init_state 0 with ifd := w } a
  exact ⟨rest, new_calls_of_trace _ _ _ h⟩

theorem entry_calls_eq_expected (cfg : Config) (s : State) (e : Ready) :
    entry_calls cfg s e = expected_entry_calls cfg s.ifd e := by
  obtain ⟨h1, h2, h3⟩ := entry_calls_cases cfg s e
  unfold expected_entry_calls
  cases he : e.err_hup
  · by_cases hw : e.readable = true ∧ e.fd ≠ s.ifd
    · rw [(h2 he hw.1 hw.2).2, new_calls_evdev_process_events]
      simp [hw.1, hw.2]
    · have : e.readable = false ∨ e.fd = s.ifd := by
        by_cases hr : e.readable = true
        · right
          by_contra hne
          exact hw ⟨hr, hne⟩
        · left
          simpa using hr
      rw [(h3 he this).2]
      rcases this with h | h <;> simp [h]
  · rw [(h1 he).2]; simp

theorem event_loop_body_watcher (cfg : Config) (s : State) (e : Ready) :
    (event_loop_body cfg (s, false) e).1.ifd = watcher_after s.ifd e := by
  rw [event_loop_body_ifd]
  unfold watcher_after
  cases e.err_hup <;> by_cases h : e.fd = s.ifd <;> simp [h]

theorem loop_calls_eq_expected (cfg : Config) (es : List Ready) :
    ∀ s : State, loop_calls cfg s es = expected_calls cfg s.ifd es := by
  induction es with
  | nil => intro s; rfl
  | cons e es ih =>
    intro s
    rw [loop_calls, expected_calls, entry_calls_eq_expected, ih, event_loop_body_watcher]

theorem event_loop_scan_watcher (cfg : Config) (es : List Ready) :
    ∀ (s : State) (f : Bool),
      (event_loop_scan cfg (s, f) es).1.ifd = watcher_after_all s.ifd es := by
  induction es with
  | nil => intro s f; rfl
  | cons e es ih =>
    intro s f
    rw [event_loop_scan_cons, ih, event_loop_body_watcher]
    rfl

/-- The loop sets the flag exactly when some entry signals read-readiness, without error
or hang-up, on the descriptor that is the watcher's when the entry is examined. -/
theorem event_loop_scan_flag_iff (cfg : Config) (s : State) (es : List Ready) :
    (event_loop_scan cfg (s, false) es).2 = true ↔
      ∃ pre e post, es = pre ++ e :: post ∧
        e.watcher_ready (watcher_after_all s.ifd pre) = true := by
  rw [event_loop_scan_snd]
  simp only [Bool.false_eq_true, false_or]
  constructor
  · rintro ⟨pre, e, post, h1, h2⟩
    refine ⟨pre, e, post, h1, ?_⟩
    rw [← event_loop_scan_watcher cfg pre s false]
    exact h2
  · rintro ⟨pre, e, post, h1, h2⟩
    refine ⟨pre, e, post, h1, ?_⟩
    rw [← event_loop_scan_watcher cfg pre s false] at h2
    exact h2

/-- The calls of the loop over the entries are those expected for the entries, and the
hot-plug processing run on the state it leaves adds the hot-plug calls after them. -/
theorem event_loop_scan_calls (cfg : Config) (s : State) (es : List Ready)
    (ino : InotifyAnswers) :
    new_calls s (evdev_inotify_process cfg (event_loop_scan cfg (s, false) es).1 ino)
        = expected_calls cfg s.ifd es ++ hotplug_calls cfg (watcher_after_all s.ifd es) ino ∧
    new_calls s (event_loop_scan cfg (s, false) es).1 = expected_calls cfg s.ifd es := by
  have htr := event_loop_scan_trace cfg es s false
  rw [loop_calls_eq_expected] at htr
  constructor
  · obtain ⟨rest, hrest⟩ := evdev_inotify_process_trace cfg
      (event_loop_scan cfg (s, false) es).1 ino
    have hnc : Call.read (event_loop_scan cfg (s, false) es).1.ifd :: rest
        = hotplug_calls cfg (event_loop_scan cfg (s, false) es).1.ifd ino := by
      rw [← new_calls_evdev_inotify_process]
      exact (new_calls_of_trace _ _ _ hrest).symm
    apply new_calls_of_trace
    rw [hrest, htr, ← event_loop_scan_watcher cfg es s false, ← hnc, List.append_assoc]
  · exact new_calls_of_trace _ _ _ htr

/-- The calls of one `evdev_event_loop` whose wait succeeded: those expected for the
entries, followed by those of the hot-plug processing if the flag was set. -/
theorem evdev_event_loop_calls (cfg : Config) (s : State) (nfds errno : Int)
    (events : List Ready) (ino : InotifyAnswers) (hn : 0 ≤ nfds) :
    ((event_loop_scan cfg (s, false) (events.take nfds.toNat)).2 = true →
      new_calls s (evdev_event_loop cfg s nfds errno events ino).2
        = expected_calls cfg s.ifd (events.take nfds.toNat)
          ++ hotplug_calls cfg (watcher_after_all s.ifd (events.take nfds.toNat)) ino) ∧
    ((event_loop_scan cfg (s, false) (events.take nfds.toNat)).2 = false →
      new_calls s (evdev_event_loop cfg s nfds errno events ino).2
        = expected_calls cfg s.ifd (events.take nfds.toNat)) := by
  have hloop := evdev_event_loop_of_nonneg cfg s nfds errno events ino hn
  have htr := event_loop_scan_trace cfg (events.take nfds.toNat) s false
  rw [loop_calls_eq_expected] at htr
  constructor
  · intro hf
    have hR : (evdev_event_loop cfg s nfds errno events ino).2
        = evdev_inotify_process cfg
            (event_loop_scan cfg (s, false) (events.take nfds.toNat)).1 ino := by
      rw [hloop]; simp [hf]
    obtain ⟨rest, hrest⟩ := evdev_inotify_process_trace cfg
      (event_loop_scan cfg (s, false) (events.take nfds.toNat)).1 ino
    have hnc : Call.read (event_loop_scan cfg (s, false) (events.take nfds.toNat)).1.ifd
        :: rest
        = hotplug_calls cfg (event_loop_scan cfg (s, false) (events.take nfds.toNat)).1.ifd
            ino := by
      rw [← new_calls_evdev_inotify_process]
      exact (new_calls_of_trace _ _ _ hrest).symm
    apply new_calls_of_trace
    rw [hR, hrest, htr, ← event_loop_scan_watcher cfg (events.take nfds.toNat) s false,
      ← hnc, List.append_assoc]
  · intro hf
    have hR : (evdev_event_loop cfg s nfds errno events ino).2
        = (event_loop_scan cfg (s, false) (events.take nfds.toNat)).1 := by
      rw [hloop]; simp [hf]
    apply new_calls_of_trace
    rw [hR, htr]

theorem closes_entry_calls (cfg : Config) (s : State) (e : Ready) :
    closes (entry_calls cfg s e) = if e.err_hup then [e.fd] else [] := by
  obtain ⟨h1, h2, h3⟩ := entry_calls_cases cfg s e
  cases he : e.err_hup
  · by_cases hw : e.readable = true ∧ e.fd ≠ s.ifd
    · obtain ⟨_, hc⟩ := h2 he hw.1 hw.2
      obtain ⟨_, _, _, extra, ht, hk⟩ := evdev_process_events_frame cfg s e.fd e.ret e.ev
      rw [hc, new_calls_of_trace s _ _ ht]
      simp [closes, closes_of_not_kernel extra hk]
    · have : e.readable = false ∨ e.fd = s.ifd := by
        by_cases hr : e.readable = true
        · right
          by_contra hne
          exact hw ⟨hr, hne⟩
        · left
          simpa using hr
      rw [(h3 he this).2]; rfl
  · rw [(h1 he).2]; rfl

theorem closes_loop_calls (cfg : Config) (es : List Ready) :
    ∀ s : State, closes (loop_calls cfg s es)
      = (es.filter (fun e => e.err_hup)).map (fun e => e.fd) := by
  induction es with
  | nil => intro s; rfl
  | cons e es ih =>
    intro s
    rw [loop_calls, closes_append, closes_entry_calls, ih]
    cases he : e.err_hup <;> simp [List.filter_cons, he]

theorem expected_calls_append (cfg : Config) (l1 l2 : List Ready) :
    ∀ w : Int, expected_calls cfg w (l1 ++ l2)
      = expected_calls cfg w l1 ++ expected_calls cfg (watcher_after_all w l1) l2 := by
  induction l1 with
  | nil => intro w; rfl
  | cons e l1 ih =>
    intro w
    rw [List.cons_append, expected_calls, expected_calls, ih, List.append_assoc]
    rfl

theorem closes_expected_calls (cfg : Config) (s : State) (es : List Ready) :
    closes (expected_calls cfg s.ifd es)
      = (es.filter (fun e => e.err_hup)).map (fun e => e.fd) := by
  rw [← loop_calls_eq_expected]
  exact closes_loop_calls cfg es s

theorem event_loop_scan_snoc (cfg : Config) (s : State) (pre : List Ready) (e : Ready) :
    (event_loop_scan cfg (s, false) (pre ++ [e])).1
      = (event_loop_body cfg ((event_loop_scan cfg (s, false) pre).1, false) e).1 := by
  rw [event_loop_scan_append]
  simp only [event_loop_scan, List.foldl_cons, List.foldl_nil]
  exact event_loop_body_fst cfg _ _ _ e

/-- C13 (as stated) fails: with descriptor 5 in two slots (after `evdev_add(5)` twice), a
hang-up on 5 reported to `evdev_event_loop` closes and deregisters 5, but only the first
slot is cleared: the descriptor is still in the slot table afterwards. -/
theorem event_loop_hangup_leaves_duplicate_slot :
    (evdev_event_loop macbookpro
      (reg_run { init_state 4 with ifd := 4 } [RegCall.add 5 0, RegCall.add 5 (-1)]) 1 0
      [⟨0x10, 5, 0, 0, ⟨0, 0, 0⟩⟩] ⟨0, 0, "", -1, ⟨0, 0, 0, 0⟩, [], -1⟩).2.ev_fds
      = [-1, 5, -1, -1] ∧
    (5 : Int) ∈ (evdev_event_loop macbookpro
      (reg_run { init_state 4 with ifd := 4 } [RegCall.add 5 0, RegCall.add 5 (-1)]) 1 0
      [⟨0x10, 5, 0, 0, ⟨0, 0, 0⟩⟩] ⟨0, 0, "", -1, ⟨0, 0, 0, 0⟩, [], -1⟩).2.ev_fds ∧
    (5 : Int) ∉ (evdev_event_loop macbookpro
      (reg_run { init_state 4 with ifd := 4 } [RegCall.add 5 0, RegCall.add 5 (-1)]) 1 0
      [⟨0x10, 5, 0, 0, ⟨0, 0, 0⟩⟩] ⟨0, 0, "", -1, ⟨0, 0, 0, 0⟩, [], -1⟩).2.epoll ∧
    new_calls (reg_run { init_state 4 with ifd := 4 } [RegCall.add 5 0, RegCall.add 5 (-1)])
      (evdev_event_loop macbookpro
        (reg_run { init_state 4 with ifd := 4 } [RegCall.add 5 0, RegCall.add 5 (-1)]) 1 0
        [⟨0x10, 5, 0, 0, ⟨0, 0, 0⟩⟩] ⟨0, 0, "", -1, ⟨0, 0, 0, 0⟩, [], -1⟩).2
      = [Call.epoll_ctl_del 5, Call.close 5] := by
  decide

/-- C13 (amended): in an `evdev_event_loop` call whose wait succeeded, let `e` be a ready
entry, `pre` the entries before it, `post` those after it and `sp` the state in which `e`
is examined. The calls of the cycle are those expected for `pre`, then those for `e`, then
those for `post`, then those of the hot-plug processing if any. If the mask of `e`
contains the error or hang-up condition, its descriptor is handed to `evdev_remove` (after
marking the watcher lost if it is `ifd`): the calls for `e` are `epoll_ctl(DEL)` and
`close` and nothing else, so `evdev_process_events` is not invoked for it even if
read-readiness is also signalled; the first slot holding the descriptor is cleared, so no
slot holds it afterwards when it occupied at most one slot; and it is no longer in the
epoll set. If the mask of `e` contains neither condition, examining it leaves the slot
table and the epoll set unchanged and closes and deregisters nothing. The descriptors
closed while the entries are examined are exactly those of the entries with error or
hang-up, in order. -/
theorem event_loop_err_hup (cfg : Config) (s sp : State) (nfds errno : Int)
    (events pre post : List Ready) (e : Ready) (ino : InotifyAnswers) (hn : 0 ≤ nfds)
    (hsplit : events.take nfds.toNat = pre ++ e :: post)
    (hsp : sp = (event_loop_scan cfg (s, false) pre).1) :
    new_calls s (evdev_event_loop cfg s nfds errno events ino).2
      = expected_calls cfg s.ifd pre ++ expected_entry_calls cfg sp.ifd e
        ++ expected_calls cfg (watcher_after sp.ifd e) post
        ++ (if (event_loop_scan cfg (s, false) (events.take nfds.toNat)).2 = true then
              hotplug_calls cfg (watcher_after_all s.ifd (events.take nfds.toNat)) ino
            else []) ∧
    (e.err_hup = true →
      expected_entry_calls cfg sp.ifd e = [Call.epoll_ctl_del e.fd, Call.close e.fd] ∧
      (event_loop_scan cfg (s, false) (pre ++ [e])).1
        = evdev_remove (if e.fd = sp.ifd then { sp with ifd := -1 } else sp) e.fd e.ctl ∧
      (event_loop_scan cfg (s, false) (pre ++ [e])).1.ev_fds
        = first_slot_set e.fd (-1) sp.ev_fds ∧
      (e.fd ≠ -1 → sp.ev_fds.count e.fd ≤ 1 →
        e.fd ∉ (event_loop_scan cfg (s, false) (pre ++ [e])).1.ev_fds) ∧
      e.fd ∉ (event_loop_scan cfg (s, false) (pre ++ [e])).1.epoll) ∧
    (e.err_hup = false →
      (event_loop_scan cfg (s, false) (pre ++ [e])).1.ev_fds = sp.ev_fds ∧
      (event_loop_scan cfg (s, false) (pre ++ [e])).1.epoll = sp.epoll ∧
      closes (expected_entry_calls cfg sp.ifd e) = [] ∧
      (∀ fd, Call.epoll_ctl_del fd ∉ expected_entry_calls cfg sp.ifd e)) ∧
    closes (expected_calls cfg s.ifd (events.take nfds.toNat))
      = ((events.take nfds.toNat).filter (fun e => e.err_hup)).map (fun e => e.fd) := by
  have hbody : ∀ (st : State) (f : Bool) (x : Ready),
      event_loop_body cfg (st, f) x
        = if x.err_hup = true then
            (evdev_remove (if x.fd = st.ifd then { st with ifd := -1 } else st) x.fd x.ctl, f)
          else if x.readable = true then
            (if x.fd = st.ifd then (st, true)
             else (evdev_process_events cfg st x.fd x.ret x.ev, f))
          else (st, f) :=
    fun _ _ _ => rfl
  have hloop : evdev_event_loop cfg s nfds errno events ino
      = (nfds,
          if (event_loop_scan cfg (s, false) (events.take nfds.toNat)).2 = true then
            evdev_inotify_process cfg
              (event_loop_scan cfg (s, false) (events.take nfds.toNat)).1 ino
          else (event_loop_scan cfg (s, false) (events.take nfds.toNat)).1) := by
    have hn2 : ¬ nfds < 0 := by omega
    unfold evdev_event_loop
    rw [if_neg hn2]
    dsimp only
    split <;> rfl
  have hw : sp.ifd = watcher_after_all s.ifd pre := by
    rw [hsp]; exact event_loop_scan_watcher cfg pre s false
  have hsnoc := event_loop_scan_snoc cfg s pre e
  rw [← hsp] at hsnoc
  obtain ⟨h1, h2, h3⟩ := entry_calls_cases cfg sp e
  have hexp := entry_calls_eq_expected cfg sp e
  refine ⟨?_, ?_, ?_, closes_expected_calls cfg s _⟩
  · obtain ⟨ht, hf⟩ := event_loop_scan_calls cfg s (events.take nfds.toNat) ino
    rw [hloop]
    have hdec : expected_calls cfg s.ifd (events.take nfds.toNat)
        = expected_calls cfg s.ifd pre ++ expected_entry_calls cfg sp.ifd e
          ++ expected_calls cfg (watcher_after sp.ifd e) post := by
      rw [hsplit, expected_calls_append, expected_calls, hw, List.append_assoc]
    by_cases hflag : (event_loop_scan cfg (s, false) (events.take nfds.toNat)).2 = true
    · simp only [if_pos hflag]
      rw [ht, hdec]
    · simp only [if_neg hflag]
      rw [hf, hdec, List.append_nil]
  · intro he
    have htab : (evdev_remove (if e.fd = sp.ifd then { sp with ifd := -1 } else sp)
        e.fd e.ctl).ev_fds = first_slot_set e.fd (-1) sp.ev_fds := by
      rw [evdev_remove_ev_fds]
      split <;> rfl
    refine ⟨by rw [← hexp]; exact (h1 he).2, by rw [hsnoc, hbody, if_pos he], ?_, ?_, ?_⟩
    · rw [hsnoc, (h1 he).1]; exact htab
    · intro hne hcount
      rw [hsnoc, (h1 he).1, htab]
      exact not_mem_first_slot_set_of_count_le_one e.fd (-1) sp.ev_fds hne hcount
    · rw [hsnoc, (h1 he).1]; exact evdev_remove_not_mem_epoll _ _ _
  · intro he
    have hc := closes_entry_calls cfg sp e
    rw [he, hexp] at hc
    rw [hsnoc]
    by_cases hwr : e.readable = true ∧ e.fd ≠ sp.ifd
    · obtain ⟨hb, hcalls⟩ := h2 he hwr.1 hwr.2
      obtain ⟨t1, t2, _, extra, ht, hk⟩ := evdev_process_events_frame cfg sp e.fd e.ret e.ev
      refine ⟨by rw [hb, t1], by rw [hb, t2], hc, ?_⟩
      intro fd hmem
      rw [← hexp, hcalls, new_calls_of_trace sp _ _ ht] at hmem
      rcases List.mem_cons.mp hmem with h | h
      · cases h
      · have := hk _ h
        simp [Call.isKernel] at this
    · have : e.readable = false ∨ e.fd = sp.ifd := by
        by_cases hr : e.readable = true
        · right
          by_contra hne
          exact hwr ⟨hr, hne⟩
        · left
          simpa using hr
      obtain ⟨hb, hcalls⟩ := h3 he this
      refine ⟨by rw [hb], by rw [hb], hc, ?_⟩
      intro fd hmem
      rw [← hexp, hcalls] at hmem
      simp at hmem

/-- Witness for C13: the keyboard on descriptor 7, held in one slot and registered,
reports `EPOLLIN | EPOLLHUP` (0x11) with a volume-up press waiting: the cycle deregisters
and closes it, does not read it, and no slot holds it afterwards. -/
theorem event_loop_err_hup_witness :
    new_calls (reg_run { init_state 32 with ifd := 4 } [RegCall.add 7 0])
      (evdev_event_loop macbookpro (reg_run { init_state 32 with ifd := 4 } [RegCall.add 7 0])
        1 0 [⟨0x11, 7, 0, 24, ⟨EV_KEY, 0x73, 1⟩⟩]
        ⟨0, 0, "", -1, ⟨0, 0, 0, 0⟩, [], -1⟩).2
      = [Call.epoll_ctl_del 7, Call.close 7] ∧
    (7 : Int) ∉ (event_loop_scan macbookpro
      (reg_run { init_state 32 with ifd := 4 } [RegCall.add 7 0], false)
      [⟨0x11, 7, 0, 24, ⟨EV_KEY, 0x73, 1⟩⟩]).1.ev_fds ∧
    (evdev_event_loop macbookpro (reg_run { init_state 32 with ifd := 4 } [RegCall.add 7 0])
        1 0 [⟨0x11, 7, 0, 24, ⟨EV_KEY, 0x73, 1⟩⟩]
        ⟨0, 0, "", -1, ⟨0, 0, 0, 0⟩, [], -1⟩).2.epoll = [] :=
  ⟨(event_loop_err_hup macbookpro
      (reg_run { init_state 32 with ifd := 4 } [RegCall.add 7 0])
      (reg_run { init_state 32 with ifd := 4 } [RegCall.add 7 0]) 1 0
      [⟨0x11, 7, 0, 24, ⟨EV_KEY, 0x73, 1⟩⟩] [] [] ⟨0x11, 7, 0, 24, ⟨EV_KEY, 0x73, 1⟩⟩
      ⟨0, 0, "", -1, ⟨0, 0, 0, 0⟩, [], -1⟩ (by decide) (by decide) rfl).1.trans (by decide),
   ((event_loop_err_hup macbookpro
      (reg_run { init_state 32 with ifd := 4 } [RegCall.add 7 0])
      (reg_run { init_state 32 with ifd := 4 } [RegCall.add 7 0]) 1 0
      [⟨0x11, 7, 0, 24, ⟨EV_KEY, 0x73, 1⟩⟩] [] [] ⟨0x11, 7, 0, 24, ⟨EV_KEY, 0x73, 1⟩⟩
      ⟨0, 0, "", -1, ⟨0, 0, 0, 0⟩, [], -1⟩ (by decide) (by decide) rfl).2.1
      (by decide)).2.2.2.1 (by decide) (by decide),
   by decide⟩

theorem no_hotplug_of_not_kernel (c : Call) (h : Call.isKernel c = false) :
    Call.no_hotplug c = true := by
  cases c <;> simp_all [Call.isKernel, Call.no_hotplug]

theorem watcher_after_lost (e : Ready) : watcher_after (-1) e = -1 := by
  unfold watcher_after
  split <;> rfl

theorem expected_calls_lost (cfg : Config) (es : List Ready) (hv : ∀ e ∈ es, 0 ≤ e.fd) :
    ∀ x ∈ expected_calls cfg (-1) es, Call.no_hotplug x = true := by
  induction es with
  | nil => intro x hx; simp [expected_calls] at hx
  | cons e es ih =>
    intro x hx
    rw [expected_calls, watcher_after_lost, List.mem_append] at hx
    rcases hx with hx | hx
    · unfold expected_entry_calls at hx
      split at hx
      · simp only [List.mem_cons, List.mem_singleton, List.not_mem_nil, or_false] at hx
        rcases hx with h | h <;> rw [h] <;> rfl
      · split at hx
        · obtain ⟨extra, hd, hk⟩ := dispatcher_calls_shape cfg e.fd e.ret e.ev
          rw [hd] at hx
          rcases List.mem_cons.mp hx with h | h
          · rw [h]
            have := hv e (by simp)
            have hne : e.fd ≠ -1 := by omega
            simp [Call.no_hotplug, hne]
          · exact no_hotplug_of_not_kernel x (hk x h)
        · simp at hx
    · exact ih (fun e2 he2 => hv e2 (by simp [he2])) x hx

/-- With the watcher lost, a cycle over valid descriptors does not run the hot-plug
processing: its result is the state the loop leaves, whatever the hot-plug answers would
be, and its calls are those expected for the entries. -/
theorem run_cycle_of_lost (cfg : Config) (s : State) (c : Cycle) (h : s.ifd = -1)
    (hv : c.valid = true) :
    (run_cycle cfg s c).ifd = -1 ∧
    (∃ x, (run_cycle cfg s c).trace = s.trace ++ x ∧ ∀ y ∈ x, Call.no_hotplug y = true) ∧
    (0 ≤ c.nfds →
      (∀ ino2, evdev_event_loop cfg s c.nfds c.errno c.events ino2
        = (c.nfds, (event_loop_scan cfg (s, false) (c.events.take c.nfds.toNat)).1)) ∧
      new_calls s (evdev_event_loop cfg s c.nfds c.errno c.events c.ino).2
        = expected_calls cfg (-1) (c.events.take c.nfds.toNat)) := by
  have hvc : ∀ e ∈ c.events.take c.nfds.toNat, 0 ≤ e.fd := by
    intro e he
    simp only [Cycle.valid, List.all_eq_true, decide_eq_true_eq] at hv
    exact hv e (List.mem_of_mem_take he)
  have hflag := event_loop_scan_flag_of_lost cfg (c.events.take c.nfds.toNat) s h hvc
  have hcalls : 0 ≤ c.nfds →
      new_calls s (evdev_event_loop cfg s c.nfds c.errno c.events c.ino).2
        = expected_calls cfg (-1) (c.events.take c.nfds.toNat) := by
    intro hn
    rw [(evdev_event_loop_calls cfg s c.nfds c.errno c.events c.ino hn).2 hflag, h]
  refine ⟨run_cycle_ifd_lost_stays cfg s c h, ?_, ?_⟩
  · by_cases hn : c.nfds < 0
    · refine ⟨[], ?_, by simp⟩
      unfold run_cycle evdev_event_loop
      rw [if_pos hn]
      split <;> simp
    · have hn2 : 0 ≤ c.nfds := by omega
      refine ⟨expected_calls cfg (-1) (c.events.take c.nfds.toNat), ?_,
        expected_calls_lost cfg _ hvc⟩
      have hloop := evdev_event_loop_of_nonneg cfg s c.nfds c.errno c.events c.ino hn2
      have htr := event_loop_scan_trace cfg (c.events.take c.nfds.toNat) s false
      rw [loop_calls_eq_expected, h] at htr
      unfold run_cycle
      rw [hloop]
      simp only [hflag, Bool.false_eq_true, if_false]
      exact htr
  · intro hn
    refine ⟨?_, hcalls hn⟩
    intro ino2
    rw [evdev_event_loop_of_nonneg cfg s c.nfds c.errno c.events ino2 hn]
    simp [hflag]

theorem run_cycles_of_lost (cfg : Config) (cs : List Cycle) :
    ∀ s : State, s.ifd = -1 → (∀ c ∈ cs, c.valid = true) →
      (run_cycles cfg s cs).ifd = -1 ∧
      ∃ x, (run_cycles cfg s cs).trace = s.trace ++ x ∧ ∀ y ∈ x, Call.no_hotplug y = true := by
  induction cs with
  | nil => intro s h _; exact ⟨h, [], by simp [run_cycles], by simp⟩
  | cons c cs ih =>
    intro s h hv
    obtain ⟨h1, ⟨x, hx, hxn⟩, _⟩ := run_cycle_of_lost cfg s c h (hv c (by simp))
    obtain ⟨h2, y, hy, hyn⟩ := ih (run_cycle cfg s c) h1 (fun c2 hc2 => hv c2 (by simp [hc2]))
    refine ⟨h2, x ++ y, ?_, ?_⟩
    · show (run_cycles cfg (run_cycle cfg s c) cs).trace = s.trace ++ (x ++ y)
      rw [hy, hx, List.append_assoc]
    · intro z hz
      rcases List.mem_append.mp hz with hz | hz
      · exact hxn z hz
      · exact hyn z hz

/-- C14: if a poll cycle reports error or hang-up on the hot-plug watcher's descriptor
(`ifd`), the watcher is marked lost in that cycle (`ifd` is -1 when `evdev_event_loop`
returns), and in every subsequent cycle, for every list of ready entries carrying valid
(non-negative) descriptors, `evdev_inotify_process` is not invoked: `ifd` stays -1, the
calls of all those cycles contain no `read` of the watcher, no `open` and no
`epoll_ctl(ADD)`, and each such `evdev_event_loop` returns the state its loop over the
entries leaves, whatever the hot-plug answers would be, its calls being exactly those
expected for the entries. The loop marks the watcher lost when it examines the entry. -/
theorem watcher_loss_is_permanent (cfg : Config) (s : State) (c : Cycle) (e : Ready)
    (hn : 0 ≤ c.nfds) (he : e ∈ c.events.take c.nfds.toNat) (herr : e.err_hup = true)
    (hfd : e.fd = s.ifd) :
    (evdev_event_loop cfg s c.nfds c.errno c.events c.ino).2.ifd = -1 ∧
    (∀ (st : State) (f : Bool), e.fd = st.ifd →
      (event_loop_body cfg (st, f) e).1.ifd = -1) ∧
    ∀ cs : List Cycle, (∀ c2 ∈ cs, c2.valid = true) →
      (run_cycles cfg (run_cycle cfg s c) cs).ifd = -1 ∧
      (∀ x ∈ new_calls (run_cycle cfg s c) (run_cycles cfg (run_cycle cfg s c) cs),
        Call.no_hotplug x = true) ∧
      (∀ pre c2 post, cs = pre ++ c2 :: post → 0 ≤ c2.nfds →
        (∀ ino2, evdev_event_loop cfg (run_cycles cfg (run_cycle cfg s c) pre)
            c2.nfds c2.errno c2.events ino2
          = (c2.nfds, (event_loop_scan cfg (run_cycles cfg (run_cycle cfg s c) pre, false)
              (c2.events.take c2.nfds.toNat)).1)) ∧
        new_calls (run_cycles cfg (run_cycle cfg s c) pre)
            (evdev_event_loop cfg (run_cycles cfg (run_cycle cfg s c) pre)
              c2.nfds c2.errno c2.events c2.ino).2
          = expected_calls cfg (-1) (c2.events.take c2.nfds.toNat)) := by
  have hbody : ∀ (st : State) (f : Bool) (x : Ready),
      event_loop_body cfg (st, f) x
        = if x.err_hup = true then
            (evdev_remove (if x.fd = st.ifd then { st with ifd := -1 } else st) x.fd x.ctl, f)
          else if x.readable = true then
            (if x.fd = st.ifd then (st, true)
             else (evdev_process_events cfg st x.fd x.ret x.ev, f))
          else (st, f) :=
    fun _ _ _ => rfl
  have hloop : ∀ (st : State) (c2 : Cycle) (ino2 : InotifyAnswers), 0 ≤ c2.nfds →
      evdev_event_loop cfg st c2.nfds c2.errno c2.events ino2
        = (c2.nfds,
            if (event_loop_scan cfg (st, false) (c2.events.take c2.nfds.toNat)).2 = true then
              evdev_inotify_process cfg
                (event_loop_scan cfg (st, false) (c2.events.take c2.nfds.toNat)).1 ino2
            else (event_loop_scan cfg (st, false) (c2.events.take c2.nfds.toNat)).1) := by
    intro st c2 ino2 h0
    have hn2 : ¬ c2.nfds < 0 := by omega
    unfold evdev_event_loop
    rw [if_neg hn2]
    dsimp only
    split <;> rfl
  have hscan := event_loop_scan_ifd_lost cfg (c.events.take c.nfds.toNat) s false
    ⟨e, he, herr, hfd⟩
  have hl : (run_cycle cfg s c).ifd = -1 := by
    unfold run_cycle
    rw [hloop s c c.ino hn]
    dsimp only
    split
    · rw [evdev_inotify_process_ifd]; exact hscan
    · exact hscan
  refine ⟨hl, ?_, ?_⟩
  · intro st f hst
    rw [hbody, if_pos herr, if_pos hst]
    rfl
  intro cs hv
  obtain ⟨h1, x, hx, hxn⟩ := run_cycles_of_lost cfg cs _ hl hv
  refine ⟨h1, ?_, ?_⟩
  · rw [new_calls_of_trace _ _ x hx]
    exact hxn
  · intro pre c2 post hsplit hn2
    have hvpre : ∀ c3 ∈ pre, c3.valid = true :=
      fun c3 h3 => hv c3 (by rw [hsplit]; simp [h3])
    have hpre := (run_cycles_of_lost cfg pre _ hl hvpre).1
    have hvc : ∀ x ∈ c2.events.take c2.nfds.toNat, 0 ≤ x.fd := by
      intro x hx
      have := hv c2 (by rw [hsplit]; simp)
      simp only [Cycle.valid, List.all_eq_true, decide_eq_true_eq] at this
      exact this x (List.mem_of_mem_take hx)
    have hflag := event_loop_scan_flag_of_lost cfg (c2.events.take c2.nfds.toNat) _ hpre hvc
    refine ⟨?_, (run_cycle_of_lost cfg _ c2 hpre (hv c2 (by rw [hsplit]; simp))).2.2 hn2 |>.2⟩
    intro ino2
    rw [hloop _ c2 ino2 hn2, hflag]
    rfl

/-- Witness for C14: the watcher (descriptor 4) reports `EPOLLHUP`; in the next cycle the
keyboard (descriptor 7) reports a volume-up press and is dispatched, and nothing else is
called although a record for "event9" would be waiting. -/
theorem watcher_loss_is_permanent_witness :
    (evdev_event_loop macbookpro { init_state 32 with ifd := 4 } 1 0
      [⟨0x10, 4, 0, 0, ⟨0, 0, 0⟩⟩] ⟨0, 0, "", -1, ⟨0, 0, 0, 0⟩, [], -1⟩).2.ifd = -1 ∧
    new_calls
      (run_cycles macbookpro (run_cycle macbookpro { init_state 32 with ifd := 4 }
        ⟨1, 0, [⟨0x10, 4, 0, 0, ⟨0, 0, 0⟩⟩], ⟨0, 0, "", -1, ⟨0, 0, 0, 0⟩, [], -1⟩⟩) [])
      (evdev_event_loop macbookpro
        (run_cycles macbookpro (run_cycle macbookpro { init_state 32 with ifd := 4 }
          ⟨1, 0, [⟨0x10, 4, 0, 0, ⟨0, 0, 0⟩⟩], ⟨0, 0, "", -1, ⟨0, 0, 0, 0⟩, [], -1⟩⟩) [])
        1 0 [⟨0x01, 7, 0, 24, ⟨EV_KEY, 0x73, 1⟩⟩]
        ⟨32, 16, "event9", 9, ⟨0x03, 0x05ac, 0x021a, 0⟩, [0x03], 0⟩).2
      = [Call.read 7, Call.kbd_backlight_inhibit_clear InhibitReason.KBD_INHIBIT_IDLE,
         Call.audio_step Step.STEP_UP] ∧
    (evdev_event_loop macbookpro
        (run_cycle macbookpro { init_state 32 with ifd := 4 }
          ⟨1, 0, [⟨0x10, 4, 0, 0, ⟨0, 0, 0⟩⟩], ⟨0, 0, "", -1, ⟨0, 0, 0, 0⟩, [], -1⟩⟩)
        1 0 [⟨0x01, 7, 0, 24, ⟨EV_KEY, 0x73, 1⟩⟩]
        ⟨32, 16, "event9", 9, ⟨0x03, 0x05ac, 0x021a, 0⟩, [0x03], 0⟩).2.ev_fds
      = (init_state 32).ev_fds :=
  ⟨(watcher_loss_is_permanent macbookpro { init_state 32 with ifd := 4 }
      ⟨1, 0, [⟨0x10, 4, 0, 0, ⟨0, 0, 0⟩⟩], ⟨0, 0, "", -1, ⟨0, 0, 0, 0⟩, [], -1⟩⟩
      ⟨0x10, 4, 0, 0, ⟨0, 0, 0⟩⟩ (by decide) (by decide) (by decide) rfl).1,
   (((watcher_loss_is_permanent macbookpro { init_state 32 with ifd := 4 }
      ⟨1, 0, [⟨0x10, 4, 0, 0, ⟨0, 0, 0⟩⟩], ⟨0, 0, "", -1, ⟨0, 0, 0, 0⟩, [], -1⟩⟩
      ⟨0x10, 4, 0, 0, ⟨0, 0, 0⟩⟩ (by decide) (by decide) (by decide) rfl).2.2
      [⟨1, 0, [⟨0x01, 7, 0, 24, ⟨EV_KEY, 0x73, 1⟩⟩],
        ⟨32, 16, "event9", 9, ⟨0x03, 0x05ac, 0x021a, 0⟩, [0x03], 0⟩⟩]
      (by decide)).2.2 []
      ⟨1, 0, [⟨0x01, 7, 0, 24, ⟨EV_KEY, 0x73, 1⟩⟩],
        ⟨32, 16, "event9", 9, ⟨0x03, 0x05ac, 0x021a, 0⟩, [0x03], 0⟩⟩ [] rfl
      (by decide)).2.trans (by decide),
   by decide⟩

/-- C17 (as stated) fails: the watcher is descriptor 4; the wait reports a hang-up on 4 and
then read-readiness, without error or hang-up, on 4 again. An entry for the watcher's
descriptor signalled read-readiness without error or hang-up, yet `evdev_inotify_process`
is not invoked: the first entry marks the watcher lost, so the second is dispatched as a
device event and the waiting record for "event9" is neither read nor opened. -/
theorem evdev_event_loop_lost_watcher_entry_dispatched :
    Ready.watcher_ready ⟨0x01, 4, 0, 24, ⟨EV_KEY, 0x73, 1⟩⟩
      ({ init_state 32 with ifd := 4 } : State).ifd = true ∧
    new_calls { init_state 32 with ifd := 4 }
      (evdev_event_loop macbookpro { init_state 32 with ifd := 4 } 2 0
        [⟨0x10, 4, 0, 0, ⟨0, 0, 0⟩⟩, ⟨0x01, 4, 0, 24, ⟨EV_KEY, 0x73, 1⟩⟩]
        ⟨32, 16, "event9", 9, ⟨0x03, 0x05ac, 0x021a, 0⟩, [0x03], 0⟩).2
      = [Call.epoll_ctl_del 4, Call.close 4, Call.read 4,
         Call.kbd_backlight_inhibit_clear InhibitReason.KBD_INHIBIT_IDLE,
         Call.audio_step Step.STEP_UP] ∧
    (evdev_event_loop macbookpro { init_state 32 with ifd := 4 } 2 0
        [⟨0x10, 4, 0, 0, ⟨0, 0, 0⟩⟩, ⟨0x01, 4, 0, 24, ⟨EV_KEY, 0x73, 1⟩⟩]
        ⟨32, 16, "event9", 9, ⟨0x03, 0x05ac, 0x021a, 0⟩, [0x03], 0⟩).2.ev_fds
      = (init_state 32).ev_fds := by
  decide

/-- C17 (amended): in one `evdev_event_loop` call whose wait succeeded, with `es` the ready
entries: `evdev_inotify_process` is invoked at most once and only after every
`evdev_process_events` and `evdev_remove` call of the cycle, and it is invoked if and only
if some entry signalled read-readiness, without error or hang-up, on the descriptor that is
the watcher's (`ifd`) when that entry is examined. If so, the result is
`evdev_inotify_process` applied to the state the loop leaves, and the calls of the cycle
are those expected for the entries, entry by entry in the order reported, followed by
those of the one hot-plug processing, which start with the `read` of the watcher; if not,
the result is the state the loop leaves and the calls are those expected for the entries.
An entry with read-readiness on the watcher causes no call when it is examined. When the
entries carry pairwise distinct valid descriptors (as `epoll_wait` reports them) the
watcher's descriptor when an entry is examined is `ifd` as at the start of the call. -/
theorem evdev_event_loop_deferred_hotplug (cfg : Config) (s : State) (nfds errno : Int)
    (events es : List Ready) (ino : InotifyAnswers) (hn : 0 ≤ nfds)
    (hes : es = events.take nfds.toNat) :
    (evdev_event_loop cfg s nfds errno events ino).1 = nfds ∧
    ((∃ pre e post, es = pre ++ e :: post ∧
        e.watcher_ready (watcher_after_all s.ifd pre) = true) →
      (evdev_event_loop cfg s nfds errno events ino).2
        = evdev_inotify_process cfg (event_loop_scan cfg (s, false) es).1 ino ∧
      new_calls s (evdev_event_loop cfg s nfds errno events ino).2
        = expected_calls cfg s.ifd es ++ hotplug_calls cfg (watcher_after_all s.ifd es) ino) ∧
    ((¬ ∃ pre e post, es = pre ++ e :: post ∧
        e.watcher_ready (watcher_after_all s.ifd pre) = true) →
      (evdev_event_loop cfg s nfds errno events ino).2 = (event_loop_scan cfg (s, false) es).1 ∧
      new_calls s (evdev_event_loop cfg s nfds errno events ino).2
        = expected_calls cfg s.ifd es) ∧
    (∃ rest, hotplug_calls cfg (watcher_after_all s.ifd es) ino
      = Call.read (watcher_after_all s.ifd es) :: rest) ∧
    (∀ pre e post, es = pre ++ e :: post →
      expected_calls cfg s.ifd es
        = expected_calls cfg s.ifd pre
          ++ expected_entry_calls cfg (watcher_after_all s.ifd pre) e
          ++ expected_calls cfg (watcher_after_all s.ifd (pre ++ [e])) post) ∧
    (∀ (w : Int) (e : Ready), e.watcher_ready w = true → expected_entry_calls cfg w e = []) ∧
    (∀ (st : State) (f : Bool) (e : Ready), e.watcher_ready st.ifd = true →
      event_loop_body cfg (st, f) e = (st, true)) ∧
    ((es.map (fun e => e.fd)).Nodup → (∀ e ∈ es, 0 ≤ e.fd) →
      ((∃ pre e post, es = pre ++ e :: post ∧
          e.watcher_ready (watcher_after_all s.ifd pre) = true)
        ↔ ∃ e ∈ es, e.watcher_ready s.ifd = true)) := by
  have hbody : ∀ (st : State) (f : Bool) (x : Ready),
      event_loop_body cfg (st, f) x
        = if x.err_hup = true then
            (evdev_remove (if x.fd = st.ifd then { st with ifd := -1 } else st) x.fd x.ctl, f)
          else if x.readable = true then
            (if x.fd = st.ifd then (st, true)
             else (evdev_process_events cfg st x.fd x.ret x.ev, f))
          else (st, f) :=
    fun _ _ _ => rfl
  have hloop : evdev_event_loop cfg s nfds errno events ino
      = (nfds,
          if (event_loop_scan cfg (s, false) (events.take nfds.toNat)).2 = true then
            evdev_inotify_process cfg
              (event_loop_scan cfg (s, false) (events.take nfds.toNat)).1 ino
          else (event_loop_scan cfg (s, false) (events.take nfds.toNat)).1) := by
    have hn2 : ¬ nfds < 0 := by omega
    unfold evdev_event_loop
    rw [if_neg hn2]
    dsimp only
    split <;> rfl
  obtain ⟨hct, hcf⟩ := evdev_event_loop_calls cfg s nfds errno events ino hn
  rw [← hes] at hloop hct hcf
  have hflag := event_loop_scan_flag_iff cfg s es
  refine ⟨by rw [hloop], ?_, ?_, hotplug_calls_shape cfg _ ino, ?_, ?_, ?_, ?_⟩
  · intro hex
    have hf := hflag.mpr hex
    exact ⟨by rw [hloop]; simp [hf], hct hf⟩
  · intro hex
    have hf : (event_loop_scan cfg (s, false) es).2 = false := by
      cases h : (event_loop_scan cfg (s, false) es).2
      · rfl
      · exact absurd (hflag.mp h) hex
    exact ⟨by rw [hloop]; simp [hf], hcf hf⟩
  · intro pre e post hsplit
    rw [hsplit, expected_calls_append, expected_calls, List.append_assoc]
    congr 2
    simp [watcher_after_all, List.foldl_append]
  · intro w e hw
    simp only [Ready.watcher_ready, Bool.and_eq_true, decide_eq_true_eq,
      Bool.not_eq_true', Bool.not_eq_eq_eq_not, Bool.not_true] at hw
    simp [expected_entry_calls, hw.1.1, hw.2]
  · intro st f e hw
    simp only [Ready.watcher_ready, Bool.and_eq_true, decide_eq_true_eq,
      Bool.not_eq_true', Bool.not_eq_eq_eq_not, Bool.not_true] at hw
    rw [hbody]
    simp [hw.1.1, hw.1.2, hw.2]
  · intro hnd hvalid
    constructor
    · rintro ⟨pre, e, post, hsplit, hw⟩
      refine ⟨e, by rw [hsplit]; simp, ?_⟩
      by_cases hlost : ∃ x ∈ pre, x.err_hup = true ∧ x.fd = s.ifd
      · exfalso
        have hl := event_loop_scan_ifd_lost cfg pre s false hlost
        rw [event_loop_scan_watcher] at hl
        simp only [Ready.watcher_ready, Bool.and_eq_true, decide_eq_true_eq] at hw
        have h1 : e.fd = -1 := by rw [hw.2, hl]
        have h2 := hvalid e (by rw [hsplit]; simp)
        omega
      · have hk := event_loop_scan_ifd_kept cfg pre s false
          (fun x hx hc => hlost ⟨x, hx, hc⟩)
        rw [event_loop_scan_watcher] at hk
        rw [← hk]
        exact hw
    · rintro ⟨e, hmem, hw⟩
      obtain ⟨pre, post, hsplit⟩ := List.append_of_mem hmem
      refine ⟨pre, e, post, hsplit, ?_⟩
      have hw2 := hw
      simp only [Ready.watcher_ready, Bool.and_eq_true, decide_eq_true_eq,
        Bool.not_eq_true', Bool.not_eq_eq_eq_not, Bool.not_true] at hw2
      have hk := event_loop_scan_ifd_kept cfg pre s false (by
        intro x hx hc
        have hxe : x = e :=
          List.inj_on_of_nodup_map hnd (by rw [hsplit]; simp [hx]) hmem
            (by rw [hc.2, hw2.2])
        rw [hxe, hw2.1.1] at hc
        exact Bool.false_ne_true hc.1)
      rw [event_loop_scan_watcher] at hk
      rw [hk]
      exact hw

/-- Witness for C17: the wait reports, in this order, a volume-up press on the keyboard
(descriptor 7), read-readiness of the watcher (descriptor 4) and a hang-up on descriptor 8;
the watcher announces "mouse1". The keyboard is dispatched first, descriptor 8 is removed
next, and the notification is read last. -/
theorem evdev_event_loop_deferred_hotplug_witness :
    new_calls { init_state 32 with ifd := 4 }
      (evdev_event_loop macbookpro { init_state 32 with ifd := 4 } 3 0
        [⟨0x01, 7, 0, 24, ⟨EV_KEY, 0x73, 1⟩⟩, ⟨0x01, 4, 0, 0, ⟨0, 0, 0⟩⟩,
         ⟨0x10, 8, 0, 0, ⟨0, 0, 0⟩⟩]
        ⟨32, 16, "mouse1", 9, ⟨0, 0, 0, 0⟩, [0], 0⟩).2
      = [Call.read 7, Call.kbd_backlight_inhibit_clear InhibitReason.KBD_INHIBIT_IDLE,
         Call.audio_step Step.STEP_UP, Call.epoll_ctl_del 8, Call.close 8, Call.read 4] ∧
    (evdev_event_loop macbookpro { init_state 32 with ifd := 4 } 3 0
        [⟨0x01, 7, 0, 24, ⟨EV_KEY, 0x73, 1⟩⟩, ⟨0x01, 4, 0, 0, ⟨0, 0, 0⟩⟩,
         ⟨0x10, 8, 0, 0, ⟨0, 0, 0⟩⟩]
        ⟨32, 16, "mouse1", 9, ⟨0, 0, 0, 0⟩, [0], 0⟩).2.idle = 0 :=
  ⟨((evdev_event_loop_deferred_hotplug macbookpro { init_state 32 with ifd := 4 } 3 0
      [⟨0x01, 7, 0, 24, ⟨EV_KEY, 0x73, 1⟩⟩, ⟨0x01, 4, 0, 0, ⟨0, 0, 0⟩⟩,
       ⟨0x10, 8, 0, 0, ⟨0, 0, 0⟩⟩]
      [⟨0x01, 7, 0, 24, ⟨EV_KEY, 0x73, 1⟩⟩, ⟨0x01, 4, 0, 0, ⟨0, 0, 0⟩⟩,
       ⟨0x10, 8, 0, 0, ⟨0, 0, 0⟩⟩]
      ⟨32, 16, "mouse1", 9, ⟨0, 0, 0, 0⟩, [0], 0⟩ (by decide) (by decide)).2.1
    ⟨[⟨0x01, 7, 0, 24, ⟨EV_KEY, 0x73, 1⟩⟩], ⟨0x01, 4, 0, 0, ⟨0, 0, 0⟩⟩,
      [⟨0x10, 8, 0, 0, ⟨0, 0, 0⟩⟩], rfl, by decide⟩).2.trans (by decide),
   by decide⟩

/-! ## Invariants of the registry (C15, C19) -/

theorem count_first_slot_set_le (old new g : Int) (l : List Int) (hg : g ≠ new) :
    (first_slot_set old new l).count g ≤ l.count g := by
  induction l with
  | nil => simp [first_slot_set]
  | cons y ys ih =>
    by_cases hy : y = old
    · have : ¬ (new = g) := fun e => hg e.symm
      simp only [first_slot_set, hy, if_true, List.count_cons, beq_iff_eq, this, if_false]
      omega
    · simp only [first_slot_set, hy, if_false, List.count_cons]
      omega

theorem count_first_slot_set_new_le (old new : Int) (l : List Int) :
    (first_slot_set old new l).count new ≤ l.count new + 1 := by
  induction l with
  | nil => simp [first_slot_set]
  | cons y ys ih =>
    by_cases hy : y = old
    · simp only [first_slot_set, hy, if_true, List.count_cons, beq_self_eq_true]
      split <;> omega
    · simp only [first_slot_set, hy, if_false, List.count_cons]
      omega

theorem not_mem_of_fresh (s : State) (fd : Int) (h : s.fresh fd = true) (hne : fd ≠ -1) :
    fd ∉ s.ev_fds := by
  simpa [State.fresh, hne] using h

theorem slots_unique_add (t : List Int) (fd : Int) (h : slots_unique t)
    (hf : fd ≠ -1 → fd ∉ t) : slots_unique (first_slot_set (-1) fd t) := by
  intro g hg
  by_cases hgf : g = fd
  · subst hgf
    have h0 : t.count g = 0 := List.count_eq_zero.mpr (hf hg)
    have := count_first_slot_set_new_le (-1) g t
    omega
  · have := count_first_slot_set_le (-1) fd g t hgf
    have := h g hg
    omega

theorem slots_unique_remove (t : List Int) (fd : Int) (h : slots_unique t) :
    slots_unique (first_slot_set fd (-1) t) := by
  intro g hg
  have := count_first_slot_set_le fd (-1) g t hg
  have := h g hg
  omega

theorem not_mem_after_remove (t : List Int) (fd : Int) (h : slots_unique t) (hne : fd ≠ -1) :
    fd ∉ first_slot_set fd (-1) t :=
  not_mem_first_slot_set_of_count_le_one fd (-1) t hne (h fd hne)

theorem slots_unique_reg_run (cs : List RegCall) :
    ∀ s : State, slots_unique s.ev_fds → adds_fresh s cs = true →
      slots_unique (reg_run s cs).ev_fds := by
  induction cs with
  | nil => intro s h _; exact h
  | cons c cs ih =>
    intro s h hg
    cases c with
    | add fd ctl =>
      simp only [adds_fresh, Bool.and_eq_true] at hg
      refine ih (reg_step s (.add fd ctl)) ?_ hg.2
      simp only [reg_step, evdev_add_ev_fds]
      exact slots_unique_add _ _ h (not_mem_of_fresh s fd hg.1)
    | remove fd ctl =>
      simp only [adds_fresh] at hg
      refine ih (reg_step s (.remove fd ctl)) ?_ hg
      simp only [reg_step, evdev_remove_ev_fds]
      exact slots_unique_remove _ _ h

theorem slots_unique_init (n : Nat) : slots_unique (init_state n).ev_fds := by
  intro fd hfd
  have : (List.replicate n (-1 : Int)).count fd = 0 := by
    apply List.count_eq_zero.mpr
    intro hm
    exact hfd (List.eq_of_mem_replicate hm)
  simp [init_state, this]

/-- C19 (as stated) fails: after `evdev_add(5)` twice two occupied slots hold descriptor 5,
and after `evdev_remove(5)` a slot still holds 5. -/
theorem evdev_add_twice_duplicates_slot :
    (reg_run (init_state 4) [RegCall.add 5 0, RegCall.add 5 (-1)]).ev_fds = [5, 5, -1, -1] ∧
    ¬ slots_unique (reg_run (init_state 4) [RegCall.add 5 0, RegCall.add 5 (-1)]).ev_fds ∧
    (5 : Int) ∈ (evdev_remove
      (reg_run (init_state 4) [RegCall.add 5 0, RegCall.add 5 (-1)]) 5 0).ev_fds := by
  refine ⟨by decide, ?_, by decide⟩
  intro h
  have := h 5 (by decide)
  revert this
  decide

/-- C19 (amended): in every slot table reachable from the all-free table through
`evdev_add` calls on descriptors held in no slot at that moment (as the descriptors
returned by `open` are) and `evdev_remove` calls with arbitrary descriptors, no two
occupied slots hold the same descriptor; and after `evdev_remove(fd)` of a valid
descriptor returns, no slot holds `fd`. -/
theorem slots_unique_reachable (n : Nat) (cs : List RegCall)
    (hg : adds_fresh (init_state n) cs = true) :
    slots_unique (reg_run (init_state n) cs).ev_fds ∧
    ∀ fd ctl : Int, fd ≠ -1 →
      fd ∉ (evdev_remove (reg_run (init_state n) cs) fd ctl).ev_fds := by
  have h := slots_unique_reg_run cs (init_state n) (slots_unique_init n) hg
  refine ⟨h, ?_⟩
  intro fd ctl hne
  rw [evdev_remove_ev_fds]
  exact not_mem_after_remove _ fd h hne

/-- Witness for C19: add 5, add 6, remove 5, add 5 again on a four-slot table; descriptor 6
is then removed and no slot holds it. -/
theorem slots_unique_reachable_witness :
    slots_unique (reg_run (init_state 4)
      [RegCall.add 5 0, RegCall.add 6 0, RegCall.remove 5 0, RegCall.add 5 0]).ev_fds ∧
    (6 : Int) ∉ (evdev_remove (reg_run (init_state 4)
      [RegCall.add 5 0, RegCall.add 6 0, RegCall.remove 5 0, RegCall.add 5 0]) 6 0).ev_fds :=
  ⟨(slots_unique_reachable 4
      [RegCall.add 5 0, RegCall.add 6 0, RegCall.remove 5 0, RegCall.add 5 0] (by decide)).1,
   (slots_unique_reachable 4
      [RegCall.add 5 0, RegCall.add 6 0, RegCall.remove 5 0, RegCall.add 5 0] (by decide)).2
      6 0 (by decide)⟩

theorem agreement_congr (s t : State) (h1 : t.ev_fds = s.ev_fds) (h2 : t.epoll = s.epoll)
    (h : registered s ∧ slots_unique s.ev_fds) : registered t ∧ slots_unique t.ev_fds := by
  unfold registered
  rw [h1, h2]
  exact h

theorem agreement_add (s : State) (fd ctl : Int) (h : registered s ∧ slots_unique s.ev_fds)
    (hc : 0 ≤ ctl) (hf : s.fresh fd = true) :
    registered (evdev_add s fd ctl).2 ∧ slots_unique (evdev_add s fd ctl).2.ev_fds := by
  have hep : (evdev_add s fd ctl).2.epoll = if fd ∈ s.epoll then s.epoll else fd :: s.epoll := by
    have hc2 : ¬ ctl < 0 := by omega
    simp [evdev_add, kernel_epoll_add, hc2]
  refine ⟨?_, ?_⟩
  · intro g hg hne
    rw [evdev_add_ev_fds] at hg
    rw [hep]
    rcases mem_of_mem_first_slot_set _ _ _ _ hg with h1 | h1
    · have := h.1 g h1 hne
      split
      · exact this
      · exact List.mem_cons_of_mem _ this
    · subst h1
      split
      · assumption
      · exact List.mem_cons_self _ _
  · rw [evdev_add_ev_fds]
    exact slots_unique_add _ _ h.2 (not_mem_of_fresh s fd hf)

theorem agreement_remove (s : State) (fd ctl : Int)
    (h : registered s ∧ slots_unique s.ev_fds) :
    registered (evdev_remove s fd ctl) ∧ slots_unique (evdev_remove s fd ctl).ev_fds := by
  refine ⟨?_, ?_⟩
  · intro g hg hne
    rw [evdev_remove_ev_fds] at hg
    have hgf : g ≠ fd := by
      intro e
      subst e
      exact not_mem_after_remove _ g h.2 hne hg
    have hgl : g ∈ s.ev_fds := by
      rcases mem_of_mem_first_slot_set _ _ _ _ hg with h1 | h1
      · exact h1
      · exact absurd h1 hne
    have hge := h.1 g hgl hne
    simp only [evdev_remove, sys_close, kernel_epoll_del]
    split <;> simp [hge, hgf]
  · rw [evdev_remove_ev_fds]
    exact slots_unique_remove _ _ h.2

theorem agreement_close (s : State) (fd : Int) (h : registered s ∧ slots_unique s.ev_fds)
    (hf : s.fresh fd = true) :
    registered (sys_close s fd) ∧ slots_unique (sys_close s fd).ev_fds := by
  refine ⟨?_, h.2⟩
  intro g hg hne
  have hgl : g ∈ s.ev_fds := hg
  have hgf : g ≠ fd := by
    intro e
    subst e
    exact not_mem_of_fresh s g hf hne hgl
  have := h.1 g hgl hne
  simp [sys_close, this, hgf]

theorem agreement_try_add (cfg : Config) (s : State) (fd : Int) (id : Identity)
    (bit0 : List Nat) (ctl : Int) (h : registered s ∧ slots_unique s.ev_fds)
    (hc : 0 ≤ ctl) (hf : s.fresh fd = true) :
    registered (evdev_try_add cfg s fd id bit0 ctl).2
      ∧ slots_unique (evdev_try_add cfg s fd id bit0 ctl).2.ev_fds := by
  have h1 : registered { s with trace := s.trace ++ (cfg.evdev_identify id).2 }
      ∧ slots_unique ({ s with trace := s.trace ++ (cfg.evdev_identify id).2 } : State).ev_fds :=
    agreement_congr s _ rfl rfl h
  have hf1 : State.fresh { s with trace := s.trace ++ (cfg.evdev_identify id).2 } fd = true :=
    hf
  unfold evdev_try_add
  dsimp only
  repeat' split
  all_goals
    first
    | exact agreement_close _ fd h1 hf1
    | exact agreement_add _ fd ctl h1 hc hf1

theorem agreement_body (cfg : Config) (s : State) (e : Ready)
    (h : registered s ∧ slots_unique s.ev_fds) :
    registered (event_loop_body cfg (s, false) e).1
      ∧ slots_unique (event_loop_body cfg (s, false) e).1.ev_fds := by
  obtain ⟨h1, h2, h3⟩ := entry_calls_cases cfg s e
  cases he : e.err_hup
  · by_cases hw : e.readable = true ∧ e.fd ≠ s.ifd
    · rw [(h2 he hw.1 hw.2).1]
      obtain ⟨t1, t2, _⟩ := evdev_process_events_frame cfg s e.fd e.ret e.ev
      exact agreement_congr s _ t1 t2 h
    · have : e.readable = false ∨ e.fd = s.ifd := by
        by_cases hr : e.readable = true
        · right
          by_contra hne
          exact hw ⟨hr, hne⟩
        · left
          simpa using hr
      rw [(h3 he this).1]
      exact h
  · rw [(h1 he).1]
    apply agreement_remove
    split
    · exact agreement_congr s _ rfl rfl h
    · exact h

theorem agreement_scan (cfg : Config) (es : List Ready) :
    ∀ (s : State) (f : Bool), registered s ∧ slots_unique s.ev_fds →
      registered (event_loop_scan cfg (s, f) es).1
        ∧ slots_unique (event_loop_scan cfg (s, f) es).1.ev_fds := by
  induction es with
  | nil => intro s f h; exact h
  | cons e es ih =>
    intro s f h
    rw [event_loop_scan_cons]
    exact ih _ _ (agreement_body cfg s e h)

theorem agreement_inotify (cfg : Config) (s : State) (a : InotifyAnswers)
    (h : registered s ∧ slots_unique s.ev_fds) (hc : 0 ≤ a.ctl) (hf : s.fresh a.fd = true) :
    registered (evdev_inotify_process cfg s a)
      ∧ slots_unique (evdev_inotify_process cfg s a).ev_fds := by
  have h0 : registered (call s (Call.read s.ifd))
      ∧ slots_unique (call s (Call.read s.ifd)).ev_fds := agreement_congr s _ rfl rfl h
  unfold evdev_inotify_process
  dsimp only
  repeat' split
  all_goals first | exact h0 | skip
  exact agreement_try_add cfg _ a.fd a.id a.bit0 a.ctl
    (agreement_congr s _ rfl rfl h) hc hf

theorem agreement_cycle (cfg : Config) (s : State) (c : Cycle)
    (h : registered s ∧ slots_unique s.ev_fds) (hc : 0 ≤ c.ino.ctl)
    (hf : (event_loop_scan cfg (s, false) (c.events.take c.nfds.toNat)).1.fresh c.ino.fd
      = true) :
    registered (run_cycle cfg s c) ∧ slots_unique (run_cycle cfg s c).ev_fds := by
  by_cases hn : c.nfds < 0
  · unfold run_cycle evdev_event_loop
    rw [if_pos hn]
    split <;> exact h
  · unfold run_cycle
    rw [evdev_event_loop_of_nonneg cfg s c.nfds c.errno c.events c.ino (by omega)]
    dsimp only
    have hs := agreement_scan cfg (c.events.take c.nfds.toNat) s false h
    split
    · exact agreement_inotify cfg _ c.ino hs hc hf
    · exact hs

theorem agreement_op_run (cfg : Config) (ops : List Op) :
    ∀ s : State, registered s ∧ slots_unique s.ev_fds → op_guard cfg s ops = true →
      registered (op_run cfg s ops) ∧ slots_unique (op_run cfg s ops).ev_fds := by
  induction ops with
  | nil => intro s h _; exact h
  | cons op ops ih =>
    intro s h hg
    cases op with
    | add fd ctl =>
      simp only [op_guard, Bool.and_eq_true, decide_eq_true_eq] at hg
      exact ih _ (agreement_add s fd ctl h hg.1.1 hg.1.2) hg.2
    | try_add fd id bit0 ctl =>
      simp only [op_guard, Bool.and_eq_true, decide_eq_true_eq] at hg
      exact ih _ (agreement_try_add cfg s fd id bit0 ctl h hg.1.1 hg.1.2) hg.2
    | remove fd ctl =>
      simp only [op_guard] at hg
      exact ih _ (agreement_remove s fd ctl h) hg
    | event_loop c =>
      simp only [op_guard, Bool.and_eq_true, decide_eq_true_eq] at hg
      exact ih _ (agreement_cycle cfg s c h hg.1.1 hg.1.2) hg.2

/-- C15 (as stated) fails: on the empty table `evdev_add(5)` with `epoll_ctl` failing
returns -1 and leaves descriptor 5 in a slot although it is not in the epoll set; and a
descriptor that is held and registered (7) and is handed to `evdev_try_add` again and
rejected is closed, which drops it from the epoll set while its slot keeps it. -/
theorem evdev_add_keeps_slot_on_epoll_failure :
    (evdev_add (init_state 4) 5 (-1)).1 = -1 ∧
    (5 : Int) ∈ (evdev_add (init_state 4) 5 (-1)).2.ev_fds ∧
    (5 : Int) ∉ (evdev_add (init_state 4) 5 (-1)).2.epoll ∧
    ¬ registered (evdev_add (init_state 4) 5 (-1)).2 ∧
    ¬ registered (op_run macbookpro (init_state 4)
        [Op.add 7 0, Op.try_add 7 ⟨0, 0, 0, 0⟩ [0x03] 0]) := by
  refine ⟨by decide, by decide, by decide, ?_, ?_⟩
  · intro h
    have := h 5 (by decide) (by decide)
    revert this
    decide
  · intro h
    have := h 7 (by decide) (by decide)
    revert this
    decide

/-- C15 (amended): in every state reachable from a state with the empty table of
`evdev_init` (whatever the watcher `ifd` and the epoll set are) through `evdev_add`,
`evdev_try_add`, `evdev_remove` and `evdev_event_loop` in which every `epoll_ctl(ADD)`
succeeded and every descriptor handed to `evdev_add` or `evdev_try_add` (the one opened by
the hot-plug processing included) was held in no slot at that moment, every descriptor held
in a slot of `ev_fds` is also registered in the epoll set, no two slots hold the same
descriptor, and `evdev_remove(fd)` of a valid descriptor removes it from both: afterwards
it is in no slot and not in the epoll set. -/
theorem registry_epoll_agreement (cfg : Config) (n : Nat) (s0 : State) (ops : List Op)
    (h0 : s0.ev_fds = (init_state n).ev_fds)
    (hg : op_guard cfg s0 ops = true) :
    registered (op_run cfg s0 ops) ∧
    slots_unique (op_run cfg s0 ops).ev_fds ∧
    ∀ fd ctl : Int, fd ≠ -1 →
      fd ∉ (evdev_remove (op_run cfg s0 ops) fd ctl).ev_fds ∧
      fd ∉ (evdev_remove (op_run cfg s0 ops) fd ctl).epoll := by
  have hinit : registered s0 ∧ slots_unique s0.ev_fds := by
    unfold registered
    rw [h0]
    refine ⟨?_, slots_unique_init n⟩
    intro fd hm hne
    exact absurd (List.eq_of_mem_replicate hm) hne
  have h := agreement_op_run cfg ops s0 hinit hg
  refine ⟨h.1, h.2, ?_⟩
  intro fd ctl hne
  refine ⟨?_, evdev_remove_not_mem_epoll _ _ _⟩
  rw [evdev_remove_ev_fds]
  exact not_mem_after_remove _ fd h.2 hne

/-- Witness for C15: with the watcher on descriptor 4, a keyboard on descriptor 7 is added
through `evdev_try_add` and the beeper on descriptor 9 through `evdev_add`; a cycle reports
a hang-up on 7 and read-readiness of the watcher, whose record "event6" opens as descriptor
7 again, a Geyser IV keyboard, which is added; then descriptor 9 is removed. -/
theorem registry_epoll_agreement_witness :
    registered (op_run macbookpro { init_state 4 with ifd := 4, epoll := [4] }
      [Op.try_add 7 ⟨0x03, 0x05ac, 0x021a, 0⟩ [0x03] 0, Op.add 9 0,
       Op.event_loop ⟨2, 0, [⟨0x10, 7, 0, 0, ⟨0, 0, 0⟩⟩, ⟨0x01, 4, 0, 0, ⟨0, 0, 0⟩⟩],
         ⟨32, 16, "event6", 7, ⟨0x03, 0x05ac, 0x021a, 0⟩, [0x03], 0⟩⟩]) ∧
    (9 : Int) ∉ (evdev_remove (op_run macbookpro { init_state 4 with ifd := 4, epoll := [4] }
      [Op.try_add 7 ⟨0x03, 0x05ac, 0x021a, 0⟩ [0x03] 0, Op.add 9 0,
       Op.event_loop ⟨2, 0, [⟨0x10, 7, 0, 0, ⟨0, 0, 0⟩⟩, ⟨0x01, 4, 0, 0, ⟨0, 0, 0⟩⟩],
         ⟨32, 16, "event6", 7, ⟨0x03, 0x05ac, 0x021a, 0⟩, [0x03], 0⟩⟩]) 9 0).epoll :=
  ⟨(registry_epoll_agreement macbookpro 4 { init_state 4 with ifd := 4, epoll := [4] }
      [Op.try_add 7 ⟨0x03, 0x05ac, 0x021a, 0⟩ [0x03] 0, Op.add 9 0,
       Op.event_loop ⟨2, 0, [⟨0x10, 7, 0, 0, ⟨0, 0, 0⟩⟩, ⟨0x01, 4, 0, 0, ⟨0, 0, 0⟩⟩],
         ⟨32, 16, "event6", 7, ⟨0x03, 0x05ac, 0x021a, 0⟩, [0x03], 0⟩⟩] rfl (by decide)).1,
   ((registry_epoll_agreement macbookpro 4 { init_state 4 with ifd := 4, epoll := [4] }
      [Op.try_add 7 ⟨0x03, 0x05ac, 0x021a, 0⟩ [0x03] 0, Op.add 9 0,
       Op.event_loop ⟨2, 0, [⟨0x10, 7, 0, 0, ⟨0, 0, 0⟩⟩, ⟨0x01, 4, 0, 0, ⟨0, 0, 0⟩⟩],
         ⟨32, 16, "event6", 7, ⟨0x03, 0x05ac, 0x021a, 0⟩, [0x03], 0⟩⟩] rfl (by decide)).2.2
      9 0 (by decide)).2⟩


end Pommed
